import Mathlib

/-!
# simple_new_handler: the reserve pool behind `std::set_new_handler`

A shallow embedding of `simple::NewHandler` (`src/simple_new_handler.h`).

* The five `static inline` members of the class become the first five fields of
  `Machine`.
* The members are process-wide, so the parts of the C++ runtime the two functions
  talk to are carried in the same record: the handler registered through
  `std::set_new_handler`, the memory word `blk_arr[0].m_next` of every array, the
  behaviour of `new (std::nothrow)`, and the sequence of effects performed so far.
* `size_t` is 64 bits wide and `unsigned int` 32 bits wide; `sizeof(Blk)` is the
  size of one pointer, 8.  Arithmetic that can wrap is written with an explicit `%`.
* Pointers are natural numbers, `0` is `nullptr`.  The `k`-th nothrow request that
  is granted returns the address `k + 1`: storage handed out by `operator new[]`
  never aliases storage that is still live, and `Init` keeps every array it
  obtained live until its loop is over.
* `Init` is cut along its source lines into `initConfig`, `initFinal`, `initReserve`
  (the loop `reserveLoop` and `releaseExtra`) and `initHandler`; `Process` into
  `processRelease` and `processTerminal`.
* `std::terminate`, `std::raise` and the call of the previous handler are effects whose
  inside is not modelled; `Process` reports through `Outcome` whether it returned.
-/

namespace simple

/-- Number of values of a `size_t`. -/
def SIZE_MOD : Nat := 2 ^ 64

/-- Number of values of an `unsigned int`. -/
def UINT_MOD : Nat := 2 ^ 32

/-- The constant `std::numeric_limits<unsigned int>::max()`. -/
def UINT_MAX : Nat := 2 ^ 32 - 1

/-- The constant `sizeof(Blk)`: a `Blk` holds the single pointer `m_next`. -/
def sizeofBlk : Nat := 8

/-- Basic state, `NewHandler::State`. -/
structure State where
  allocated_block_count : Nat
  available_block_count : Nat
deriving DecidableEq

/-- Full state, `NewHandler::FullState`. -/
structure FullState where
  init_done : Bool
  chained : Bool
  signo : Int
  final_block_size : Nat
  final_block_allocated : Bool
  reserved_block_size : Nat
  reserved_block_count : Nat
  state : State
deriving DecidableEq

/-- The member function `FullState::GetState`. -/
def FullState.GetState (f : FullState) : State := f.state

/-- A non-null `std::new_handler`: either `NewHandler::Process` or a function of the
application, told apart by a number. -/
inductive Hook where
  | process
  | external (id : Nat)
deriving DecidableEq

/-- Effects of the library that are visible outside it. -/
inductive Event where
  /-- The expression `new (std::nothrow) Blk[elems]` evaluated to `result`. -/
  | new_nothrow (elems : Nat) (result : Nat)
  /-- The statement `delete[] p` for a non-null `p`. -/
  | delete_arr (p : Nat)
  /-- The call `std::set_new_handler(h)`. -/
  | set_new_handler (h : Option Hook)
  /-- The call `std::raise(signo)`. -/
  | raise (signo : Int)
  /-- The call `prev_handler_()`. -/
  | invoke (h : Hook)
  /-- The call `std::terminate()`. -/
  | terminate
deriving DecidableEq

/-- The static members of `NewHandler` together with the runtime around them. -/
structure Machine where
  /-- Member `full_state_`. -/
  full_state_ : FullState
  /-- Member `available_block_count_`, an `unsigned int`. -/
  available_block_count_ : Nat
  /-- Member `final_block_`. -/
  final_block_ : Nat
  /-- Member `blk_arr_list_`, the head of the intrusive list. -/
  blk_arr_list_ : Nat
  /-- Member `prev_handler_`. -/
  prev_handler_ : Option Hook
  /-- Memory: the value of `p[0].m_next` for the array at address `p`. -/
  m_next : Nat → Nat
  /-- The handler currently registered with the runtime. -/
  new_handler : Option Hook
  /-- Allocator behaviour: whether the nothrow request number `k` is granted. -/
  grant : Nat → Bool
  /-- Number of nothrow requests made so far. -/
  requests : Nat
  /-- Effects performed so far, oldest first. -/
  trace : List Event

/-- The state of the process before anything of the library has run.  The members
have static storage duration, so they are zero-initialised before the constructor
of `FullState` runs, and that constructor writes zero/false to the fields it names;
`chained`, which it does not name, keeps its zero.  `hook` is the handler the
application registered beforehand, if any; it is a function of the application, not
`NewHandler::Process` itself. -/
def initial (grant : Nat → Bool) (hook : Option Nat) : Machine where
  full_state_ :=
    { init_done := false, chained := false, signo := 0, final_block_size := 0,
      final_block_allocated := false, reserved_block_size := 0,
      reserved_block_count := 0,
      state := { allocated_block_count := 0, available_block_count := 0 } }
  available_block_count_ := 0
  final_block_ := 0
  blk_arr_list_ := 0
  prev_handler_ := none
  m_next := fun _ => 0
  new_handler := hook.map Hook.external
  grant := grant
  requests := 0
  trace := []

/-- The accessor `NewHandler::GetState`. -/
def GetState (s : Machine) : State := s.full_state_.GetState

/-- The accessor `NewHandler::GetFullState`. -/
def GetFullState (s : Machine) : FullState := s.full_state_

/-- Record one effect. -/
def emit (e : Event) (s : Machine) : Machine :=
  { s with trace := s.trace ++ [e] }

/-- The expression `new (std::nothrow) Blk[elems]` as `Init` sees it: the pointer
obtained (`0` when the request is refused) and the state afterwards.  `Init` makes all
its requests before it registers `Process`, so `Process` never runs inside one. -/
def new_nothrow (elems : Nat) (s : Machine) : Nat × Machine :=
  let p := if s.grant s.requests then s.requests + 1 else 0
  (p, emit (Event.new_nothrow elems p) { s with requests := s.requests + 1 })

/-- The statement `delete[] p`; deleting `nullptr` does nothing. -/
def delete_arr (p : Nat) (s : Machine) : Machine :=
  if p = 0 then s else emit (Event.delete_arr p) s

/-- The call `std::set_new_handler(h)`: the handler registered before, and the
state afterwards. -/
def set_new_handler (h : Option Hook) (s : Machine) : Option Hook × Machine :=
  (s.new_handler, emit (Event.set_new_handler h) { s with new_handler := h })

/-- The assignment `p[0].m_next = v`. -/
def store_next (p v : Nat) (s : Machine) : Machine :=
  { s with m_next := fun q => if q = p then v else s.m_next q }

/-- Lines 159-160 of `Init`: put the array `blk_arr` in front of the list. -/
def link (blk_arr : Nat) (s : Machine) : Machine :=
  { store_next blk_arr s.blk_arr_list_ s with blk_arr_list_ := blk_arr }

/-- Lines 113-117 of `Init`: the flag and the requested configuration. -/
def initConfig (final_block_size reserved_block_count reserved_block_size : Nat)
    (signo : Int) (s : Machine) : Machine :=
  { s with full_state_ :=
      { s.full_state_ with
        init_done := true, signo := signo, final_block_size := final_block_size,
        reserved_block_count := reserved_block_count,
        reserved_block_size := reserved_block_size } }

/-- The local `finalSize` of `Init` (lines 119-120). -/
def finalSize (final_block_size : Nat) : Nat :=
  (final_block_size + sizeofBlk - 1) % SIZE_MOD / sizeofBlk * sizeofBlk % SIZE_MOD

/-- Lines 122-132 of `Init`: the final block. -/
def initFinal (final_block_size : Nat) (s : Machine) : Machine :=
  if finalSize final_block_size ≠ 0 then
    let r := new_nothrow (finalSize final_block_size / sizeofBlk) s
    let s1 := { r.2 with final_block_ := r.1 }
    if r.1 ≠ 0 then
      store_next r.1 0
        { s1 with full_state_ := { s1.full_state_ with final_block_allocated := true } }
    else s1
  else s

/-- The local `block_limit` of `Init` (lines 134-141). -/
def blockLimit (reserved_block_count : Nat) : Nat :=
  if (reserved_block_count + 1) % SIZE_MOD < UINT_MAX then
    (reserved_block_count + 1) % SIZE_MOD % UINT_MOD
  else UINT_MAX

/-- The local `reserved_arr_size` of `Init` (lines 144-145). -/
def reservedArrSize (reserved_block_size : Nat) : Nat :=
  (reserved_block_size + sizeofBlk - 1) % SIZE_MOD / sizeofBlk

/-- The `for` loop of `Init` (lines 150-161).  The first argument is the number of
iterations still allowed, `block_limit - ii`; the second is `arr_count`.  Returns
`arr_count` at loop exit and the state. -/
def reserveLoop (reserved_arr_size : Nat) : Nat → Nat → Machine → Nat × Machine
  | 0, arr_count, s => (arr_count, s)
  | n + 1, arr_count, s =>
    let r := new_nothrow reserved_arr_size s
    if r.1 = 0 then (arr_count, r.2)
    else
      reserveLoop reserved_arr_size n ((arr_count + 1) % SIZE_MOD) (link r.1 r.2)

/-- Lines 163-174 of `Init`: give the last array back and publish the counts. -/
def releaseExtra (arr_count : Nat) (s : Machine) : Machine :=
  if s.blk_arr_list_ ≠ 0 then
    let blk_arr := s.blk_arr_list_
    let s1 := delete_arr blk_arr { s with blk_arr_list_ := s.m_next blk_arr }
    let c := (arr_count + SIZE_MOD - 1) % SIZE_MOD
    { s1 with
      full_state_ :=
        { s1.full_state_ with
          state := { allocated_block_count := c, available_block_count := c } },
      available_block_count_ := c % UINT_MOD }
  else s

/-- Lines 143-175 of `Init`: the reserve pool. -/
def initReserve (reserved_block_count reserved_block_size : Nat) (s : Machine) : Machine :=
  if reserved_block_count ≠ 0 ∧ reserved_block_size ≠ 0 then
    let r := reserveLoop (reservedArrSize reserved_block_size)
      (blockLimit reserved_block_count) 0 s
    releaseExtra r.1 r.2
  else s

/-- Lines 177-186 of `Init`: registration, with or without chaining. -/
def initHandler (allow_chain : Bool) (s : Machine) : Machine :=
  if allow_chain = false then (set_new_handler (some Hook.process) s).2
  else
    let r := set_new_handler (some Hook.process) s
    let s1 := { r.2 with prev_handler_ := r.1 }
    if s1.prev_handler_.isSome then
      { s1 with full_state_ := { s1.full_state_ with chained := true } }
    else s1

/-- The function `NewHandler::Init`.  It always returns to its caller. -/
def Init (final_block_size reserved_block_count reserved_block_size : Nat) (signo : Int)
    (allow_chain : Bool) (s : Machine) : Machine :=
  if s.full_state_.init_done then s
  else
    initHandler allow_chain
      (initReserve reserved_block_count reserved_block_size
        (initFinal final_block_size
          (initConfig final_block_size reserved_block_count reserved_block_size signo s)))

/-- How an invocation of `Process` ends: it returns to the runtime, which retries
the allocation; or it has called the previous handler; or it has called
`std::terminate`. -/
inductive Outcome where
  | returned
  | delegated (h : Hook)
  | terminated
deriving DecidableEq

/-- Lines 192-210 of `Process`: the branch taken when `blk_arr_list_` is not null. -/
def processRelease (s : Machine) : Machine :=
  let blk_arr := s.blk_arr_list_
  let s1 := delete_arr blk_arr { s with blk_arr_list_ := s.m_next blk_arr }
  let s2 :=
    if s1.available_block_count_ > 0 then
      let c := s1.available_block_count_ - 1
      { s1 with
        available_block_count_ := c,
        full_state_ :=
          { s1.full_state_ with
            state := { s1.full_state_.state with available_block_count := c } } }
    else s1
  if s2.full_state_.signo ≠ 0 then emit (Event.raise s2.full_state_.signo) s2 else s2

/-- Lines 212-221 of `Process`: the branch taken when `blk_arr_list_` is null. -/
def processTerminal (s : Machine) : Outcome × Machine :=
  let s1 := { delete_arr s.final_block_ s with final_block_ := 0 }
  match s1.prev_handler_ with
  | some h => (Outcome.delegated h, emit (Event.invoke h) (set_new_handler (some h) s1).2)
  | none => (Outcome.terminated, emit Event.terminate s1)

/-- The function `NewHandler::Process`. -/
def Process (s : Machine) : Outcome × Machine :=
  if s.blk_arr_list_ ≠ 0 then (Outcome.returned, processRelease s)
  else processTerminal s


/-- One call into the library. -/
inductive Op where
  | init (final_block_size reserved_block_count reserved_block_size : Nat) (signo : Int)
      (allow_chain : Bool)
  | process

/-- The state after one call. -/
def step (s : Machine) : Op → Machine
  | Op.init f c z g a => Init f c z g a s
  | Op.process => (Process s).2

/-- The state after a sequence of calls, first call first. -/
def runOps (s : Machine) (ops : List Op) : Machine := ops.foldl step s

/-- The state after `k` invocations of `Process`. -/
def processN : Nat → Machine → Machine
  | 0, s => s
  | k + 1, s => processN k (Process s).2

/-- The arrays reached from the pointer `p` by following `m_next` up to `nullptr`. -/
def Chain (m : Nat → Nat) : Nat → List Nat → Prop
  | p, [] => p = 0
  | p, x :: xs => p = x ∧ x ≠ 0 ∧ Chain m (m x) xs

/-- What holds of the members in every state the library can be in. -/
structure Inv (s : Machine) : Prop where
  /-- The list holds as many arrays as the counter says, all handed out earlier. -/
  chain : ∃ xs, Chain s.m_next s.blk_arr_list_ xs ∧ xs.length = s.available_block_count_ ∧
    ∀ x ∈ xs, x ≤ s.requests
  /-- The reported count is the counter. -/
  reported : s.full_state_.state.available_block_count = s.available_block_count_
  /-- No more arrays are available than were retained. -/
  bounded : s.available_block_count_ ≤ s.full_state_.state.allocated_block_count
  /-- No more arrays were retained than requested. -/
  limit : s.full_state_.state.allocated_block_count ≤ s.full_state_.reserved_block_count
  /-- The flag `chained` says whether a previous handler is held. -/
  chained : s.full_state_.chained = s.prev_handler_.isSome
  /-- The previous handler is never `Process` itself. -/
  not_self : s.prev_handler_ ≠ some Hook.process
  /-- Before `Init` nothing is held and `Process` is not registered. -/
  fresh : s.full_state_.init_done = false →
    s.full_state_.state.allocated_block_count = 0 ∧ s.prev_handler_ = none ∧
    s.final_block_ = 0 ∧ s.new_handler ≠ some Hook.process

/-- What the loop leaves alone. -/
structure LoopFrame (s t : Machine) : Prop where
  full_state_ : t.full_state_ = s.full_state_
  available_block_count_ : t.available_block_count_ = s.available_block_count_
  final_block_ : t.final_block_ = s.final_block_
  prev_handler_ : t.prev_handler_ = s.prev_handler_
  new_handler : t.new_handler = s.new_handler
  grant : t.grant = s.grant

/-- The pool as `Init` leaves it when it starts from an empty list. -/
structure PoolReady (limit : Nat) (s t : Machine) : Prop where
  chain : ∃ xs, Chain t.m_next t.blk_arr_list_ xs ∧ xs.length = t.available_block_count_ ∧
    ∀ x ∈ xs, x ≤ t.requests
  available : t.full_state_.state.available_block_count = t.available_block_count_
  allocated : t.full_state_.state.allocated_block_count = t.available_block_count_
  le_limit : t.available_block_count_ ≤ limit
  full_state_ : t.full_state_ = { s.full_state_ with state := t.full_state_.state }
  final_block_ : t.final_block_ = s.final_block_
  prev_handler_ : t.prev_handler_ = s.prev_handler_
  new_handler : t.new_handler = s.new_handler
  grant : t.grant = s.grant

/-- What the final-block step of `Init` leaves alone. -/
structure FinalFrame (s t : Machine) : Prop where
  full_state_ : t.full_state_ =
    { s.full_state_ with final_block_allocated := t.full_state_.final_block_allocated }
  available_block_count_ : t.available_block_count_ = s.available_block_count_
  blk_arr_list_ : t.blk_arr_list_ = s.blk_arr_list_
  prev_handler_ : t.prev_handler_ = s.prev_handler_
  new_handler : t.new_handler = s.new_handler
  grant : t.grant = s.grant

/-- What the registration step of `Init` does. -/
structure HandlerFrame (allow_chain : Bool) (s t : Machine) : Prop where
  full_state_ : t.full_state_ =
    { s.full_state_ with chained := t.full_state_.chained }
  chained : t.full_state_.chained =
    if allow_chain = true ∧ s.new_handler.isSome = true then true else s.full_state_.chained
  prev_handler_ : t.prev_handler_ = if allow_chain = true then s.new_handler else s.prev_handler_
  new_handler : t.new_handler = some Hook.process
  available_block_count_ : t.available_block_count_ = s.available_block_count_
  blk_arr_list_ : t.blk_arr_list_ = s.blk_arr_list_
  final_block_ : t.final_block_ = s.final_block_
  m_next : t.m_next = s.m_next
  requests : t.requests = s.requests
  grant : t.grant = s.grant

/-- What `Process` leaves alone on either branch. -/
structure ProcessFrame (s t : Machine) : Prop where
  prev_handler_ : t.prev_handler_ = s.prev_handler_
  m_next : t.m_next = s.m_next
  grant : t.grant = s.grant
  requests : t.requests = s.requests

/-- The signals raised by a sequence of effects, in order. -/
def signalsRaised : List Event → List Int
  | [] => []
  | Event.raise signo :: es => signo :: signalsRaised es
  | _ :: es => signalsRaised es

/-- The two full states agree on everything except the number of available arrays. -/
structure SameConfig (a b : FullState) : Prop where
  init_done : b.init_done = a.init_done
  chained : b.chained = a.chained
  signo : b.signo = a.signo
  final_block_size : b.final_block_size = a.final_block_size
  final_block_allocated : b.final_block_allocated = a.final_block_allocated
  reserved_block_size : b.reserved_block_size = a.reserved_block_size
  reserved_block_count : b.reserved_block_count = a.reserved_block_count
  allocated_block_count : b.state.allocated_block_count = a.state.allocated_block_count

/-- The invocations of `Process` in a run where `k` allocations fail one after the other
and nothing but the runtime's reaction to them touches the library or the registration:
for each invocation, the state it started in and how it ended.  On a failed allocation the
runtime calls the registered handler.  When that is `Process` and it returns, the
allocation is retried; when it has delegated, the run goes on with whatever is registered
then; when it has called `std::terminate`, the process is over.  A handler of the
application does not involve the library. -/
def invocations : Nat → Machine → List (Machine × Outcome)
  | 0, _ => []
  | k + 1, s =>
    if s.new_handler = some Hook.process then
      (s, (Process s).1) ::
        (if (Process s).1 = Outcome.terminated then [] else invocations k (Process s).2)
    else invocations k s

/-- An invocation that took the terminal branch: it did not return to the runtime. -/
def isTerminal (i : Machine × Outcome) : Bool := decide (i.2 ≠ Outcome.returned)

/-- The effects of `j` granted requests for `sz` elements in a row, made when `first`
requests have been made before. -/
def grantedEvents (sz : Nat) : Nat → Nat → List Event
  | _, 0 => []
  | first, j + 1 => Event.new_nothrow sz (first + 1) :: grantedEvents sz (first + 1) j

/-- The pointers the nothrow requests among the effects evaluated to, in order. -/
def allocResults : List Event → List Nat
  | [] => []
  | Event.new_nothrow _ p :: es => p :: allocResults es
  | _ :: es => allocResults es

/-- The results of the nothrow requests `Init` makes for the reserve pool, in order: the
requests that come after the final-block step. -/
def reserveResults (final_block_size reserved_block_count reserved_block_size : Nat)
    (signo : Int) (allow_chain : Bool) (s : Machine) : List Nat :=
  allocResults ((Init final_block_size reserved_block_count reserved_block_size signo
    allow_chain s).trace.drop
      (initFinal final_block_size (initConfig final_block_size reserved_block_count
        reserved_block_size signo s)).trace.length)

/-- The number of requests granted in a row from request number `first` on, among at most
`n` requests. -/
def grantedRun (grant : Nat → Bool) : Nat → Nat → Nat
  | _, 0 => 0
  | first, n + 1 => if grant first = true then grantedRun grant (first + 1) n + 1 else 0

/-- The addresses `first + j`, ..., `first + 1`: the arrays obtained by `j` granted
requests made after `first` earlier ones, the latest in front. -/
def stacked (first : Nat) : Nat → List Nat
  | 0 => []
  | j + 1 => (first + j + 1) :: stacked first j

/-- The results of the nothrow requests `Init` makes in its final-block step. -/
def finalResults (final_block_size reserved_block_count reserved_block_size : Nat)
    (signo : Int) (s : Machine) : List Nat :=
  allocResults ((initFinal final_block_size (initConfig final_block_size reserved_block_count
    reserved_block_size signo s)).trace.drop s.trace.length)

/-- An effect that registers or calls a handler other than `Process`. -/
def touchesOtherHandler : Event → Bool
  | Event.invoke _ => true
  | Event.set_new_handler h => decide (h ≠ some Hook.process)
  | _ => false

/-- The pointer `final_block_` holds after the first `Init`: the first request is the one
for the final block, made when the rounded size is not zero. -/
def finalPtr (grant : Nat → Bool) (final_block_size : Nat) : Nat :=
  if finalSize final_block_size ≠ 0 ∧ grant 0 = true then 1 else 0

/-- The number of requests the first `Init` makes before those for the reserve pool. -/
def finalRequests (final_block_size : Nat) : Nat :=
  if finalSize final_block_size ≠ 0 then 1 else 0

/-- The number of reserve arrays the first `Init` obtains, the extra one included. -/
def reserveRun (grant : Nat → Bool)
    (final_block_size reserved_block_count reserved_block_size : Nat) : Nat :=
  if reserved_block_count ≠ 0 ∧ reserved_block_size ≠ 0 then
    grantedRun grant (finalRequests final_block_size) (blockLimit reserved_block_count)
  else 0

/-- The effects of the first `Init` from its reserve step on. -/
def reserveEvents (grant : Nat → Bool)
    (final_block_size reserved_block_count reserved_block_size : Nat) : List Event :=
  (if reserved_block_count ≠ 0 ∧ reserved_block_size ≠ 0 then
    grantedEvents (reservedArrSize reserved_block_size) (finalRequests final_block_size)
        (reserveRun grant final_block_size reserved_block_count reserved_block_size) ++
      ((if reserveRun grant final_block_size reserved_block_count reserved_block_size <
            blockLimit reserved_block_count
          then [Event.new_nothrow (reservedArrSize reserved_block_size) 0] else []) ++
        (if reserveRun grant final_block_size reserved_block_count reserved_block_size = 0
          then []
          else [Event.delete_arr (finalRequests final_block_size +
            reserveRun grant final_block_size reserved_block_count reserved_block_size)]))
   else []) ++ [Event.set_new_handler (some Hook.process)]

/-- What holds of the final block, whose address after `Init` is `p` (`0` when none is
held), in every state reached afterwards. -/
structure FinalInv (p : Nat) (s : Machine) : Prop where
  /-- The slot holds the block or has been cleared. -/
  slot : s.final_block_ = p ∨ s.final_block_ = 0
  /-- The block is not one of the arrays in the list. -/
  apart : ∃ xs, Chain s.m_next s.blk_arr_list_ xs ∧ ∀ x ∈ xs, x ≠ p
  /-- The block has been deleted once if the slot no longer holds it, and never before. -/
  freed : s.trace.count (Event.delete_arr p) = if s.final_block_ = p then 0 else 1

/-- The effects of one invocation of `Process` that starts in the state `s`. -/
def invocationEffects (s : Machine) : List Event :=
  (Process s).2.trace.drop s.trace.length

/-- Where the arrays `obtained` by `Init` for the reserve pool are, in a state reached
afterwards. -/
structure Lifecycle (obtained : List Nat) (s : Machine) : Prop where
  /-- Each of them has been deleted once and is off the list, or has not been deleted and
  is on the list once. -/
  list : ∃ xs, Chain s.m_next s.blk_arr_list_ xs ∧ xs.Nodup ∧
    ∀ p ∈ obtained, s.trace.count (Event.delete_arr p) + xs.count p = 1
  /-- The final block is not one of them. -/
  final : s.final_block_ ∉ obtained
  /-- None of them is `nullptr`. -/
  nonnull : 0 ∉ obtained

/-! ## The two earlier variants

`src/legacy/simple_new_handler.h` and `src/include/simple_new_handler.h` keep the members
in a `Worker` object, the function-local static of `GetWorker()`.  Their member functions
are embedded as functions of the worker and of the runtime around it. -/

/-- The C++ runtime around a `Worker`: the memory word `p[0].m_next` of every array, the
handler registered with `std::set_new_handler`, the behaviour of `new (std::nothrow)`
(request number `k` is granted or not, a granted request returns the address `k + 1`), the
number of requests made, and the effects performed so far. -/
structure Runtime where
  m_next : Nat → Nat
  new_handler : Option Hook
  grant : Nat → Bool
  requests : Nat
  trace : List Event

/-- The runtime before anything of the library has run; `hook` is the handler the
application registered beforehand, if any. -/
def Runtime.start (grant : Nat → Bool) (hook : Option Nat) : Runtime where
  m_next := fun _ => 0
  new_handler := hook.map Hook.external
  grant := grant
  requests := 0
  trace := []

/-- Record one effect. -/
def Runtime.emit (e : Event) (r : Runtime) : Runtime :=
  { r with trace := r.trace ++ [e] }

/-- The expression `new (std::nothrow) Blk[elems]`: the pointer obtained (`0` when the
request is refused) and the runtime afterwards. -/
def Runtime.new_nothrow (elems : Nat) (r : Runtime) : Nat × Runtime :=
  let p := if r.grant r.requests then r.requests + 1 else 0
  (p, Runtime.emit (Event.new_nothrow elems p) { r with requests := r.requests + 1 })

/-- The statement `delete[] p`; deleting `nullptr` does nothing. -/
def Runtime.delete_arr (p : Nat) (r : Runtime) : Runtime :=
  if p = 0 then r else Runtime.emit (Event.delete_arr p) r

/-- The call `std::set_new_handler(h)`: the handler registered before, and the runtime
afterwards. -/
def Runtime.set_new_handler (h : Option Hook) (r : Runtime) : Option Hook × Runtime :=
  (r.new_handler, Runtime.emit (Event.set_new_handler h) { r with new_handler := h })

/-- The assignment `p[0].m_next = v`. -/
def Runtime.store_next (p v : Nat) (r : Runtime) : Runtime :=
  { r with m_next := fun q => if q = p then v else r.m_next q }

namespace oldest

/-- The struct `NewHandler::State` of `src/include/simple_new_handler.h`. -/
structure State where
  allocated_block_count : Nat
  available_block_count : Nat
deriving DecidableEq

/-- The struct `NewHandler::FullState` of `src/include/simple_new_handler.h`. -/
structure FullState where
  init_done : Bool
  signo : Int
  final_block_size : Nat
  final_block_allocated : Bool
  reserved_block_size : Nat
  reserved_block_count : Nat
  allocated_block_count : Nat
  available_block_count : Nat
deriving DecidableEq

/-- The members of `NewHandler::Worker` of `src/include/simple_new_handler.h`; the two
counts are `unsigned int`. -/
structure Worker where
  init_done_ : Bool
  signo_ : Int
  final_block_size_ : Nat
  reserved_block_size_ : Nat
  reserved_block_count_ : Nat
  allocated_block_count_ : Nat
  available_block_count_ : Nat
  final_block_ : Nat
  blk_arr_list_ : Nat

/-- The constructor `Worker()`: every member is value-initialised. -/
def Worker.ctor : Worker where
  init_done_ := false
  signo_ := 0
  final_block_size_ := 0
  reserved_block_size_ := 0
  reserved_block_count_ := 0
  allocated_block_count_ := 0
  available_block_count_ := 0
  final_block_ := 0
  blk_arr_list_ := 0

/-- Lines 114-126 of `Worker::Init`: the final block. -/
def initFinal (finalBlockSize : Nat) (w : Worker) (r : Runtime) : Worker × Runtime :=
  let w1 := { w with final_block_size_ := finalBlockSize }
  let finalSize :=
    (w1.final_block_size_ + sizeofBlk - 1) % SIZE_MOD / sizeofBlk * sizeofBlk % SIZE_MOD
  if finalSize ≠ 0 then
    let a := r.new_nothrow (finalSize / sizeofBlk)
    let w2 := { w1 with final_block_ := a.1 }
    if a.1 ≠ 0 then (w2, a.2.store_next a.1 0) else (w2, a.2)
  else (w1, r)

/-- The local `blockLimit` of `Worker::Init` (lines 130-133). -/
def blockLimit (reserved_block_count_ : Nat) : Nat :=
  if reserved_block_count_ < UINT_MAX then reserved_block_count_ % UINT_MOD else UINT_MAX

/-- The argument of `new` in the loop (lines 138-142): `reservedSize / sizeof(Blk)`. -/
def reservedElems (reserved_block_size_ : Nat) : Nat :=
  (reserved_block_size_ + sizeofBlk - 1) % SIZE_MOD / sizeofBlk * sizeofBlk % SIZE_MOD /
    sizeofBlk

/-- The `for` loop of `Worker::Init` (lines 141-151).  The first argument is the number
of iterations still allowed, `blockLimit - ii`; the second is `ii`. -/
def reserveLoop (elems : Nat) : Nat → Nat → Worker → Runtime → Worker × Runtime
  | 0, _, w, r => (w, r)
  | n + 1, ii, w, r =>
    let a := r.new_nothrow elems
    if a.1 = 0 then ({ w with allocated_block_count_ := ii }, a.2)
    else
      reserveLoop elems n ((ii + 1) % UINT_MOD) { w with blk_arr_list_ := a.1 }
        (a.2.store_next a.1 w.blk_arr_list_)

/-- Lines 153-158 of `Worker::Init`: the counts after the loop. -/
def publishCounts (limit : Nat) (w : Worker) : Worker :=
  let w1 :=
    if w.blk_arr_list_ ≠ 0 ∧ w.allocated_block_count_ = 0 then
      { w with allocated_block_count_ := limit }
    else w
  { w1 with available_block_count_ := w1.allocated_block_count_ }

/-- Lines 128-159 of `Worker::Init`: the reserve pool. -/
def initReserve (reservedBlockCount reservedBlockSize : Nat) (w : Worker) (r : Runtime) :
    Worker × Runtime :=
  let w1 := { w with reserved_block_count_ := reservedBlockCount }
  let w2 := { w1 with reserved_block_size_ := reservedBlockSize }
  if w2.reserved_block_count_ ≠ 0 ∧ w2.reserved_block_size_ ≠ 0 then
    let l := reserveLoop (reservedElems w2.reserved_block_size_)
      (blockLimit w2.reserved_block_count_) 0 w2 r
    (publishCounts (blockLimit w2.reserved_block_count_) l.1, l.2)
  else (w2, r)

/-- Lines 161-165 of `Worker::Init`: the signal, the registration and the flag. -/
def initHandler (signo : Int) (w : Worker) (r : Runtime) : Worker × Runtime :=
  ({ w with signo_ := signo, init_done_ := true },
    (r.set_new_handler (some Hook.process)).2)

/-- The member function `Worker::Init` of `src/include/simple_new_handler.h`. -/
def Worker.Init (finalBlockSize reservedBlockCount reservedBlockSize : Nat) (signo : Int)
    (w : Worker) (r : Runtime) : Worker × Runtime :=
  if w.init_done_ then (w, r)
  else
    let a := initFinal finalBlockSize w r
    let b := initReserve reservedBlockCount reservedBlockSize a.1 a.2
    initHandler signo b.1 b.2

/-- The member function `Worker::GetState`. -/
def Worker.GetState (w : Worker) : State :=
  if w.init_done_ = false then { allocated_block_count := 0, available_block_count := 0 }
  else
    { allocated_block_count := w.allocated_block_count_,
      available_block_count := w.available_block_count_ }

/-- The member function `Worker::GetFullState`. -/
def Worker.GetFullState (w : Worker) : FullState :=
  if w.init_done_ = false then
    { init_done := false, signo := 0, final_block_size := 0, final_block_allocated := false,
      reserved_block_size := 0, reserved_block_count := 0, allocated_block_count := 0,
      available_block_count := 0 }
  else
    { init_done := true, signo := w.signo_, final_block_size := w.final_block_size_,
      final_block_allocated := decide (w.final_block_ ≠ 0),
      reserved_block_size := w.reserved_block_size_,
      reserved_block_count := w.reserved_block_count_,
      allocated_block_count := w.allocated_block_count_,
      available_block_count := w.available_block_count_ }

/-- The results of the nothrow requests `Worker::Init` makes for the reserve pool on a
fresh worker, in order: the requests that come after the final-block step. -/
def reserveResults (finalBlockSize reservedBlockCount reservedBlockSize : Nat) (signo : Int)
    (r : Runtime) : List Nat :=
  allocResults ((Worker.Init finalBlockSize reservedBlockCount reservedBlockSize signo
    Worker.ctor r).2.trace.drop (initFinal finalBlockSize Worker.ctor r).2.trace.length)

end oldest

namespace legacy

/-- The members of `NewHandler::Worker` of `src/legacy/simple_new_handler.h`.  The structs
`State` and `FullState` of that file declare the fields of the canonical ones, in the same
order. -/
structure Worker where
  /-- Member `full_state_`. -/
  full_state_ : FullState
  /-- Member `available_block_count_`, an `unsigned int`. -/
  available_block_count_ : Nat
  /-- Member `final_block_`. -/
  final_block_ : Nat
  /-- Member `blk_arr_list_`. -/
  blk_arr_list_ : Nat
  /-- Member `prev_handler_`. -/
  prev_handler_ : Option Hook

/-- The constructor `Worker()` (lines 114-118) of the function-local static `worker_`:
the object has static storage duration, so it is zero-initialised first, and the
constructor value-initialises every member. -/
def Worker.ctor : Worker where
  full_state_ :=
    { init_done := false, chained := false, signo := 0, final_block_size := 0,
      final_block_allocated := false, reserved_block_size := 0,
      reserved_block_count := 0,
      state := { allocated_block_count := 0, available_block_count := 0 } }
  available_block_count_ := 0
  final_block_ := 0
  blk_arr_list_ := 0
  prev_handler_ := none

/-- Lines 144-148 of `Worker::Init`: the flag and the requested configuration. -/
def initConfig (final_block_size reserved_block_count reserved_block_size : Nat)
    (signo : Int) (w : Worker) : Worker :=
  { w with full_state_ :=
      { w.full_state_ with
        init_done := true, signo := signo, final_block_size := final_block_size,
        reserved_block_count := reserved_block_count,
        reserved_block_size := reserved_block_size } }

/-- The local `finalSize` of `Worker::Init` (lines 150-151). -/
def finalSize (final_block_size : Nat) : Nat :=
  (final_block_size + sizeofBlk - 1) % SIZE_MOD / sizeofBlk * sizeofBlk % SIZE_MOD

/-- Lines 153-163 of `Worker::Init`: the final block. -/
def initFinal (final_block_size : Nat) (w : Worker) (r : Runtime) : Worker × Runtime :=
  if finalSize final_block_size ≠ 0 then
    let a := r.new_nothrow (finalSize final_block_size / sizeofBlk)
    let w1 := { w with final_block_ := a.1 }
    if a.1 ≠ 0 then
      ({ w1 with full_state_ := { w1.full_state_ with final_block_allocated := true } },
        a.2.store_next a.1 0)
    else (w1, a.2)
  else (w, r)

/-- The local `block_limit` of `Worker::Init` (lines 165-172). -/
def blockLimit (reserved_block_count : Nat) : Nat :=
  if (reserved_block_count + 1) % SIZE_MOD < UINT_MAX then
    (reserved_block_count + 1) % SIZE_MOD % UINT_MOD
  else UINT_MAX

/-- The local `reserved_arr_size` of `Worker::Init` (lines 175-176). -/
def reservedArrSize (reserved_block_size : Nat) : Nat :=
  (reserved_block_size + sizeofBlk - 1) % SIZE_MOD / sizeofBlk

/-- The `for` loop of `Worker::Init` (lines 181-192).  The first argument is the number of
iterations still allowed, `block_limit - ii`; the second is `arr_count`.  Returns
`arr_count` at loop exit, the worker and the runtime. -/
def reserveLoop (reserved_arr_size : Nat) :
    Nat → Nat → Worker → Runtime → Nat × Worker × Runtime
  | 0, arr_count, w, r => (arr_count, w, r)
  | n + 1, arr_count, w, r =>
    let a := r.new_nothrow reserved_arr_size
    if a.1 = 0 then (arr_count, w, a.2)
    else
      reserveLoop reserved_arr_size n ((arr_count + 1) % SIZE_MOD)
        { w with blk_arr_list_ := a.1 } (a.2.store_next a.1 w.blk_arr_list_)

/-- Lines 194-205 of `Worker::Init`: give the last array back and publish the counts. -/
def releaseExtra (arr_count : Nat) (w : Worker) (r : Runtime) : Worker × Runtime :=
  if w.blk_arr_list_ ≠ 0 then
    let blk_arr := w.blk_arr_list_
    let w1 := { w with blk_arr_list_ := r.m_next blk_arr }
    let c := (arr_count + SIZE_MOD - 1) % SIZE_MOD
    ({ w1 with
        full_state_ :=
          { w1.full_state_ with
            state := { allocated_block_count := c, available_block_count := c } },
        available_block_count_ := c % UINT_MOD },
      r.delete_arr blk_arr)
  else (w, r)

/-- Lines 174-206 of `Worker::Init`: the reserve pool. -/
def initReserve (reserved_block_count reserved_block_size : Nat) (w : Worker)
    (r : Runtime) : Worker × Runtime :=
  if reserved_block_count ≠ 0 ∧ reserved_block_size ≠ 0 then
    let l := reserveLoop (reservedArrSize reserved_block_size)
      (blockLimit reserved_block_count) 0 w r
    releaseExtra l.1 l.2.1 l.2.2
  else (w, r)

/-- Lines 208-217 of `Worker::Init`: registration, with or without chaining. -/
def initHandler (allow_chain : Bool) (w : Worker) (r : Runtime) : Worker × Runtime :=
  if allow_chain = false then (w, (r.set_new_handler (some Hook.process)).2)
  else
    let a := r.set_new_handler (some Hook.process)
    let w1 := { w with prev_handler_ := a.1 }
    if w1.prev_handler_.isSome then
      ({ w1 with full_state_ := { w1.full_state_ with chained := true } }, a.2)
    else (w1, a.2)

/-- The member function `Worker::Init` (lines 135-218). -/
def Worker.Init (final_block_size reserved_block_count reserved_block_size : Nat)
    (signo : Int) (allow_chain : Bool) (w : Worker) (r : Runtime) : Worker × Runtime :=
  if w.full_state_.init_done then (w, r)
  else
    let a := initFinal final_block_size
      (initConfig final_block_size reserved_block_count reserved_block_size signo w) r
    let b := initReserve reserved_block_count reserved_block_size a.1 a.2
    initHandler allow_chain b.1 b.2

/-- The member function `Worker::GetState` (line 220). -/
def Worker.GetState (w : Worker) : State := w.full_state_.GetState

/-- The member function `Worker::GetFullState` (line 222). -/
def Worker.GetFullState (w : Worker) : FullState := w.full_state_

/-- Lines 227-241 of `Worker::Process`: the branch taken when `blk_arr_list_` is not
null. -/
def processRelease (w : Worker) (r : Runtime) : Worker × Runtime :=
  let blk_arr := w.blk_arr_list_
  let w1 := { w with blk_arr_list_ := r.m_next blk_arr }
  let r1 := r.delete_arr blk_arr
  let w2 : Worker :=
    if w1.available_block_count_ > 0 then
      let c := w1.available_block_count_ - 1
      { w1 with
        available_block_count_ := c,
        full_state_ :=
          { w1.full_state_ with
            state := { w1.full_state_.state with available_block_count := c } } }
    else w1
  if w2.full_state_.signo ≠ 0 then (w2, r1.emit (Event.raise w2.full_state_.signo))
  else (w2, r1)

/-- Lines 243-253 of `Worker::Process`: the branch taken when `blk_arr_list_` is null. -/
def processTerminal (w : Worker) (r : Runtime) : Outcome × Worker × Runtime :=
  let r1 := r.delete_arr w.final_block_
  let w1 := { w with final_block_ := 0 }
  match w1.prev_handler_ with
  | some h =>
    (Outcome.delegated h, w1, (r1.set_new_handler (some h)).2.emit (Event.invoke h))
  | none => (Outcome.terminated, w1, r1.emit Event.terminate)

/-- The member function `Worker::Process` (lines 224-254). -/
def Worker.Process (w : Worker) (r : Runtime) : Outcome × Worker × Runtime :=
  if w.blk_arr_list_ ≠ 0 then (Outcome.returned, processRelease w r)
  else processTerminal w r

/-- The process that uses the legacy header: the function-local static `worker_` of
`GetWorker()`, not constructed before the first call, and the runtime. -/
structure Program where
  worker_ : Option Worker
  runtime : Runtime

/-- The process before anything of the library has run. -/
def Program.start (grant : Nat → Bool) (hook : Option Nat) : Program where
  worker_ := none
  runtime := Runtime.start grant hook

/-- The function `NewHandler::GetWorker` (lines 108-111): the first call constructs
`worker_`. -/
def GetWorker (p : Program) : Worker :=
  match p.worker_ with
  | some w => w
  | none => Worker.ctor

/-- The function `NewHandler::Init` (lines 60-65): `GetWorker().Init(...)`. -/
def Init (final_block_size reserved_block_count reserved_block_size : Nat) (signo : Int)
    (allow_chain : Bool) (p : Program) : Program :=
  let a := Worker.Init final_block_size reserved_block_count reserved_block_size signo
    allow_chain (GetWorker p) p.runtime
  { worker_ := some a.1, runtime := a.2 }

/-- The function `NewHandler::Process` (line 106): `GetWorker().Process()`. -/
def Process (p : Program) : Outcome × Program :=
  let a := Worker.Process (GetWorker p) p.runtime
  (a.1, { worker_ := some a.2.1, runtime := a.2.2 })

/-- The accessor `NewHandler::GetState` (line 97). -/
def GetState (p : Program) : State := Worker.GetState (GetWorker p)

/-- The accessor `NewHandler::GetFullState` (lines 99-101). -/
def GetFullState (p : Program) : FullState := Worker.GetFullState (GetWorker p)

/-- The program after one call. -/
def step (p : Program) : Op → Program
  | Op.init f c z g a => Init f c z g a p
  | Op.process => (Process p).2

/-- The program after a sequence of calls, first call first. -/
def runOps (p : Program) (ops : List Op) : Program := ops.foldl step p

end legacy

/-- The canonical state that corresponds to a legacy worker and the runtime around it:
member by member. -/
def join (w : legacy.Worker) (r : Runtime) : Machine where
  full_state_ := w.full_state_
  available_block_count_ := w.available_block_count_
  final_block_ := w.final_block_
  blk_arr_list_ := w.blk_arr_list_
  prev_handler_ := w.prev_handler_
  m_next := r.m_next
  new_handler := r.new_handler
  grant := r.grant
  requests := r.requests
  trace := r.trace

/-- The canonical state that corresponds to a legacy program. -/
def toMachine (p : legacy.Program) : Machine := join (legacy.GetWorker p) p.runtime

/-! # Theorems -/

/-! ## Effects that only extend the trace -/

@[simp] theorem delete_arr_full_state_ (p : Nat) (s : Machine) :
    (delete_arr p s).full_state_ = s.full_state_ := by
  unfold delete_arr; split <;> rfl

@[simp] theorem delete_arr_available_block_count_ (p : Nat) (s : Machine) :
    (delete_arr p s).available_block_count_ = s.available_block_count_ := by
  unfold delete_arr; split <;> rfl

@[simp] theorem delete_arr_final_block_ (p : Nat) (s : Machine) :
    (delete_arr p s).final_block_ = s.final_block_ := by
  unfold delete_arr; split <;> rfl

@[simp] theorem delete_arr_blk_arr_list_ (p : Nat) (s : Machine) :
    (delete_arr p s).blk_arr_list_ = s.blk_arr_list_ := by
  unfold delete_arr; split <;> rfl

@[simp] theorem delete_arr_prev_handler_ (p : Nat) (s : Machine) :
    (delete_arr p s).prev_handler_ = s.prev_handler_ := by
  unfold delete_arr; split <;> rfl

@[simp] theorem delete_arr_m_next (p : Nat) (s : Machine) :
    (delete_arr p s).m_next = s.m_next := by
  unfold delete_arr; split <;> rfl

@[simp] theorem delete_arr_new_handler (p : Nat) (s : Machine) :
    (delete_arr p s).new_handler = s.new_handler := by
  unfold delete_arr; split <;> rfl

@[simp] theorem delete_arr_grant (p : Nat) (s : Machine) :
    (delete_arr p s).grant = s.grant := by
  unfold delete_arr; split <;> rfl

@[simp] theorem delete_arr_requests (p : Nat) (s : Machine) :
    (delete_arr p s).requests = s.requests := by
  unfold delete_arr; split <;> rfl

theorem delete_arr_of_ne {p : Nat} (h : p ≠ 0) (s : Machine) :
    delete_arr p s = emit (Event.delete_arr p) s := by
  simp [delete_arr, h]

/-! ## The list threaded through `m_next` -/

theorem Chain.store {m : Nat → Nat} (q v : Nat) :
    ∀ (xs : List Nat) (p : Nat), (∀ x ∈ xs, x ≠ q) → Chain m p xs →
      Chain (fun a => if a = q then v else m a) p xs := by
  intro xs
  induction xs with
  | nil => intro p _ h; exact h
  | cons x xs ih =>
    intro p hq h
    obtain ⟨hp, hx, hrest⟩ := h
    have hxq : x ≠ q := hq x (List.mem_cons_self x xs)
    refine ⟨hp, hx, ?_⟩
    have := ih (m x) (fun y hy => hq y (List.mem_cons_of_mem x hy)) hrest
    simpa [hxq] using this

theorem Chain.null_iff {m : Nat → Nat} {p : Nat} {xs : List Nat} (h : Chain m p xs) :
    p = 0 ↔ xs = [] := by
  cases xs with
  | nil => simpa [Chain] using h
  | cons x xs =>
    obtain ⟨hp, hx, _⟩ := h
    simp [hp, hx]

theorem Chain.unique {m : Nat → Nat} :
    ∀ (xs ys : List Nat) (p : Nat), Chain m p xs → Chain m p ys → xs = ys := by
  intro xs
  induction xs with
  | nil =>
    intro ys p h1 h2
    exact ((Chain.null_iff h2).mp h1).symm
  | cons x xs ih =>
    intro ys p h1 h2
    cases ys with
    | nil =>
      have := (Chain.null_iff h1).mpr
      obtain ⟨hp, hx, _⟩ := h1
      exact absurd (hp ▸ h2) hx
    | cons y ys =>
      obtain ⟨hp, _, hr⟩ := h1
      obtain ⟨hp2, _, hr2⟩ := h2
      have hxy : x = y := hp.symm.trans hp2
      subst hxy
      rw [ih ys (m x) hr hr2]

/-! ## The allocation loop of `Init` -/

theorem new_nothrow_ptr (sz : Nat) (s : Machine) (h : (new_nothrow sz s).1 ≠ 0) :
    (new_nothrow sz s).1 = s.requests + 1 := by
  simp only [new_nothrow] at h ⊢
  split at h
  · rename_i hg; simp [hg]
  · exact absurd rfl h

theorem blockLimit_le_max (c : Nat) : blockLimit c ≤ UINT_MAX := by
  unfold blockLimit
  split
  · rename_i h
    exact Nat.le_trans (Nat.mod_le _ _) (Nat.le_of_lt h)
  · exact Nat.le_refl _

theorem blockLimit_le_succ (c : Nat) : blockLimit c ≤ c + 1 := by
  unfold blockLimit
  split
  · exact Nat.le_trans (Nat.mod_le _ _) (Nat.mod_le _ _)
  · rename_i hlt
    have h1 : (c + 1) % SIZE_MOD ≤ c + 1 := Nat.mod_le _ _
    omega


theorem reserveLoop_frame (sz : Nat) : ∀ (n c : Nat) (s : Machine),
    LoopFrame s (reserveLoop sz n c s).2 := by
  intro n
  induction n with
  | zero => intro c s; exact ⟨rfl, rfl, rfl, rfl, rfl, rfl⟩
  | succ n ih =>
    intro c s
    unfold reserveLoop
    by_cases h : (new_nothrow sz s).1 = 0
    · simp only [h, if_true]
      exact ⟨rfl, rfl, rfl, rfl, rfl, rfl⟩
    · simp only [h, if_false]
      have := ih ((c + 1) % SIZE_MOD) (link (new_nothrow sz s).1 (new_nothrow sz s).2)
      exact ⟨this.1, this.2, this.3, this.4, this.5, this.6⟩

theorem reserveLoop_chain (sz : Nat) : ∀ (n c : Nat) (s : Machine) (xs : List Nat),
    c + n < SIZE_MOD → Chain s.m_next s.blk_arr_list_ xs → xs.length = c →
    (∀ x ∈ xs, x ≤ s.requests) →
    ∃ ys, Chain (reserveLoop sz n c s).2.m_next (reserveLoop sz n c s).2.blk_arr_list_ ys ∧
      ys.length = (reserveLoop sz n c s).1 ∧
      (∀ y ∈ ys, y ≤ (reserveLoop sz n c s).2.requests) ∧
      (reserveLoop sz n c s).1 ≤ c + n := by
  intro n
  induction n with
  | zero => intro c s xs _ hc hl hb; exact ⟨xs, hc, hl, hb, Nat.le_refl _⟩
  | succ n ih =>
    intro c s xs hlt hc hl hb
    unfold reserveLoop
    by_cases h : (new_nothrow sz s).1 = 0
    · simp only [h, if_true]
      refine ⟨xs, hc, hl, ?_, by omega⟩
      intro x hx
      have := hb x hx
      simp only [new_nothrow, emit]
      omega
    · simp only [h, if_false]
      have hp := new_nothrow_ptr sz s h
      have hmod : (c + 1) % SIZE_MOD = c + 1 := Nat.mod_eq_of_lt (by omega)
      rw [hmod]
      obtain ⟨ys, h1, h2, h3, h4⟩ := ih (c + 1)
        (link (new_nothrow sz s).1 (new_nothrow sz s).2)
        ((new_nothrow sz s).1 :: xs)
        (by omega)
        (by
          refine ⟨rfl, h, ?_⟩
          have hs := Chain.store (new_nothrow sz s).1 s.blk_arr_list_ xs s.blk_arr_list_
            (fun x hx => by have := hb x hx; omega) hc
          simpa [link, store_next, new_nothrow, emit] using hs)
        (by simp [hl])
        (by
          intro x hx
          have hreq : (link (new_nothrow sz s).1 (new_nothrow sz s).2).requests
              = s.requests + 1 := rfl
          rw [hreq]
          rcases List.mem_cons.mp hx with hx | hx
          · omega
          · have := hb x hx
            omega)
      exact ⟨ys, h1, h2, h3, by omega⟩


theorem initReserve_ready (rbc rbs : Nat) (s : Machine) (h0 : s.blk_arr_list_ = 0)
    (hc : s.available_block_count_ = 0)
    (hs : s.full_state_.state = { allocated_block_count := 0, available_block_count := 0 }) :
    PoolReady rbc s (initReserve rbc rbs s) := by
  have hbase : PoolReady rbc s s :=
    ⟨⟨[], h0, hc.symm, fun _ h => absurd h (List.not_mem_nil _)⟩, by rw [hs, hc],
      by rw [hs, hc], by omega, rfl, rfl, rfl, rfl, rfl⟩
  unfold initReserve
  split
  · have hlim := blockLimit_le_max rbc
    have hsz : UINT_MAX < SIZE_MOD := by decide
    obtain ⟨ys, h1, h2, h3, h4⟩ := reserveLoop_chain (reservedArrSize rbs) (blockLimit rbc) 0 s []
      (by omega) h0 rfl (fun _ h => absurd h (List.not_mem_nil _))
    have hf := reserveLoop_frame (reservedArrSize rbs) (blockLimit rbc) 0 s
    generalize reserveLoop (reservedArrSize rbs) (blockLimit rbc) 0 s = r at h1 h2 h3 h4 hf
    obtain ⟨n, t⟩ := r
    simp only at h1 h2 h3 h4 hf
    unfold releaseExtra
    by_cases hnull : t.blk_arr_list_ = 0
    · simp only [hnull, ne_eq, not_true_eq_false, if_false]
      have hys : ys = [] := (Chain.null_iff h1).mp hnull
      subst hys
      exact ⟨⟨[], hnull, by rw [hf.2, hc]; rfl, fun _ h => absurd h (List.not_mem_nil _)⟩,
        by rw [hf.1, hf.2, hs, hc], by rw [hf.1, hf.2, hs, hc], by rw [hf.2, hc]; omega,
        by rw [hf.1], hf.3, hf.4, hf.5, hf.6⟩
    · simp only [hnull, ne_eq, not_false_eq_true, if_true]
      cases ys with
      | nil => exact absurd ((Chain.null_iff h1).mpr rfl) hnull
      | cons y ys =>
        obtain ⟨hy, _, hrest⟩ := h1
        simp only [List.length_cons] at h2
        have hsucc := blockLimit_le_succ rbc
        have hmax : UINT_MAX = UINT_MOD - 1 := by decide
        have hc1 : (n + SIZE_MOD - 1) % SIZE_MOD = n - 1 := by
          have : n + SIZE_MOD - 1 = (n - 1) + SIZE_MOD := by omega
          rw [this, Nat.add_mod_right]
          exact Nat.mod_eq_of_lt (by omega)
        have hc2 : (n - 1) % UINT_MOD = n - 1 := Nat.mod_eq_of_lt (by omega)
        have hdel : ∀ u : Machine, (delete_arr t.blk_arr_list_ u) =
            emit (Event.delete_arr t.blk_arr_list_) u := by
          intro u; simp [delete_arr, hnull]
        rw [hdel, hc1, hc2]
        refine ⟨⟨ys, ?_, ?_, ?_⟩, rfl, rfl, ?_, ?_, hf.3, hf.4, hf.5, hf.6⟩
        · simpa [emit, hy] using hrest
        · simp only [emit]; omega
        · intro x hx
          exact h3 x (List.mem_cons_of_mem y hx)
        · simp only [emit]; omega
        · simp only [emit]
          rw [hf.1]
  · exact hbase

/-! ## The other steps of `Init` -/

theorem initFinal_frame (f : Nat) (s : Machine) : FinalFrame s (initFinal f s) := by
  unfold initFinal
  by_cases h : finalSize f = 0
  · simp only [h, ne_eq, not_true_eq_false, if_false]
    exact ⟨rfl, rfl, rfl, rfl, rfl, rfl⟩
  · by_cases hp : (new_nothrow (finalSize f / sizeofBlk) s).1 = 0
    · simp only [h, hp, ne_eq, not_true_eq_false, not_false_eq_true, if_false, if_true]
      exact ⟨rfl, rfl, rfl, rfl, rfl, rfl⟩
    · simp only [h, hp, ne_eq, not_false_eq_true, if_true]
      exact ⟨rfl, rfl, rfl, rfl, rfl, rfl⟩

theorem initHandler_frame (a : Bool) (s : Machine) : HandlerFrame a s (initHandler a s) := by
  unfold initHandler
  cases a with
  | false =>
    simp only [if_true]
    exact ⟨rfl, by simp [set_new_handler, emit], by simp [set_new_handler, emit], rfl, rfl, rfl,
      rfl, rfl, rfl, rfl⟩
  | true =>
    cases hh : s.new_handler with
    | none =>
      simp [set_new_handler, emit, hh]
      exact ⟨rfl, by simp [hh], by simp [hh], rfl, rfl, rfl, rfl, rfl, rfl, rfl⟩
    | some h =>
      simp [set_new_handler, emit, hh]
      exact ⟨rfl, by simp [hh], by simp [hh], rfl, rfl, rfl, rfl, rfl, rfl, rfl⟩

/-! ## The two branches of `Process` -/

theorem processTerminal_frame (s : Machine) : ProcessFrame s (processTerminal s).2 := by
  unfold processTerminal
  cases hp : s.prev_handler_ with
  | none => simp only [delete_arr_prev_handler_, hp]; exact ⟨by simp [emit, hp], by simp [emit], by simp [emit], by simp [emit]⟩
  | some k => simp only [delete_arr_prev_handler_, hp]; exact ⟨by simp [emit, set_new_handler, hp], by simp [emit, set_new_handler], by simp [emit, set_new_handler], by simp [emit, set_new_handler]⟩

theorem processTerminal_statics (s : Machine) :
    (processTerminal s).2.full_state_ = s.full_state_ ∧
    (processTerminal s).2.available_block_count_ = s.available_block_count_ ∧
    (processTerminal s).2.blk_arr_list_ = s.blk_arr_list_ ∧
    (processTerminal s).2.final_block_ = 0 ∧
    (processTerminal s).2.new_handler =
      (match s.prev_handler_ with | some h => some h | none => s.new_handler) := by
  unfold processTerminal
  cases hp : s.prev_handler_ with
  | none => simp [emit, hp]
  | some k => simp [emit, set_new_handler, hp]

theorem processRelease_frame (s : Machine) : ProcessFrame s (processRelease s) := by
  unfold processRelease
  simp only [delete_arr_available_block_count_, delete_arr_full_state_]
  split <;> split <;> exact ⟨by simp [emit], by simp [emit], by simp [emit], by simp [emit]⟩

theorem processRelease_statics (s : Machine) :
    (processRelease s).full_state_ =
      (if s.available_block_count_ > 0 then
        { s.full_state_ with state := { s.full_state_.state with
            available_block_count := s.available_block_count_ - 1 } }
       else s.full_state_) ∧
    (processRelease s).available_block_count_ = s.available_block_count_ - 1 ∧
    (processRelease s).blk_arr_list_ = s.m_next s.blk_arr_list_ ∧
    (processRelease s).final_block_ = s.final_block_ ∧
    (processRelease s).new_handler = s.new_handler := by
  unfold processRelease
  simp only [delete_arr_available_block_count_, delete_arr_full_state_]
  by_cases hpos : s.available_block_count_ > 0
  · simp only [hpos, if_true]
    split <;> simp [emit]
  · simp only [hpos, if_false]
    have : s.available_block_count_ = 0 := by omega
    split <;> simp [emit, this]

/-! ## The invariant -/

theorem Inv.of_initial (grant : Nat → Bool) (hook : Option Nat) : Inv (initial grant hook) := by
  refine ⟨⟨[], rfl, rfl, fun _ h => absurd h (List.not_mem_nil _)⟩, rfl, Nat.le_refl _,
    Nat.le_refl _, rfl, by simp [simple.initial], fun _ => ⟨rfl, rfl, rfl, ?_⟩⟩
  cases hook <;> simp [simple.initial]

theorem Inv.list_null_iff {s : Machine} (h : Inv s) :
    s.blk_arr_list_ = 0 ↔ s.available_block_count_ = 0 := by
  obtain ⟨xs, hc, hl, _⟩ := h.chain
  rw [Chain.null_iff hc, ← hl]
  exact List.length_eq_zero.symm

theorem Inv.after_Init {s : Machine} (h : Inv s) (f c z : Nat) (g : Int) (a : Bool) :
    Inv (Init f c z g a s) := by
  unfold simple.Init
  by_cases hd : s.full_state_.init_done = true
  · rw [if_pos hd]; exact h
  · rw [if_neg hd]
    have hd' : s.full_state_.init_done = false := by simpa using hd
    obtain ⟨hal, hprev, _, hnew⟩ := h.fresh hd'
    have hcnt : s.available_block_count_ = 0 := by have := h.bounded; omega
    have hlist : s.blk_arr_list_ = 0 := h.list_null_iff.mpr hcnt
    have hst : s.full_state_.state =
        { allocated_block_count := 0, available_block_count := 0 } := by
      have h1 := h.reported
      cases hs : s.full_state_.state with
      | mk x y =>
        rw [hs] at h1 hal
        simp only at h1 hal
        rw [hal, h1, hcnt]
    have hF := initFinal_frame f (initConfig f c z g s)
    generalize initFinal f (initConfig f c z g s) = b at hF
    have hR := initReserve_ready c z b (by rw [hF.3]; exact hlist) (by rw [hF.2]; exact hcnt)
      (by rw [hF.1]; exact hst)
    generalize initReserve c z b = r at hR
    have hH := initHandler_frame a r
    generalize initHandler a r = t at hH
    have hchain : s.full_state_.chained = false := by rw [h.chained, hprev]; rfl
    refine ⟨?_, ?_, ?_, ?_, ?_, ?_, ?_⟩
    · obtain ⟨xs, h1, h2, h3⟩ := hR.chain
      exact ⟨xs, by rw [hH.m_next, hH.blk_arr_list_]; exact h1,
        by rw [hH.available_block_count_]; exact h2, by rw [hH.requests]; exact h3⟩
    · rw [hH.full_state_, hH.available_block_count_]; exact hR.available
    · rw [hH.full_state_, hH.available_block_count_, ← hR.allocated]
    · rw [hH.full_state_]
      show r.full_state_.state.allocated_block_count ≤ r.full_state_.reserved_block_count
      rw [hR.allocated, hR.full_state_]
      show r.available_block_count_ ≤ b.full_state_.reserved_block_count
      rw [hF.full_state_]
      exact hR.le_limit
    · rw [hH.chained, hH.prev_handler_, hR.new_handler, hF.new_handler, hR.prev_handler_,
        hF.prev_handler_, hR.full_state_]
      show (if a = true ∧ (initConfig f c z g s).new_handler.isSome = true then true
        else b.full_state_.chained) = _
      rw [hF.full_state_]
      show (if a = true ∧ s.new_handler.isSome = true then true
        else s.full_state_.chained) = (if a = true then s.new_handler else s.prev_handler_).isSome
      rw [hchain, hprev]
      cases a <;> cases s.new_handler <;> rfl
    · rw [hH.prev_handler_, hR.new_handler, hF.new_handler, hR.prev_handler_, hF.prev_handler_]
      show (if a = true then s.new_handler else s.prev_handler_) ≠ some Hook.process
      rw [hprev]
      cases a
      · simp
      · simpa using hnew
    · intro hfalse
      rw [hH.full_state_] at hfalse
      have : r.full_state_.init_done = false := hfalse
      rw [hR.full_state_] at this
      have : b.full_state_.init_done = false := this
      rw [hF.full_state_] at this
      exact absurd this (by simp [initConfig])

theorem Inv.after_Process {s : Machine} (h : Inv s) : Inv (Process s).2 := by
  unfold simple.Process
  by_cases hnull : s.blk_arr_list_ = 0
  · rw [if_neg (not_not.mpr hnull)]
    have hF := processTerminal_frame s
    obtain ⟨e1, e2, e3, e4, e5⟩ := processTerminal_statics s
    generalize (processTerminal s).2 = t at hF e1 e2 e3 e4 e5
    refine ⟨?_, ?_, ?_, ?_, ?_, ?_, ?_⟩
    · rw [hF.m_next, hF.requests, e2, e3]; exact h.chain
    · rw [e1, e2]; exact h.reported
    · rw [e1, e2]; exact h.bounded
    · rw [e1]; exact h.limit
    · rw [e1, hF.prev_handler_]; exact h.chained
    · rw [hF.prev_handler_]; exact h.not_self
    · intro hd
      rw [e1] at hd
      obtain ⟨a1, a2, _, a4⟩ := h.fresh hd
      rw [a2] at e5
      rw [e1, hF.prev_handler_, e5]
      exact ⟨a1, a2, e4, a4⟩
  · rw [if_pos hnull]
    have hcnt : s.available_block_count_ ≠ 0 := fun hc => hnull (h.list_null_iff.mpr hc)
    have hpos : s.available_block_count_ > 0 := Nat.pos_of_ne_zero hcnt
    have hF := processRelease_frame s
    obtain ⟨e1, e2, e3, e4, e5⟩ := processRelease_statics s
    rw [if_pos hpos] at e1
    show Inv (processRelease s)
    generalize processRelease s = t at hF e1 e2 e3 e4 e5
    obtain ⟨xs, h1, h2, h3⟩ := h.chain
    have hb := h.bounded
    cases xs with
    | nil => exact absurd ((Chain.null_iff h1).mpr rfl) hnull
    | cons y ys =>
      obtain ⟨hy, _, hrest⟩ := h1
      simp only [List.length_cons] at h2
      refine ⟨⟨ys, ?_, ?_, ?_⟩, ?_, ?_, ?_, ?_, ?_, ?_⟩
      · rw [hF.m_next, e3, hy]; exact hrest
      · rw [e2]; omega
      · intro x hx; rw [hF.requests]; exact h3 x (List.mem_cons_of_mem y hx)
      · rw [e1, e2]
      · rw [e1, e2]
        show _ ≤ s.full_state_.state.allocated_block_count
        omega
      · rw [e1]; exact h.limit
      · rw [e1, hF.prev_handler_]; exact h.chained
      · rw [hF.prev_handler_]; exact h.not_self
      · intro hd
        rw [e1] at hd
        have := (h.fresh hd).1
        omega

theorem Inv.after_step {s : Machine} (h : Inv s) (op : Op) : Inv (step s op) := by
  cases op with
  | init f c z g a => exact h.after_Init f c z g a
  | process => exact h.after_Process

theorem Inv.after_runOps {s : Machine} (h : Inv s) (ops : List Op) : Inv (runOps s ops) := by
  unfold simple.runOps
  induction ops generalizing s with
  | nil => exact h
  | cons op ops ih => exact ih (h.after_step op)

theorem Inv.after_processN {s : Machine} (h : Inv s) (k : Nat) : Inv (processN k s) := by
  induction k generalizing s with
  | zero => exact h
  | succ k ih => exact ih h.after_Process

/-! ## The first `Init` -/

theorem Init_done {s : Machine} (hd : s.full_state_.init_done = true) (f c z : Nat) (g : Int)
    (a : Bool) : Init f c z g a s = s := by
  unfold simple.Init
  rw [if_pos hd]

theorem Init_fresh {s : Machine} (h : Inv s) (hd : s.full_state_.init_done = false)
    (f c z : Nat) (g : Int) (a : Bool) :
    FinalFrame (initConfig f c z g s) (initFinal f (initConfig f c z g s)) ∧
    PoolReady c (initFinal f (initConfig f c z g s))
      (initReserve c z (initFinal f (initConfig f c z g s))) ∧
    HandlerFrame a (initReserve c z (initFinal f (initConfig f c z g s)))
      (Init f c z g a s) := by
  obtain ⟨hal, hprev, _, hnew⟩ := h.fresh hd
  have hcnt : s.available_block_count_ = 0 := by have := h.bounded; omega
  have hlist : s.blk_arr_list_ = 0 := h.list_null_iff.mpr hcnt
  have hst : s.full_state_.state =
      { allocated_block_count := 0, available_block_count := 0 } := by
    have h1 := h.reported
    cases hs : s.full_state_.state with
    | mk x y =>
      rw [hs] at h1 hal
      simp only at h1 hal
      rw [hal, h1, hcnt]
  have hF := initFinal_frame f (initConfig f c z g s)
  have hR := initReserve_ready c z (initFinal f (initConfig f c z g s))
    (by rw [hF.3]; exact hlist) (by rw [hF.2]; exact hcnt) (by rw [hF.1]; exact hst)
  refine ⟨hF, hR, ?_⟩
  have hI : Init f c z g a s =
      initHandler a (initReserve c z (initFinal f (initConfig f c z g s))) := by
    unfold simple.Init
    rw [if_neg (by simp [hd])]
  rw [hI]
  exact initHandler_frame a _

theorem Init_fresh_counts {s : Machine} (h : Inv s) (hd : s.full_state_.init_done = false)
    (f c z : Nat) (g : Int) (a : Bool) :
    (Init f c z g a s).full_state_.state.available_block_count =
      (Init f c z g a s).available_block_count_ ∧
    (Init f c z g a s).full_state_.state.allocated_block_count =
      (Init f c z g a s).available_block_count_ ∧
    (Init f c z g a s).available_block_count_ ≤ c := by
  obtain ⟨_, hR, hH⟩ := Init_fresh h hd f c z g a
  rw [hH.full_state_, hH.available_block_count_]
  exact ⟨hR.available, hR.allocated, hR.le_limit⟩

/-- C1: after the first `Init`, for all arguments and every behaviour of the allocator,
the reported number of available arrays equals the reported number of allocated arrays,
and that number is at most the requested `reserved_block_count`. -/
theorem Init_available_eq_allocated (grant : Nat → Bool) (hook : Option Nat)
    (final_block_size reserved_block_count reserved_block_size : Nat) (signo : Int)
    (allow_chain : Bool) :
    (GetFullState (Init final_block_size reserved_block_count reserved_block_size signo
        allow_chain (initial grant hook))).state.available_block_count =
      (GetFullState (Init final_block_size reserved_block_count reserved_block_size signo
        allow_chain (initial grant hook))).state.allocated_block_count ∧
    (GetFullState (Init final_block_size reserved_block_count reserved_block_size signo
        allow_chain (initial grant hook))).state.allocated_block_count ≤
      reserved_block_count := by
  obtain ⟨h1, h2, h3⟩ := Init_fresh_counts (Inv.of_initial grant hook) rfl final_block_size
    reserved_block_count reserved_block_size signo allow_chain
  unfold GetFullState
  rw [h1, h2]
  exact ⟨rfl, h3⟩

/-! ## Draining the pool -/

theorem Process_of_ne {s : Machine} (h : s.blk_arr_list_ ≠ 0) :
    Process s = (Outcome.returned, processRelease s) := by
  unfold simple.Process
  rw [if_pos h]

theorem Process_of_null {s : Machine} (h : s.blk_arr_list_ = 0) :
    Process s = processTerminal s := by
  unfold simple.Process
  rw [if_neg (not_not.mpr h)]

theorem processTerminal_of_some {s : Machine} {h : Hook} (hp : s.prev_handler_ = some h) :
    processTerminal s = (Outcome.delegated h, emit (Event.invoke h)
      (set_new_handler (some h) { delete_arr s.final_block_ s with final_block_ := 0 }).2) := by
  unfold processTerminal
  simp only [delete_arr_prev_handler_, hp]

theorem processTerminal_of_none {s : Machine} (hp : s.prev_handler_ = none) :
    processTerminal s = (Outcome.terminated, emit Event.terminate
      { delete_arr s.final_block_ s with final_block_ := 0 }) := by
  unfold processTerminal
  simp only [delete_arr_prev_handler_, hp]

theorem processTerminal_outcome (s : Machine) :
    (processTerminal s).1 ≠ Outcome.returned := by
  cases hp : s.prev_handler_ with
  | none => rw [processTerminal_of_none hp]; simp
  | some k => rw [processTerminal_of_some hp]; simp

theorem Process_count {s : Machine} (h : Inv s) :
    (Process s).2.available_block_count_ = s.available_block_count_ - 1 := by
  by_cases hnull : s.blk_arr_list_ = 0
  · rw [Process_of_null hnull, (processTerminal_statics s).2.1, h.list_null_iff.mp hnull]
  · rw [Process_of_ne hnull]
    exact (processRelease_statics s).2.1

theorem Process_allocated (s : Machine) :
    (Process s).2.full_state_.state.allocated_block_count =
      s.full_state_.state.allocated_block_count := by
  by_cases hnull : s.blk_arr_list_ = 0
  · rw [Process_of_null hnull, (processTerminal_statics s).1]
  · rw [Process_of_ne hnull]
    show (processRelease s).full_state_.state.allocated_block_count = _
    rw [(processRelease_statics s).1]
    split <;> rfl

theorem processN_succ (k : Nat) (s : Machine) :
    processN (k + 1) s = (Process (processN k s)).2 := by
  induction k generalizing s with
  | zero => rfl
  | succ k ih =>
    show processN (k + 1) (Process s).2 = (Process (processN k (Process s).2)).2
    exact ih (Process s).2

theorem processN_count {s : Machine} (h : Inv s) (k : Nat) :
    (processN k s).available_block_count_ = s.available_block_count_ - k := by
  induction k with
  | zero => rfl
  | succ k ih =>
    rw [processN_succ, Process_count (h.after_processN k), ih]
    omega

theorem processN_allocated (s : Machine) (k : Nat) :
    (processN k s).full_state_.state.allocated_block_count =
      s.full_state_.state.allocated_block_count := by
  induction k with
  | zero => rfl
  | succ k ih => rw [processN_succ, Process_allocated, ih]

/-- C2: in the state the first `Init` produces, with `n` arrays reported as allocated, each
of the next `n` invocations of `Process` takes the release branch and returns, leaving
`n - 1`, `n - 2`, ..., `0` arrays reported as available; the invocation after them takes
the terminal branch, which does not return to the runtime, and the reported number of
available arrays is `0` before and after it. -/
theorem Process_drains_pool (grant : Nat → Bool) (hook : Option Nat)
    (final_block_size reserved_block_count reserved_block_size : Nat) (signo : Int)
    (allow_chain : Bool) :
    (∀ k, k < (GetState (Init final_block_size reserved_block_count reserved_block_size signo
          allow_chain (initial grant hook))).allocated_block_count →
      Process (processN k (Init final_block_size reserved_block_count reserved_block_size
          signo allow_chain (initial grant hook))) =
        (Outcome.returned, processRelease (processN k (Init final_block_size
          reserved_block_count reserved_block_size signo allow_chain (initial grant hook)))) ∧
      (GetState (processN (k + 1) (Init final_block_size reserved_block_count
          reserved_block_size signo allow_chain (initial grant hook)))).available_block_count =
        (GetState (Init final_block_size reserved_block_count reserved_block_size signo
          allow_chain (initial grant hook))).allocated_block_count - 1 - k) ∧
    Process (processN (GetState (Init final_block_size reserved_block_count
        reserved_block_size signo allow_chain (initial grant hook))).allocated_block_count
        (Init final_block_size reserved_block_count reserved_block_size signo allow_chain
          (initial grant hook))) =
      processTerminal (processN (GetState (Init final_block_size reserved_block_count
        reserved_block_size signo allow_chain (initial grant hook))).allocated_block_count
        (Init final_block_size reserved_block_count reserved_block_size signo allow_chain
          (initial grant hook))) ∧
    (Process (processN (GetState (Init final_block_size reserved_block_count
        reserved_block_size signo allow_chain (initial grant hook))).allocated_block_count
        (Init final_block_size reserved_block_count reserved_block_size signo allow_chain
          (initial grant hook)))).1 ≠ Outcome.returned ∧
    (GetState (processN (GetState (Init final_block_size reserved_block_count
        reserved_block_size signo allow_chain (initial grant hook))).allocated_block_count
        (Init final_block_size reserved_block_count reserved_block_size signo allow_chain
          (initial grant hook)))).available_block_count = 0 ∧
    (GetState (processN ((GetState (Init final_block_size reserved_block_count
        reserved_block_size signo allow_chain (initial grant hook))).allocated_block_count + 1)
        (Init final_block_size reserved_block_count reserved_block_size signo allow_chain
          (initial grant hook)))).available_block_count = 0 := by
  have hI : Inv (Init final_block_size reserved_block_count reserved_block_size signo
      allow_chain (initial grant hook)) := (Inv.of_initial grant hook).after_Init _ _ _ _ _
  obtain ⟨_, h2, _⟩ := Init_fresh_counts (Inv.of_initial grant hook) rfl final_block_size
    reserved_block_count reserved_block_size signo allow_chain
  generalize Init final_block_size reserved_block_count reserved_block_size signo
      allow_chain (initial grant hook) = s0 at hI h2
  have hn : (GetState s0).allocated_block_count = s0.available_block_count_ := h2
  rw [hn]
  have hav : ∀ k, (GetState (processN k s0)).available_block_count =
      s0.available_block_count_ - k := by
    intro k
    show (processN k s0).full_state_.state.available_block_count = _
    rw [(hI.after_processN k).reported, processN_count hI]
  have hnull : (processN s0.available_block_count_ s0).blk_arr_list_ = 0 := by
    rw [(hI.after_processN _).list_null_iff, processN_count hI]
    omega
  refine ⟨?_, Process_of_null hnull, ?_, ?_, ?_⟩
  · intro k hk
    refine ⟨Process_of_ne ?_, ?_⟩
    · rw [Ne, (hI.after_processN k).list_null_iff, processN_count hI]
      omega
    · rw [hav]; omega
  · rw [Process_of_null hnull]
    exact processTerminal_outcome _
  · rw [hav]; omega
  · rw [hav]; omega

/-- Scenario A of the specification, as an instance of `Process_drains_pool`: after
`Init(1024, 6, 10 MB, 0, false)` with every request granted, six invocations release an
array each and the seventh calls `std::terminate`. -/
theorem Process_drains_pool_witness :
    (∀ k, k < 6 →
      (Process (processN k (Init 1024 6 10485760 0 false (initial (fun _ => true) none)))).1 =
        Outcome.returned ∧
      (GetState (processN (k + 1) (Init 1024 6 10485760 0 false
        (initial (fun _ => true) none)))).available_block_count = 5 - k) ∧
    (Process (processN 6 (Init 1024 6 10485760 0 false (initial (fun _ => true) none)))).1 =
      Outcome.terminated := by
  have h := Process_drains_pool (fun _ => true) none 1024 6 10485760 0 false
  have hn : (GetState (Init 1024 6 10485760 0 false
      (initial (fun _ => true) none))).allocated_block_count = 6 := by decide
  rw [hn] at h
  refine ⟨fun k hk => ⟨?_, (h.1 k hk).2⟩, ?_⟩
  · rw [(h.1 k hk).1]
  · rw [h.2.1]
    decide

/-! ## One release -/

theorem processRelease_trace {s : Machine} (h : s.blk_arr_list_ ≠ 0) :
    (processRelease s).trace = s.trace ++ Event.delete_arr s.blk_arr_list_ ::
      (if s.full_state_.signo ≠ 0 then [Event.raise s.full_state_.signo] else []) := by
  unfold processRelease
  simp only [delete_arr_available_block_count_, delete_arr_full_state_, delete_arr_of_ne h]
  by_cases hs : s.full_state_.signo = 0
  · split <;> simp [emit, hs]
  · split <;> simp [emit, hs]

theorem Inv.release {s : Machine} (h : Inv s) (hne : s.blk_arr_list_ ≠ 0) :
    Process s = (Outcome.returned, processRelease s) ∧
    (Process s).2.trace = s.trace ++ Event.delete_arr s.blk_arr_list_ ::
      (if s.full_state_.signo ≠ 0 then [Event.raise s.full_state_.signo] else []) ∧
    (∃ ys, Chain s.m_next s.blk_arr_list_ (s.blk_arr_list_ :: ys) ∧
      Chain (Process s).2.m_next (Process s).2.blk_arr_list_ ys) ∧
    (GetState (Process s).2).available_block_count + 1 = (GetState s).available_block_count ∧
    (GetState (Process s).2).allocated_block_count = (GetState s).allocated_block_count := by
  have hP := Process_of_ne hne
  have hcnt : s.available_block_count_ ≠ 0 := fun hc => hne (h.list_null_iff.mpr hc)
  refine ⟨hP, ?_, ?_, ?_, Process_allocated s⟩
  · rw [hP]; exact processRelease_trace hne
  · obtain ⟨xs, h1, _, _⟩ := h.chain
    cases xs with
    | nil => exact absurd ((Chain.null_iff h1).mpr rfl) hne
    | cons y ys =>
      obtain ⟨hy, hy0, hrest⟩ := h1
      refine ⟨ys, ⟨rfl, hne, by rw [hy]; exact hrest⟩, ?_⟩
      rw [hP]
      show Chain (processRelease s).m_next (processRelease s).blk_arr_list_ ys
      rw [(processRelease_frame s).m_next, (processRelease_statics s).2.2.1, hy]
      exact hrest
  · show (Process s).2.full_state_.state.available_block_count + 1 =
      s.full_state_.state.available_block_count
    rw [h.after_Process.reported, Process_count h, h.reported]
    omega

/-- C3: in every state reached after the first `Init` by further calls of `Init` and
`Process`, if the reserve list is not empty then one invocation of `Process` returns to
the runtime, its only effects are `delete[]` of the array at the head of the list and,
when a signal is configured, raising it (so it neither terminates nor calls a previous
handler), the list afterwards is the old list without its head, the reported number of
available arrays goes down by exactly one (it was at least one), and the reported number
of allocated arrays stays. -/
theorem Process_releases_head (grant : Nat → Bool) (hook : Option Nat)
    (final_block_size reserved_block_count reserved_block_size : Nat) (signo : Int)
    (allow_chain : Bool) (ops : List Op) (s : Machine)
    (hs : s = runOps (Init final_block_size reserved_block_count reserved_block_size signo
      allow_chain (initial grant hook)) ops)
    (hne : s.blk_arr_list_ ≠ 0) :
    Process s = (Outcome.returned, processRelease s) ∧
    (Process s).2.trace = s.trace ++ Event.delete_arr s.blk_arr_list_ ::
      (if s.full_state_.signo ≠ 0 then [Event.raise s.full_state_.signo] else []) ∧
    (∃ ys, Chain s.m_next s.blk_arr_list_ (s.blk_arr_list_ :: ys) ∧
      Chain (Process s).2.m_next (Process s).2.blk_arr_list_ ys) ∧
    (GetState (Process s).2).available_block_count + 1 = (GetState s).available_block_count ∧
    (GetState (Process s).2).allocated_block_count = (GetState s).allocated_block_count := by
  have hI : Inv s := by
    rw [hs]
    exact ((Inv.of_initial grant hook).after_Init _ _ _ _ _).after_runOps ops
  exact hI.release hne

/-- An instance of `Process_releases_head`: after `Init(1024, 6, 10 MB, SIGUSR1, false)`
with every request granted and one earlier invocation, the list is not empty and the next
invocation releases its head. -/
theorem Process_releases_head_witness :
    (runOps (Init 1024 6 10485760 10 false (initial (fun _ => true) none))
      [Op.process]).blk_arr_list_ ≠ 0 ∧
    (GetState (Process (runOps (Init 1024 6 10485760 10 false (initial (fun _ => true) none))
      [Op.process])).2).available_block_count + 1 =
      (GetState (runOps (Init 1024 6 10485760 10 false (initial (fun _ => true) none))
        [Op.process])).available_block_count :=
  ⟨by decide,
    (Process_releases_head (fun _ => true) none 1024 6 10485760 10 false [Op.process] _ rfl
      (by decide)).2.2.2.1⟩

/-! ## Monotonicity of the reported counts -/

theorem Process_init_done (s : Machine) :
    (Process s).2.full_state_.init_done = s.full_state_.init_done := by
  by_cases hnull : s.blk_arr_list_ = 0
  · rw [Process_of_null hnull, (processTerminal_statics s).1]
  · rw [Process_of_ne hnull]
    show (processRelease s).full_state_.init_done = _
    rw [(processRelease_statics s).1]
    split <;> rfl

theorem step_init_done {s : Machine} (hd : s.full_state_.init_done = true) (op : Op) :
    (step s op).full_state_.init_done = true := by
  cases op with
  | init f c z g a => show (Init f c z g a s).full_state_.init_done = true; rw [Init_done hd]; exact hd
  | process => show (Process s).2.full_state_.init_done = true; rw [Process_init_done]; exact hd

theorem runOps_init_done {s : Machine} (hd : s.full_state_.init_done = true) (ops : List Op) :
    (runOps s ops).full_state_.init_done = true := by
  unfold simple.runOps
  induction ops generalizing s with
  | nil => exact hd
  | cons op ops ih => exact ih (step_init_done hd op)

theorem step_available_le {s : Machine} (h : Inv s) (hd : s.full_state_.init_done = true)
    (op : Op) :
    (step s op).full_state_.state.available_block_count ≤
      s.full_state_.state.available_block_count := by
  cases op with
  | init f c z g a =>
    show (Init f c z g a s).full_state_.state.available_block_count ≤ _
    rw [Init_done hd]
  | process =>
    show (Process s).2.full_state_.state.available_block_count ≤ _
    rw [h.after_Process.reported, Process_count h, h.reported]
    omega

theorem runOps_available_le {s : Machine} (h : Inv s) (hd : s.full_state_.init_done = true)
    (ops : List Op) :
    (runOps s ops).full_state_.state.available_block_count ≤
      s.full_state_.state.available_block_count := by
  unfold simple.runOps
  induction ops generalizing s with
  | nil => exact Nat.le_refl _
  | cons op ops ih =>
    exact Nat.le_trans (ih (h.after_step op) (step_init_done hd op)) (step_available_le h hd op)

/-- C4: in every state reached from the initial state by any sequence of `Init` and
`Process` calls, the reported counts satisfy `0 ≤ available ≤ allocated`; and once `Init`
has completed (`init_done` is set), no further sequence of `Init` and `Process` calls
leaves the reported number of available arrays larger than it was. -/
theorem available_bounded_and_nonincreasing (grant : Nat → Bool) (hook : Option Nat)
    (ops later : List Op) :
    0 ≤ (GetState (runOps (initial grant hook) ops)).available_block_count ∧
    (GetState (runOps (initial grant hook) ops)).available_block_count ≤
      (GetState (runOps (initial grant hook) ops)).allocated_block_count ∧
    ((GetFullState (runOps (initial grant hook) ops)).init_done = true →
      (GetState (runOps (runOps (initial grant hook) ops) later)).available_block_count ≤
        (GetState (runOps (initial grant hook) ops)).available_block_count) := by
  have hI : Inv (runOps (initial grant hook) ops) := (Inv.of_initial grant hook).after_runOps ops
  refine ⟨Nat.zero_le _, ?_, fun hd => runOps_available_le hI hd later⟩
  show (runOps (initial grant hook) ops).full_state_.state.available_block_count ≤ _
  rw [hI.reported]
  exact hI.bounded

/-- An instance of `available_bounded_and_nonincreasing`: `Init(0, 3, 16, 0, false)` with
every request granted, one release, then a second `Init` asking for five arrays and one
more release. -/
theorem available_bounded_and_nonincreasing_witness :
    (GetFullState (runOps (initial (fun _ => true) none)
      [Op.init 0 3 16 0 false, Op.process])).init_done = true ∧
    (GetState (runOps (runOps (initial (fun _ => true) none)
      [Op.init 0 3 16 0 false, Op.process])
      [Op.init 0 5 16 0 false, Op.process])).available_block_count ≤
      (GetState (runOps (initial (fun _ => true) none)
        [Op.init 0 3 16 0 false, Op.process])).available_block_count :=
  ⟨by decide,
    (available_bounded_and_nonincreasing (fun _ => true) none
      [Op.init 0 3 16 0 false, Op.process] [Op.init 0 5 16 0 false, Op.process]).2.2
      (by decide)⟩

/-! ## `Init` is one-shot -/

theorem releaseExtra_config (n : Nat) (s : Machine) :
    (releaseExtra n s).full_state_ =
      { s.full_state_ with state := (releaseExtra n s).full_state_.state } := by
  unfold releaseExtra
  split
  · simp
  · rfl

theorem initReserve_config (c z : Nat) (s : Machine) :
    (initReserve c z s).full_state_ =
      { s.full_state_ with state := (initReserve c z s).full_state_.state } := by
  unfold initReserve
  split
  · have hf := reserveLoop_frame (reservedArrSize z) (blockLimit c) 0 s
    have hr := releaseExtra_config (reserveLoop (reservedArrSize z) (blockLimit c) 0 s).1
      (reserveLoop (reservedArrSize z) (blockLimit c) 0 s).2
    rw [hf.full_state_] at hr
    exact hr
  · rfl

theorem Init_init_done (f c z : Nat) (g : Int) (a : Bool) (s : Machine) :
    (Init f c z g a s).full_state_.init_done = true := by
  by_cases hd : s.full_state_.init_done = true
  · rw [Init_done hd]; exact hd
  · unfold simple.Init
    rw [if_neg hd, (initHandler_frame a _).full_state_]
    show (initReserve c z (initFinal f (initConfig f c z g s))).full_state_.init_done = true
    rw [initReserve_config]
    show (initFinal f (initConfig f c z g s)).full_state_.init_done = true
    rw [(initFinal_frame f _).full_state_]
    rfl

/-- C5: a call of `Init` in a state where `init_done` is set returns the state it was given:
configuration, flags, counters, the reserve list, the final block, the saved previous
handler, the registered handler, the number of allocation requests and the effects are all
unchanged.  Hence a second `Init`, whatever its arguments, leaves what the first one
produced. -/
theorem Init_is_one_shot (s : Machine)
    (f c z : Nat) (g : Int) (a : Bool) (f2 c2 z2 : Nat) (g2 : Int) (a2 : Bool) :
    (s.full_state_.init_done = true → Init f c z g a s = s) ∧
    Init f2 c2 z2 g2 a2 (Init f c z g a s) = Init f c z g a s :=
  ⟨fun hd => Init_done hd f c z g a, Init_done (Init_init_done f c z g a s) f2 c2 z2 g2 a2⟩

/-- An instance of `Init_is_one_shot`: after `Init(1024, 6, 10 MB, 0, false)` the flag is
set, and `Init(8, 2, 64, 10, true)` changes nothing, the configuration included. -/
theorem Init_is_one_shot_witness :
    (Init 1024 6 10485760 0 false (initial (fun _ => true) (some 1))).full_state_.init_done
      = true ∧
    Init 8 2 64 10 true (Init 1024 6 10485760 0 false (initial (fun _ => true) (some 1))) =
      Init 1024 6 10485760 0 false (initial (fun _ => true) (some 1)) ∧
    GetFullState (Init 8 2 64 10 true
      (Init 1024 6 10485760 0 false (initial (fun _ => true) (some 1)))) =
      { init_done := true, chained := false, signo := 0, final_block_size := 1024,
        final_block_allocated := true, reserved_block_size := 10485760,
        reserved_block_count := 6,
        state := { allocated_block_count := 6, available_block_count := 6 } } :=
  ⟨by decide,
    (Init_is_one_shot (Init 1024 6 10485760 0 false (initial (fun _ => true) (some 1)))
      8 2 64 10 true 8 2 64 10 true).1 (by decide),
    by
      rw [(Init_is_one_shot (initial (fun _ => true) (some 1))
        1024 6 10485760 0 false 8 2 64 10 true).2]
      decide⟩

/-! ## The terminal branch and chaining -/

theorem delete_arr_trace (p : Nat) (s : Machine) :
    (delete_arr p s).trace = s.trace ++ (if p = 0 then [] else [Event.delete_arr p]) := by
  unfold delete_arr
  split <;> simp [emit]

theorem processTerminal_trace (s : Machine) :
    (processTerminal s).2.trace =
      s.trace ++ (if s.final_block_ = 0 then [] else [Event.delete_arr s.final_block_]) ++
        (match s.prev_handler_ with
          | some h => [Event.set_new_handler (some h), Event.invoke h]
          | none => [Event.terminate]) := by
  cases hp : s.prev_handler_ with
  | none => rw [processTerminal_of_none hp]; simp [emit, delete_arr_trace]
  | some k => rw [processTerminal_of_some hp]; simp [emit, set_new_handler, delete_arr_trace]

theorem Process_frame (s : Machine) : ProcessFrame s (Process s).2 := by
  by_cases hnull : s.blk_arr_list_ = 0
  · rw [Process_of_null hnull]; exact processTerminal_frame s
  · rw [Process_of_ne hnull]; exact processRelease_frame s

theorem SameConfig.rfl (a : FullState) : SameConfig a a :=
  ⟨Eq.refl _, Eq.refl _, Eq.refl _, Eq.refl _, Eq.refl _, Eq.refl _, Eq.refl _, Eq.refl _⟩

theorem SameConfig.trans {a b c : FullState} (h1 : SameConfig a b) (h2 : SameConfig b c) :
    SameConfig a c :=
  ⟨h2.1.trans h1.1, h2.2.trans h1.2, h2.3.trans h1.3, h2.4.trans h1.4, h2.5.trans h1.5,
    h2.6.trans h1.6, h2.7.trans h1.7, h2.8.trans h1.8⟩

theorem Process_sameConfig (s : Machine) : SameConfig s.full_state_ (Process s).2.full_state_ := by
  by_cases hnull : s.blk_arr_list_ = 0
  · rw [Process_of_null hnull, (processTerminal_statics s).1]
    exact SameConfig.rfl _
  · rw [Process_of_ne hnull]
    show SameConfig s.full_state_ (processRelease s).full_state_
    rw [(processRelease_statics s).1]
    split
    · exact ⟨rfl, rfl, rfl, rfl, rfl, rfl, rfl, rfl⟩
    · exact SameConfig.rfl _

theorem step_prev_handler {s : Machine} (hd : s.full_state_.init_done = true) (op : Op) :
    (step s op).prev_handler_ = s.prev_handler_ := by
  cases op with
  | init f c z g a => show (Init f c z g a s).prev_handler_ = _; rw [Init_done hd]
  | process => exact (Process_frame s).prev_handler_

theorem step_sameConfig {s : Machine} (hd : s.full_state_.init_done = true) (op : Op) :
    SameConfig s.full_state_ (step s op).full_state_ := by
  cases op with
  | init f c z g a =>
    show SameConfig s.full_state_ (Init f c z g a s).full_state_
    rw [Init_done hd]
    exact SameConfig.rfl _
  | process => exact Process_sameConfig s

theorem runOps_prev_handler {s : Machine} (hd : s.full_state_.init_done = true) (ops : List Op) :
    (runOps s ops).prev_handler_ = s.prev_handler_ := by
  unfold simple.runOps
  induction ops generalizing s with
  | nil => rfl
  | cons op ops ih =>
    exact (ih (step_init_done hd op)).trans (step_prev_handler hd op)

theorem runOps_sameConfig {s : Machine} (hd : s.full_state_.init_done = true) (ops : List Op) :
    SameConfig s.full_state_ (runOps s ops).full_state_ := by
  unfold simple.runOps
  induction ops generalizing s with
  | nil => exact SameConfig.rfl _
  | cons op ops ih =>
    exact (step_sameConfig hd op).trans (ih (step_init_done hd op))

theorem Init_first_handlers (grant : Nat → Bool) (hook : Option Nat) (f c z : Nat) (g : Int)
    (a : Bool) :
    (Init f c z g a (initial grant hook)).prev_handler_ =
      (if a = true then hook.map Hook.external else none) ∧
    (Init f c z g a (initial grant hook)).new_handler = some Hook.process ∧
    (Init f c z g a (initial grant hook)).full_state_.chained = (a && hook.isSome) := by
  obtain ⟨hF, hR, hH⟩ := Init_fresh (Inv.of_initial grant hook) rfl f c z g a
  have hI := (Inv.of_initial grant hook).after_Init f c z g a
  have hp : (Init f c z g a (initial grant hook)).prev_handler_ =
      (if a = true then hook.map Hook.external else none) := by
    rw [hH.prev_handler_, hR.new_handler, hF.new_handler, hR.prev_handler_, hF.prev_handler_]
    rfl
  refine ⟨hp, hH.new_handler, ?_⟩
  rw [hI.chained, hp]
  cases a <;> cases hook <;> rfl

theorem Init_config {s : Machine} (hd : s.full_state_.init_done = false) (f c z : Nat)
    (g : Int) (a : Bool) :
    (Init f c z g a s).full_state_.init_done = true ∧
    (Init f c z g a s).full_state_.signo = g ∧
    (Init f c z g a s).full_state_.final_block_size = f ∧
    (Init f c z g a s).full_state_.reserved_block_size = z ∧
    (Init f c z g a s).full_state_.reserved_block_count = c := by
  have hI : Init f c z g a s =
      initHandler a (initReserve c z (initFinal f (initConfig f c z g s))) := by
    unfold simple.Init
    rw [if_neg (by simp [hd])]
  have h1 := (initHandler_frame a (initReserve c z (initFinal f (initConfig f c z g s)))).full_state_
  have h2 := initReserve_config c z (initFinal f (initConfig f c z g s))
  have h3 := (initFinal_frame f (initConfig f c z g s)).full_state_
  rw [hI]
  refine ⟨?_, ?_, ?_, ?_, ?_⟩
  · exact (congrArg FullState.init_done h1).trans
      ((congrArg FullState.init_done h2).trans (congrArg FullState.init_done h3))
  · exact (congrArg FullState.signo h1).trans
      ((congrArg FullState.signo h2).trans (congrArg FullState.signo h3))
  · exact (congrArg FullState.final_block_size h1).trans
      ((congrArg FullState.final_block_size h2).trans (congrArg FullState.final_block_size h3))
  · exact (congrArg FullState.reserved_block_size h1).trans
      ((congrArg FullState.reserved_block_size h2).trans
        (congrArg FullState.reserved_block_size h3))
  · exact (congrArg FullState.reserved_block_count h1).trans
      ((congrArg FullState.reserved_block_count h2).trans
        (congrArg FullState.reserved_block_count h3))

/-- C6: in every state reached after the first `Init` by further calls of `Init` and
`Process`, when the reserve list is empty `Process` ends as follows.  If `Init` was called
with `allow_chain` and a handler `h` was registered at that time, the effects are: delete
the final block if one is held, register `h` again, call `h`; nothing else, so the library
does not terminate the process.  Otherwise (`allow_chain` false, or no handler was
registered) the effects are: delete the final block if one is held, call `std::terminate`;
no previous handler is called. -/
theorem Process_terminal_action (grant : Nat → Bool) (hook : Option Nat)
    (final_block_size reserved_block_count reserved_block_size : Nat) (signo : Int)
    (allow_chain : Bool) (ops : List Op) (s : Machine)
    (hs : s = runOps (Init final_block_size reserved_block_count reserved_block_size signo
      allow_chain (initial grant hook)) ops)
    (hnull : s.blk_arr_list_ = 0) :
    (∀ h, allow_chain = true → hook = some h →
      (Process s).1 = Outcome.delegated (Hook.external h) ∧
      (Process s).2.new_handler = some (Hook.external h) ∧
      (Process s).2.trace =
        s.trace ++ (if s.final_block_ = 0 then [] else [Event.delete_arr s.final_block_]) ++
          [Event.set_new_handler (some (Hook.external h)), Event.invoke (Hook.external h)]) ∧
    (allow_chain = false ∨ hook = none →
      (Process s).1 = Outcome.terminated ∧
      (Process s).2.trace =
        s.trace ++ (if s.final_block_ = 0 then [] else [Event.delete_arr s.final_block_]) ++
          [Event.terminate]) := by
  have hd := Init_init_done final_block_size reserved_block_count reserved_block_size signo
    allow_chain (initial grant hook)
  have hp : s.prev_handler_ = (if allow_chain = true then hook.map Hook.external else none) := by
    rw [hs, runOps_prev_handler hd]
    exact (Init_first_handlers grant hook _ _ _ _ _).1
  rw [Process_of_null hnull]
  refine ⟨?_, ?_⟩
  · intro h ha hh
    have hp' : s.prev_handler_ = some (Hook.external h) := by rw [hp, ha, hh]; rfl
    refine ⟨?_, ?_, ?_⟩
    · rw [processTerminal_of_some hp']
    · rw [(processTerminal_statics s).2.2.2.2, hp']
    · rw [processTerminal_trace, hp']
  · intro hcase
    have hp' : s.prev_handler_ = none := by
      rw [hp]
      rcases hcase with ha | hh
      · rw [ha]; rfl
      · rw [hh]; cases allow_chain <;> rfl
    refine ⟨?_, ?_⟩
    · rw [processTerminal_of_none hp']
    · rw [processTerminal_trace, hp']

/-- An instance of `Process_terminal_action`, scenario C of the specification:
`Init(0, 0, 0, 0, true)` with the handler number 7 registered beforehand.  The list is
empty at once, and the first `Process` registers that handler again and calls it. -/
theorem Process_terminal_action_witness :
    (runOps (Init 0 0 0 0 true (initial (fun _ => true) (some 7))) []).blk_arr_list_ = 0 ∧
    (Process (runOps (Init 0 0 0 0 true (initial (fun _ => true) (some 7))) [])).1 =
      Outcome.delegated (Hook.external 7) ∧
    (Process (runOps (Init 0 0 0 0 true (initial (fun _ => true) (some 7))) [])).2.new_handler =
      some (Hook.external 7) :=
  ⟨by decide,
    ((Process_terminal_action (fun _ => true) (some 7) 0 0 0 0 true [] _ rfl (by decide)).1 7
      rfl rfl).1,
    ((Process_terminal_action (fun _ => true) (some 7) 0 0 0 0 true [] _ rfl (by decide)).1 7
      rfl rfl).2.1⟩

/-- C7: after the first `Init`, `GetFullState().chained` is true exactly when `allow_chain`
was true and a handler was registered beforehand; in particular it is false when
`allow_chain` is false, whatever was registered, and false when nothing was registered. -/
theorem chained_iff (grant : Nat → Bool) (hook : Option Nat)
    (final_block_size reserved_block_count reserved_block_size : Nat) (signo : Int)
    (allow_chain : Bool) :
    ((GetFullState (Init final_block_size reserved_block_count reserved_block_size signo
        allow_chain (initial grant hook))).chained = true ↔
      allow_chain = true ∧ hook ≠ none) ∧
    (GetFullState (Init final_block_size reserved_block_count reserved_block_size signo
        false (initial grant hook))).chained = false ∧
    (GetFullState (Init final_block_size reserved_block_count reserved_block_size signo
        allow_chain (initial grant none))).chained = false := by
  refine ⟨?_, ?_, ?_⟩
  · show (Init _ _ _ _ _ _).full_state_.chained = true ↔ _
    rw [(Init_first_handlers grant hook _ _ _ _ _).2.2]
    cases allow_chain <;> cases hook <;> simp
  · show (Init _ _ _ _ _ _).full_state_.chained = false
    rw [(Init_first_handlers grant hook _ _ _ _ _).2.2]
    rfl
  · show (Init _ _ _ _ _ _).full_state_.chained = false
    rw [(Init_first_handlers grant none _ _ _ _ _).2.2]
    cases allow_chain <;> rfl

/-- C8: in every state reached after the first `Init(…, signo, …)` by further calls of
`Init` and `Process`, the signals one invocation of `Process` raises are: exactly `signo`,
once, when the list is not empty and `signo ≠ 0`; none when `signo = 0`; none when the
list is empty (the terminal branch), whatever `signo` is. -/
theorem Process_signals (grant : Nat → Bool) (hook : Option Nat)
    (final_block_size reserved_block_count reserved_block_size : Nat) (signo : Int)
    (allow_chain : Bool) (ops : List Op) :
    ∃ effects,
      (Process (runOps (Init final_block_size reserved_block_count reserved_block_size signo
        allow_chain (initial grant hook)) ops)).2.trace =
        (runOps (Init final_block_size reserved_block_count reserved_block_size signo
          allow_chain (initial grant hook)) ops).trace ++ effects ∧
      signalsRaised effects =
        (if (runOps (Init final_block_size reserved_block_count reserved_block_size signo
            allow_chain (initial grant hook)) ops).blk_arr_list_ ≠ 0 ∧ signo ≠ 0
          then [signo] else []) := by
  have hd := Init_init_done final_block_size reserved_block_count reserved_block_size signo
    allow_chain (initial grant hook)
  have hsig : (runOps (Init final_block_size reserved_block_count reserved_block_size signo
      allow_chain (initial grant hook)) ops).full_state_.signo = signo := by
    rw [(runOps_sameConfig hd ops).signo]
    exact (Init_config rfl _ _ _ _ _).2.1
  generalize runOps (Init final_block_size reserved_block_count reserved_block_size signo
      allow_chain (initial grant hook)) ops = s at hsig
  by_cases hnull : s.blk_arr_list_ = 0
  · rw [Process_of_null hnull, processTerminal_trace, List.append_assoc]
    refine ⟨_, rfl, ?_⟩
    cases s.prev_handler_ <;> by_cases hf : s.final_block_ = 0 <;>
      simp [hf, hnull, signalsRaised]
  · rw [Process_of_ne hnull]
    show ∃ effects, (processRelease s).trace = _ ∧ _
    rw [processRelease_trace hnull, hsig]
    refine ⟨_, rfl, ?_⟩
    by_cases h0 : signo = 0
    · simp [h0, hnull, signalsRaised]
    · simp [h0, hnull, signalsRaised]

/-! ## Runs -/

theorem invocations_of_other {s : Machine} (h : s.new_handler ≠ some Hook.process) :
    ∀ k, invocations k s = [] := by
  intro k
  induction k with
  | zero => rfl
  | succ k ih =>
    unfold invocations
    rw [if_neg h]
    exact ih

theorem invocations_count : ∀ (k : Nat) (s : Machine), Inv s →
    s.new_handler = some Hook.process →
    (invocations k s).countP isTerminal = (if s.available_block_count_ < k then 1 else 0) := by
  intro k
  induction k with
  | zero => intro s _ _; rfl
  | succ k ih =>
    intro s hI hh
    unfold invocations
    rw [if_pos hh]
    by_cases hnull : s.blk_arr_list_ = 0
    · have hc : s.available_block_count_ = 0 := hI.list_null_iff.mp hnull
      rw [Process_of_null hnull, hc, if_pos (Nat.succ_pos k)]
      cases hp : s.prev_handler_ with
      | none =>
        rw [processTerminal_of_none hp]
        simp [isTerminal]
      | some h =>
        have hne : h ≠ Hook.process := fun e => hI.not_self (by rw [hp, e])
        have hnew : (processTerminal s).2.new_handler ≠ some Hook.process := by
          rw [(processTerminal_statics s).2.2.2.2, hp]
          simpa using hne
        rw [if_neg (by rw [processTerminal_of_some hp]; simp), invocations_of_other hnew,
          processTerminal_of_some hp]
        simp [isTerminal]
    · have hc : s.available_block_count_ ≠ 0 := fun e => hnull (hI.list_null_iff.mpr e)
      have hP := Process_of_ne hnull
      have hnew : (Process s).2.new_handler = some Hook.process := by
        rw [hP]
        exact (processRelease_statics s).2.2.2.2.trans hh
      have hnt : ¬ (Process s).1 = Outcome.terminated := by rw [hP]; simp
      have hret : isTerminal (s, (Process s).1) = false := by rw [hP]; simp [isTerminal]
      rw [List.countP_cons, if_neg hnt, ih (Process s).2 hI.after_Process hnew,
        Process_count hI, hret]
      simp only [Bool.false_eq_true, if_false, Nat.add_zero]
      by_cases hk : s.available_block_count_ < k + 1
      · rw [if_pos hk, if_pos (by omega)]
      · rw [if_neg hk, if_neg (by omega)]

theorem invocations_terminal : ∀ (k : Nat) (s : Machine), Inv s →
    ∀ i ∈ invocations k s, i.2 = (Process i.1).1 ∧
      (isTerminal i = true → i.1.blk_arr_list_ = 0 ∧
        (GetState i.1).available_block_count = 0) := by
  intro k
  induction k with
  | zero => intro s _ i hi; exact absurd hi (List.not_mem_nil _)
  | succ k ih =>
    intro s hI i hi
    unfold invocations at hi
    by_cases hh : s.new_handler = some Hook.process
    · rw [if_pos hh] at hi
      rcases List.mem_cons.mp hi with hi | hi
      · subst hi
        refine ⟨rfl, ?_⟩
        intro ht
        by_cases hnull : s.blk_arr_list_ = 0
        · refine ⟨hnull, ?_⟩
          show s.full_state_.state.available_block_count = 0
          rw [hI.reported]
          exact hI.list_null_iff.mp hnull
        · simp [isTerminal, Process_of_ne hnull] at ht
      · by_cases ht : (Process s).1 = Outcome.terminated
        · rw [if_pos ht] at hi
          exact absurd hi (List.not_mem_nil _)
        · rw [if_neg ht] at hi
          exact ih (Process s).2 hI.after_Process i hi
    · rw [if_neg hh] at hi
      exact ih s hI i hi

/-- C9, as amended: along every run that starts with `Init` and goes on with the runtime
calling the registered handler on each of `k` allocation failures, `Process` takes the
terminal branch at most once; it takes it exactly once if and only if `k` exceeds the
number of arrays `Init` retained; and every invocation that takes it starts in a state
where the list is empty and the reported number of available arrays is `0`. -/
theorem terminal_at_most_once (grant : Nat → Bool) (hook : Option Nat)
    (final_block_size reserved_block_count reserved_block_size : Nat) (signo : Int)
    (allow_chain : Bool) (k : Nat) :
    (invocations k (Init final_block_size reserved_block_count reserved_block_size signo
      allow_chain (initial grant hook))).countP isTerminal ≤ 1 ∧
    ((invocations k (Init final_block_size reserved_block_count reserved_block_size signo
      allow_chain (initial grant hook))).countP isTerminal = 1 ↔
      (GetState (Init final_block_size reserved_block_count reserved_block_size signo
        allow_chain (initial grant hook))).allocated_block_count < k) ∧
    (∀ i ∈ invocations k (Init final_block_size reserved_block_count reserved_block_size signo
        allow_chain (initial grant hook)),
      i.2 = (Process i.1).1 ∧
      (isTerminal i = true →
        i.1.blk_arr_list_ = 0 ∧ (GetState i.1).available_block_count = 0)) := by
  have hI : Inv (Init final_block_size reserved_block_count reserved_block_size signo
      allow_chain (initial grant hook)) := (Inv.of_initial grant hook).after_Init _ _ _ _ _
  have hh := (Init_first_handlers grant hook final_block_size reserved_block_count
    reserved_block_size signo allow_chain).2.1
  obtain ⟨_, h2, _⟩ := Init_fresh_counts (Inv.of_initial grant hook) rfl final_block_size
    reserved_block_count reserved_block_size signo allow_chain
  have hn : (GetState (Init final_block_size reserved_block_count reserved_block_size signo
      allow_chain (initial grant hook))).allocated_block_count =
      (Init final_block_size reserved_block_count reserved_block_size signo
        allow_chain (initial grant hook)).available_block_count_ := h2
  rw [hn, invocations_count k _ hI hh]
  refine ⟨?_, ?_, invocations_terminal k _ hI⟩
  · split <;> omega
  · split <;> simp_all

/-- C9 as stated fails: after `Init(0, 2, 8, 0, false)` with every request granted, a run
with two allocation failures has two invocations of `Process`, both releasing an array; the
pool is then drained, and the terminal branch has been taken zero times, not once. -/
theorem terminal_not_exactly_once :
    (invocations 2 (Init 0 2 8 0 false (initial (fun _ => true) none))).countP isTerminal ≠ 1 ∧
    (invocations 2 (Init 0 2 8 0 false (initial (fun _ => true) none))).countP isTerminal = 0 ∧
    (invocations 2 (Init 0 2 8 0 false (initial (fun _ => true) none))).length = 2 ∧
    (GetState (processN 2 (Init 0 2 8 0 false
      (initial (fun _ => true) none)))).available_block_count = 0 := by
  decide

/-! ## What the allocation loop asks for -/

theorem reserveLoop_grant (sz : Nat) (n c : Nat) (s : Machine) :
    (reserveLoop sz n c s).2.grant = s.grant :=
  (reserveLoop_frame sz n c s).grant

theorem reserveLoop_run (sz : Nat) : ∀ (n c : Nat) (s : Machine), ∃ j, j ≤ n ∧
    (reserveLoop sz n c s).2.trace = s.trace ++ grantedEvents sz s.requests j ++
      (if j < n then [Event.new_nothrow sz 0] else []) ∧
    (reserveLoop sz n c s).2.requests = s.requests + j + (if j < n then 1 else 0) ∧
    (c + n < SIZE_MOD → (reserveLoop sz n c s).1 = c + j) ∧
    (reserveLoop sz n c s).2.blk_arr_list_ =
      (if j = 0 then s.blk_arr_list_ else s.requests + j) ∧
    (∀ i, i < j → s.grant (s.requests + i) = true) ∧
    (j < n → s.grant (s.requests + j) = false) := by
  intro n
  induction n with
  | zero =>
    intro c s
    exact ⟨0, Nat.le_refl _, by simp [reserveLoop, grantedEvents], by simp [reserveLoop],
      fun _ => rfl, rfl, fun i hi => absurd hi (Nat.not_lt_zero i),
      fun h => absurd h (Nat.lt_irrefl 0)⟩
  | succ n ih =>
    intro c s
    unfold reserveLoop
    by_cases hg : s.grant s.requests = true
    · have hp : (new_nothrow sz s).1 = s.requests + 1 := by simp [new_nothrow, hg]
      have hne : ¬ (new_nothrow sz s).1 = 0 := by rw [hp]; omega
      simp only [hne, if_false]
      obtain ⟨j, h1, h2, h3, h4, h5, h6, h7⟩ := ih ((c + 1) % SIZE_MOD)
        (link (new_nothrow sz s).1 (new_nothrow sz s).2)
      have hreq : (link (new_nothrow sz s).1 (new_nothrow sz s).2).requests = s.requests + 1 :=
        rfl
      have htr : (link (new_nothrow sz s).1 (new_nothrow sz s).2).trace =
          s.trace ++ [Event.new_nothrow sz (s.requests + 1)] := by
        simp [link, store_next, new_nothrow, emit, hg]
      have hgr : (link (new_nothrow sz s).1 (new_nothrow sz s).2).grant = s.grant := rfl
      have hlist : (link (new_nothrow sz s).1 (new_nothrow sz s).2).blk_arr_list_ =
          s.requests + 1 := hp
      rw [hreq, htr] at h2
      rw [hreq] at h3 h5 h6 h7
      rw [hgr] at h6 h7
      rw [hlist] at h5
      refine ⟨j + 1, by omega, ?_, ?_, ?_, ?_, ?_, ?_⟩
      · rw [h2]
        have e : (j + 1 < n + 1) = (j < n) := by simp
        simp only [grantedEvents, e, List.append_assoc, List.singleton_append]
      · rw [h3]
        by_cases hj : j < n
        · rw [if_pos hj, if_pos (by omega)]; omega
        · rw [if_neg hj, if_neg (by omega)]; omega
      · intro hlt
        have hmod : (c + 1) % SIZE_MOD = c + 1 := Nat.mod_eq_of_lt (by omega)
        rw [hmod] at h4 ⊢
        rw [h4 (by omega)]
        omega
      · rw [h5, if_neg (Nat.succ_ne_zero j)]
        by_cases hj : j = 0
        · rw [if_pos hj, hj]
        · rw [if_neg hj]; omega
      · intro i hi
        cases i with
        | zero => exact hg
        | succ i =>
          have := h6 i (by omega)
          rw [show s.requests + (i + 1) = s.requests + 1 + i by omega]
          exact this
      · intro hj
        have := h7 (by omega)
        rw [show s.requests + (j + 1) = s.requests + 1 + j by omega]
        exact this
    · have hg' : s.grant s.requests = false := by simpa using hg
      have hp : (new_nothrow sz s).1 = 0 := by simp [new_nothrow, hg']
      simp only [hp, if_true]
      refine ⟨0, Nat.zero_le _, ?_, ?_, fun _ => rfl, rfl,
        fun i hi => absurd hi (Nat.not_lt_zero i), fun _ => hg'⟩
      · simp [new_nothrow, emit, hg', grantedEvents]
      · simp [new_nothrow, emit]

theorem allocResults_append (xs ys : List Event) :
    allocResults (xs ++ ys) = allocResults xs ++ allocResults ys := by
  induction xs with
  | nil => rfl
  | cons x xs ih =>
    cases x <;> simp [allocResults, ih]

theorem allocResults_granted (sz : Nat) : ∀ (j first : Nat),
    allocResults (grantedEvents sz first j) = List.range' (first + 1) j := by
  intro j
  induction j with
  | zero => intro first; rfl
  | succ j ih =>
    intro first
    simp [grantedEvents, allocResults, ih, List.range'_succ]

theorem first_zero_unique : ∀ (ps qs rest tail : List Nat), (∀ p ∈ ps, p ≠ 0) →
    (∀ q ∈ qs, q ≠ 0) → ps ++ 0 :: rest = qs ++ 0 :: tail → ps = qs ∧ rest = tail := by
  intro ps
  induction ps with
  | nil =>
    intro qs rest tail _ hq h
    cases qs with
    | nil => simpa using h
    | cons q qs =>
      simp only [List.nil_append, List.cons_append, List.cons.injEq] at h
      exact absurd h.1.symm (hq q (List.mem_cons_self q qs))
  | cons p ps ih =>
    intro qs rest tail hp hq h
    cases qs with
    | nil =>
      simp only [List.nil_append, List.cons_append, List.cons.injEq] at h
      exact absurd h.1 (hp p (List.mem_cons_self p ps))
    | cons q qs =>
      simp only [List.cons_append, List.cons.injEq] at h
      obtain ⟨e1, e2⟩ := ih qs rest tail (fun x hx => hp x (List.mem_cons_of_mem p hx))
        (fun x hx => hq x (List.mem_cons_of_mem q hx)) h.2
      exact ⟨by rw [h.1, e1], e2⟩

theorem no_zero_in (ps rest : List Nat) {qs : List Nat} (hq : ∀ q ∈ qs, q ≠ 0)
    (h : ps ++ 0 :: rest = qs) : False := by
  have : (0 : Nat) ∈ qs := by rw [← h]; simp
  exact hq 0 this rfl

theorem initHandler_trace (a : Bool) (s : Machine) :
    (initHandler a s).trace = s.trace ++ [Event.set_new_handler (some Hook.process)] := by
  unfold initHandler
  cases a with
  | false => simp [set_new_handler, emit]
  | true => cases hh : s.new_handler <;> simp [set_new_handler, emit, hh]

theorem initReserve_run (c z : Nat) (s : Machine) (h0 : s.blk_arr_list_ = 0)
    (hav : s.available_block_count_ = 0) (hc : c ≠ 0) (hz : z ≠ 0) :
    ∃ j, j ≤ blockLimit c ∧
      (initReserve c z s).trace = s.trace ++ grantedEvents (reservedArrSize z) s.requests j ++
        (if j < blockLimit c then [Event.new_nothrow (reservedArrSize z) 0] else []) ++
        (if j = 0 then [] else [Event.delete_arr (s.requests + j)]) ∧
      (initReserve c z s).available_block_count_ = j - 1 ∧
      (∀ i, i < j → s.grant (s.requests + i) = true) ∧
      (j < blockLimit c → s.grant (s.requests + j) = false) := by
  obtain ⟨j, h1, h2, _, h4, h5, h6, h7⟩ := reserveLoop_run (reservedArrSize z) (blockLimit c) 0 s
  have hlim := blockLimit_le_max c
  have hsz : UINT_MAX < SIZE_MOD := by decide
  have hmax : UINT_MAX = UINT_MOD - 1 := by decide
  have hcount := h4 (by omega)
  have hf := reserveLoop_frame (reservedArrSize z) (blockLimit c) 0 s
  refine ⟨j, h1, ?_, ?_, h6, h7⟩
  · unfold initReserve
    rw [if_pos ⟨hc, hz⟩]
    unfold releaseExtra
    simp only
    rw [h5, h0]
    by_cases hj : j = 0
    · simp [hj] at h2 ⊢
      rw [h2]
    · have hne : s.requests + j ≠ 0 := by omega
      simp only [hj, if_false, hne, ne_eq, not_false_eq_true, if_true,
        delete_arr_of_ne hne, emit]
      rw [h2]
  · unfold initReserve
    rw [if_pos ⟨hc, hz⟩]
    unfold releaseExtra
    simp only
    rw [h5, h0]
    by_cases hj : j = 0
    · simp [hj, hf.available_block_count_, hav]
    · have hne : s.requests + j ≠ 0 := by omega
      simp only [hj, if_false, hne, ne_eq, not_false_eq_true, if_true,
        delete_arr_of_ne hne, emit]
      rw [hcount]
      have hc1 : (0 + j + SIZE_MOD - 1) % SIZE_MOD = j - 1 := by
        have : 0 + j + SIZE_MOD - 1 = (j - 1) + SIZE_MOD := by omega
        rw [this, Nat.add_mod_right]
        exact Nat.mod_eq_of_lt (by omega)
      rw [hc1]
      exact Nat.mod_eq_of_lt (by omega)

/-- C10: allocation shortfall.  Take the first `Init` with `reserved_block_count > 0` and
`reserved_block_size > 0`, and suppose that among its requests for reserve arrays the one
after the granted requests `ps` is refused.  Then that request is the last one `Init` makes
(`rest` is empty); after it `Init` only deletes the array obtained last, if there is one,
and registers the handler; `init_done` is set; the reported allocated and available counts
both equal `ps.length - 1`, which is `0` when nothing was granted; that is the number of
arrays left in the list; and `ps.length ≤ reserved_block_count`. -/
theorem Init_shortfall (grant : Nat → Bool) (hook : Option Nat)
    (final_block_size reserved_block_count reserved_block_size : Nat) (signo : Int)
    (allow_chain : Bool) (ps rest : List Nat)
    (hcount : 0 < reserved_block_count) (hsize : 0 < reserved_block_size)
    (hps : ∀ p ∈ ps, p ≠ 0)
    (hfail : reserveResults final_block_size reserved_block_count reserved_block_size signo
      allow_chain (initial grant hook) = ps ++ 0 :: rest) :
    rest = [] ∧
    (∃ before, (Init final_block_size reserved_block_count reserved_block_size signo
        allow_chain (initial grant hook)).trace =
      before ++ Event.new_nothrow (reservedArrSize reserved_block_size) 0 ::
        ((match ps.getLast? with
          | some p => [Event.delete_arr p]
          | none => []) ++ [Event.set_new_handler (some Hook.process)])) ∧
    (GetFullState (Init final_block_size reserved_block_count reserved_block_size signo
      allow_chain (initial grant hook))).init_done = true ∧
    (GetState (Init final_block_size reserved_block_count reserved_block_size signo
      allow_chain (initial grant hook))).allocated_block_count = ps.length - 1 ∧
    (GetState (Init final_block_size reserved_block_count reserved_block_size signo
      allow_chain (initial grant hook))).available_block_count = ps.length - 1 ∧
    (∃ xs, Chain (Init final_block_size reserved_block_count reserved_block_size signo
        allow_chain (initial grant hook)).m_next
      (Init final_block_size reserved_block_count reserved_block_size signo
        allow_chain (initial grant hook)).blk_arr_list_ xs ∧ xs.length = ps.length - 1) ∧
    ps.length ≤ reserved_block_count := by
  obtain ⟨hF, _, hH⟩ := Init_fresh (Inv.of_initial grant hook) rfl final_block_size
    reserved_block_count reserved_block_size signo allow_chain
  obtain ⟨c1, c2, _⟩ := Init_fresh_counts (Inv.of_initial grant hook) rfl final_block_size
    reserved_block_count reserved_block_size signo allow_chain
  have hI := (Inv.of_initial grant hook).after_Init final_block_size reserved_block_count
    reserved_block_size signo allow_chain
  have hdone := Init_init_done final_block_size reserved_block_count reserved_block_size signo
    allow_chain (initial grant hook)
  have hInit : Init final_block_size reserved_block_count reserved_block_size signo
      allow_chain (initial grant hook) =
      initHandler allow_chain (initReserve reserved_block_count reserved_block_size
        (initFinal final_block_size (initConfig final_block_size reserved_block_count
          reserved_block_size signo (initial grant hook)))) := by
    unfold simple.Init
    rw [if_neg (by simp [simple.initial])]
  unfold reserveResults at hfail
  generalize initFinal final_block_size (initConfig final_block_size reserved_block_count
    reserved_block_size signo (initial grant hook)) = b at hF hH hfail hInit
  obtain ⟨j, hj, htr, hav, _, _⟩ := initReserve_run reserved_block_count reserved_block_size b
    hF.blk_arr_list_ hF.available_block_count_ (by omega) (by omega)
  have htrace : (Init final_block_size reserved_block_count reserved_block_size signo
      allow_chain (initial grant hook)).trace =
      b.trace ++ (grantedEvents (reservedArrSize reserved_block_size) b.requests j ++
        ((if j < blockLimit reserved_block_count then
            [Event.new_nothrow (reservedArrSize reserved_block_size) 0] else []) ++
          ((if j = 0 then [] else [Event.delete_arr (b.requests + j)]) ++
            [Event.set_new_handler (some Hook.process)]))) := by
    rw [hInit, initHandler_trace, htr]
    simp only [List.append_assoc]
  have havail : (Init final_block_size reserved_block_count reserved_block_size signo
      allow_chain (initial grant hook)).available_block_count_ = j - 1 := by
    rw [hH.available_block_count_, hav]
  have hnz : ∀ q ∈ List.range' (b.requests + 1) j, q ≠ 0 := by
    intro q hq
    have := (List.mem_range'_1.mp hq).1
    omega
  rw [htrace, List.drop_left, allocResults_append, allocResults_granted,
    allocResults_append] at hfail
  by_cases hlt : j < blockLimit reserved_block_count
  · rw [if_pos hlt] at hfail htrace
    have hres : ps ++ 0 :: rest = List.range' (b.requests + 1) j ++ 0 :: [] := by
      rw [← hfail]
      by_cases hj0 : j = 0 <;> simp [hj0, allocResults]
    obtain ⟨e1, e2⟩ := first_zero_unique ps _ rest [] hps hnz hres
    have hlen : ps.length = j := by rw [e1]; simp
    have hlast : ps.getLast? = if j = 0 then none else some (b.requests + j) := by
      rw [e1, List.getLast?_range']
      by_cases hj0 : j = 0
      · rw [if_pos hj0, if_pos hj0]
      · rw [if_neg hj0, if_neg hj0]
        congr 1
        omega
    refine ⟨e2, ⟨b.trace ++ grantedEvents (reservedArrSize reserved_block_size) b.requests j,
      ?_⟩, hdone, ?_, ?_, ?_, ?_⟩
    · rw [htrace, hlast]
      by_cases hj0 : j = 0
      · simp [hj0]
      · simp [hj0]
    · show (Init _ _ _ _ _ _).full_state_.state.allocated_block_count = _
      rw [c2, havail, hlen]
    · show (Init _ _ _ _ _ _).full_state_.state.available_block_count = _
      rw [c1, havail, hlen]
    · obtain ⟨xs, x1, x2, _⟩ := hI.chain
      exact ⟨xs, x1, by rw [x2, havail, hlen]⟩
    · have := blockLimit_le_succ reserved_block_count
      omega
  · rw [if_neg hlt] at hfail
    exfalso
    refine no_zero_in ps rest hnz ?_
    rw [← hfail]
    by_cases hj0 : j = 0 <;> simp [hj0, allocResults]

/-- An instance of `Init_shortfall`: `Init(1024, 6, 10 MB, 0, false)` where the allocator
grants the final block and three arrays and refuses the fourth.  Two arrays are retained. -/
theorem Init_shortfall_witness :
    reserveResults 1024 6 10485760 0 false (initial (fun k => decide (k < 4)) none) =
      [2, 3, 4] ++ 0 :: [] ∧
    (GetState (Init 1024 6 10485760 0 false
      (initial (fun k => decide (k < 4)) none))).allocated_block_count = 2 ∧
    (GetState (Init 1024 6 10485760 0 false
      (initial (fun k => decide (k < 4)) none))).available_block_count = 2 :=
  ⟨by decide,
    (Init_shortfall (fun k => decide (k < 4)) none 1024 6 10485760 0 false [2, 3, 4] []
      (by decide) (by decide) (by decide) (by decide)).2.2.2.1,
    (Init_shortfall (fun k => decide (k < 4)) none 1024 6 10485760 0 false [2, 3, 4] []
      (by decide) (by decide) (by decide) (by decide)).2.2.2.2.1⟩

/-! ## The observers and the configuration -/

theorem processN_pre_init (grant : Nat → Bool) (hook : Option Nat) (k : Nat) :
    (processN k (initial grant hook)).full_state_ = (initial grant hook).full_state_ ∧
    (processN k (initial grant hook)).blk_arr_list_ = 0 := by
  induction k with
  | zero => exact ⟨rfl, rfl⟩
  | succ k ih =>
    rw [processN_succ, Process_of_null ih.2, (processTerminal_statics _).1,
      (processTerminal_statics _).2.2.1]
    exact ih

/-- C13: before `Init` has been called, `GetFullState` returns every field zero or false
and `GetState` returns `{0, 0}`.  This holds in the state the process starts in and
stays so however often `Process` might run before `Init`. -/
theorem state_before_Init (grant : Nat → Bool) (hook : Option Nat) (k : Nat) :
    GetFullState (processN k (initial grant hook)) =
      { init_done := false, chained := false, signo := 0, final_block_size := 0,
        final_block_allocated := false, reserved_block_size := 0,
        reserved_block_count := 0,
        state := { allocated_block_count := 0, available_block_count := 0 } } ∧
    GetState (processN k (initial grant hook)) =
      { allocated_block_count := 0, available_block_count := 0 } := by
  have h := (processN_pre_init grant hook k).1
  unfold GetState GetFullState FullState.GetState
  rw [h]
  exact ⟨rfl, rfl⟩

/-- C14: after the first `Init`, for every argument tuple and every behaviour of the
allocator, `GetFullState` reports `init_done` and gives back `signo`, `final_block_size`,
`reserved_block_size` and `reserved_block_count` exactly as they were passed. -/
theorem Init_echoes_configuration (grant : Nat → Bool) (hook : Option Nat)
    (final_block_size reserved_block_count reserved_block_size : Nat) (signo : Int)
    (allow_chain : Bool) :
    (GetFullState (Init final_block_size reserved_block_count reserved_block_size signo
      allow_chain (initial grant hook))).init_done = true ∧
    (GetFullState (Init final_block_size reserved_block_count reserved_block_size signo
      allow_chain (initial grant hook))).signo = signo ∧
    (GetFullState (Init final_block_size reserved_block_count reserved_block_size signo
      allow_chain (initial grant hook))).final_block_size = final_block_size ∧
    (GetFullState (Init final_block_size reserved_block_count reserved_block_size signo
      allow_chain (initial grant hook))).reserved_block_size = reserved_block_size ∧
    (GetFullState (Init final_block_size reserved_block_count reserved_block_size signo
      allow_chain (initial grant hook))).reserved_block_count = reserved_block_count :=
  Init_config rfl final_block_size reserved_block_count reserved_block_size signo allow_chain

/-- C17: an invocation of `Process`, on either branch and in any state, leaves
`init_done`, `chained`, `signo`, `final_block_size`, `final_block_allocated`,
`reserved_block_size`, `reserved_block_count` and `allocated_block_count` as
`GetFullState` reports them unchanged; of the reported fields only
`available_block_count` can differ afterwards. -/
theorem Process_keeps_configuration (s : Machine) :
    (GetFullState (Process s).2).init_done = (GetFullState s).init_done ∧
    (GetFullState (Process s).2).chained = (GetFullState s).chained ∧
    (GetFullState (Process s).2).signo = (GetFullState s).signo ∧
    (GetFullState (Process s).2).final_block_size = (GetFullState s).final_block_size ∧
    (GetFullState (Process s).2).final_block_allocated =
      (GetFullState s).final_block_allocated ∧
    (GetFullState (Process s).2).reserved_block_size = (GetFullState s).reserved_block_size ∧
    (GetFullState (Process s).2).reserved_block_count =
      (GetFullState s).reserved_block_count ∧
    (GetFullState (Process s).2).state.allocated_block_count =
      (GetFullState s).state.allocated_block_count ∧
    GetFullState (Process s).2 =
      { GetFullState s with
        state := { (GetFullState s).state with
          available_block_count := (GetFullState (Process s).2).state.available_block_count } } := by
  have h := Process_sameConfig s
  refine ⟨h.1, h.2, h.3, h.4, h.5, h.6, h.7, h.8, ?_⟩
  unfold GetFullState
  obtain ⟨h1, h2, h3, h4, h5, h6, h7, h8⟩ := h
  cases hp : (Process s).2.full_state_ with
  | mk a1 a2 a3 a4 a5 a6 a7 st =>
    cases st with
    | mk x y =>
      rw [hp] at h1 h2 h3 h4 h5 h6 h7 h8
      simp only at h1 h2 h3 h4 h5 h6 h7 h8
      cases hq : s.full_state_ with
      | mk b1 b2 b3 b4 b5 b6 b7 st2 =>
        cases st2 with
        | mk u v =>
          rw [hq] at h1 h2 h3 h4 h5 h6 h7 h8
          simp only at h1 h2 h3 h4 h5 h6 h7 h8
          subst h1 h2 h3 h4 h5 h6 h7 h8
          rfl

/-- C19: in every state `GetState()` returns the pair held in the `state` field of what
`GetFullState()` returns: `GetState() == GetFullState().GetState()`. -/
theorem GetState_eq_GetFullState (s : Machine) :
    GetState s = (GetFullState s).GetState ∧
    GetState s = (GetFullState s).state ∧
    (GetState s).allocated_block_count = (GetFullState s).state.allocated_block_count ∧
    (GetState s).available_block_count = (GetFullState s).state.available_block_count :=
  ⟨rfl, rfl, rfl, rfl⟩

/-! ## No reserve requested -/

theorem initReserve_of_zero {c z : Nat} (h : c = 0 ∨ z = 0) (s : Machine) :
    initReserve c z s = s := by
  unfold initReserve
  rw [if_neg]
  intro hcz
  rcases h with h | h
  · exact hcz.1 h
  · exact hcz.2 h

theorem Init_unfold_initial (grant : Nat → Bool) (hook : Option Nat) (f c z : Nat) (g : Int)
    (a : Bool) :
    Init f c z g a (initial grant hook) =
      initHandler a (initReserve c z (initFinal f (initConfig f c z g (initial grant hook)))) := by
  unfold simple.Init
  rw [if_neg (by simp [simple.initial])]

theorem Init_without_reserve_core (grant : Nat → Bool) (hook : Option Nat)
    (final_block_size reserved_block_count reserved_block_size : Nat) (signo : Int)
    (allow_chain : Bool) (hz : reserved_block_count = 0 ∨ reserved_block_size = 0) :
    reserveResults final_block_size reserved_block_count reserved_block_size signo
      allow_chain (initial grant hook) = [] ∧
    GetState (Init final_block_size reserved_block_count reserved_block_size signo
      allow_chain (initial grant hook)) =
      { allocated_block_count := 0, available_block_count := 0 } ∧
    (Init final_block_size reserved_block_count reserved_block_size signo
      allow_chain (initial grant hook)).blk_arr_list_ = 0 ∧
    Process (Init final_block_size reserved_block_count reserved_block_size signo
      allow_chain (initial grant hook)) =
      processTerminal (Init final_block_size reserved_block_count reserved_block_size signo
        allow_chain (initial grant hook)) ∧
    (Process (Init final_block_size reserved_block_count reserved_block_size signo
      allow_chain (initial grant hook))).1 ≠ Outcome.returned := by
  have hI := (Inv.of_initial grant hook).after_Init final_block_size reserved_block_count
    reserved_block_size signo allow_chain
  obtain ⟨hF, _, hH⟩ := Init_fresh (Inv.of_initial grant hook) rfl final_block_size
    reserved_block_count reserved_block_size signo allow_chain
  obtain ⟨c1, c2, _⟩ := Init_fresh_counts (Inv.of_initial grant hook) rfl final_block_size
    reserved_block_count reserved_block_size signo allow_chain
  have hcnt : (Init final_block_size reserved_block_count reserved_block_size signo
      allow_chain (initial grant hook)).available_block_count_ = 0 := by
    rw [hH.available_block_count_, initReserve_of_zero hz, hF.available_block_count_]
    rfl
  have hnull := hI.list_null_iff.mpr hcnt
  refine ⟨?_, ?_, hnull, Process_of_null hnull, ?_⟩
  · unfold reserveResults
    rw [Init_unfold_initial, initReserve_of_zero hz, initHandler_trace, List.drop_left]
    rfl
  · unfold GetState FullState.GetState
    rw [hcnt] at c1 c2
    cases hs : (Init final_block_size reserved_block_count reserved_block_size signo
      allow_chain (initial grant hook)).full_state_.state with
    | mk x y =>
      rw [hs] at c1 c2
      simp only at c1 c2
      rw [c1, c2]
  · rw [Process_of_null hnull]
    exact processTerminal_outcome _

/-- C12: when `reserved_block_size` or `reserved_block_count` is zero, the first `Init`
makes no request for a reserve array, reports `0` allocated and `0` available arrays and
leaves the list empty; so the very first invocation of `Process` takes the terminal
branch and does not return to the runtime. -/
theorem Init_without_reserve (grant : Nat → Bool) (hook : Option Nat)
    (final_block_size reserved_block_count reserved_block_size : Nat) (signo : Int)
    (allow_chain : Bool) (hzero : reserved_block_size = 0 ∨ reserved_block_count = 0) :
    reserveResults final_block_size reserved_block_count reserved_block_size signo
      allow_chain (initial grant hook) = [] ∧
    GetState (Init final_block_size reserved_block_count reserved_block_size signo
      allow_chain (initial grant hook)) =
      { allocated_block_count := 0, available_block_count := 0 } ∧
    (Init final_block_size reserved_block_count reserved_block_size signo
      allow_chain (initial grant hook)).blk_arr_list_ = 0 ∧
    Process (Init final_block_size reserved_block_count reserved_block_size signo
      allow_chain (initial grant hook)) =
      processTerminal (Init final_block_size reserved_block_count reserved_block_size signo
        allow_chain (initial grant hook)) ∧
    (Process (Init final_block_size reserved_block_count reserved_block_size signo
      allow_chain (initial grant hook))).1 ≠ Outcome.returned :=
  Init_without_reserve_core grant hook final_block_size reserved_block_count
    reserved_block_size signo allow_chain hzero.symm

/-- Scenario C of the specification as an instance of `Init_without_reserve`:
`Init(0, 0, 0, 0, true)` with the handler number 7 registered beforehand.  No final block
is held, `chained` is set, and the first `Process` registers the earlier handler again and
calls it. -/
theorem Init_without_reserve_witness :
    ((0 : Nat) = 0 ∨ (0 : Nat) = 0) ∧
    Process (Init 0 0 0 0 true (initial (fun _ => true) (some 7))) =
      processTerminal (Init 0 0 0 0 true (initial (fun _ => true) (some 7))) ∧
    (GetFullState (Init 0 0 0 0 true (initial (fun _ => true) (some 7)))).chained = true ∧
    (Process (Init 0 0 0 0 true (initial (fun _ => true) (some 7)))).1 =
      Outcome.delegated (Hook.external 7) ∧
    (Process (Init 0 0 0 0 true (initial (fun _ => true) (some 7)))).2.trace =
      [Event.set_new_handler (some Hook.process),
        Event.set_new_handler (some (Hook.external 7)), Event.invoke (Hook.external 7)] :=
  ⟨Or.inl rfl,
    (Init_without_reserve (fun _ => true) (some 7) 0 0 0 0 true (Or.inl rfl)).2.2.2.1,
    by decide, by decide, by decide⟩

/-! ## Rounding to the granularity of `Blk` -/

theorem reservedArrSize_round_up (z : Nat) (h : z + sizeofBlk ≤ SIZE_MOD) :
    z ≤ reservedArrSize z * sizeofBlk ∧ reservedArrSize z * sizeofBlk < z + sizeofBlk := by
  unfold reservedArrSize
  unfold sizeofBlk SIZE_MOD at *
  have hm : (z + 8 - 1) % 2 ^ 64 = z + 7 := Nat.mod_eq_of_lt (by omega)
  rw [hm]
  omega

theorem finalSize_round_up (f : Nat) (h : f + sizeofBlk ≤ SIZE_MOD) :
    f ≤ finalSize f ∧ finalSize f < f + sizeofBlk := by
  unfold finalSize
  unfold sizeofBlk SIZE_MOD at *
  have hm : (f + 8 - 1) % 2 ^ 64 = f + 7 := Nat.mod_eq_of_lt (by omega)
  rw [hm]
  have h2 : (f + 7) / 8 * 8 % 2 ^ 64 = (f + 7) / 8 * 8 := Nat.mod_eq_of_lt (by omega)
  rw [h2]
  omega

/-- C20, the code at the failing input.  For `reserved_block_size = SIZE_MAX` the sum
`reserved_block_size + sizeof(Blk) - 1` wraps to `6`, so `Init` asks for arrays of `0`
elements, which cannot hold `reserved_block_size` bytes; `Init(0, 1, SIZE_MAX)` with every
request granted asks twice for `Blk[0]` and reports one reserve array.  In the same way
the rounded size of a final block of `SIZE_MAX` bytes is `0`, not at least `SIZE_MAX`,
and `Init(SIZE_MAX, 0, 0)` asks for no final block at all. -/
theorem rounding_wraps_at_SIZE_MAX :
    reservedArrSize 18446744073709551615 = 0 ∧
    ¬ (reservedArrSize 18446744073709551615 * sizeofBlk ≥ 18446744073709551615) ∧
    (Init 0 1 18446744073709551615 0 false (initial (fun _ => true) none)).trace =
      [Event.new_nothrow 0 1, Event.new_nothrow 0 2, Event.delete_arr 2,
        Event.set_new_handler (some Hook.process)] ∧
    (GetState (Init 0 1 18446744073709551615 0 false
      (initial (fun _ => true) none))).allocated_block_count = 1 ∧
    finalSize 18446744073709551615 = 0 ∧
    ¬ (finalSize 18446744073709551615 ≥ 18446744073709551615) ∧
    (Init 18446744073709551615 0 0 0 false (initial (fun _ => true) none)).trace =
      [Event.set_new_handler (some Hook.process)] := by
  decide

/-! ## Every request granted -/

theorem grantedEvents_eq_map (sz : Nat) : ∀ (j first : Nat),
    grantedEvents sz first j = (List.range' (first + 1) j).map (Event.new_nothrow sz) := by
  intro j
  induction j with
  | zero => intro first; rfl
  | succ j ih =>
    intro first
    simp [grantedEvents, ih, List.range'_succ]

theorem Init_reserve_run (grant : Nat → Bool) (hook : Option Nat) (f c z : Nat) (g : Int)
    (a : Bool) (hc : c ≠ 0) (hz : z ≠ 0) :
    ∃ j, j ≤ blockLimit c ∧
      (Init f c z g a (initial grant hook)).trace =
        (initFinal f (initConfig f c z g (initial grant hook))).trace ++
          (grantedEvents (reservedArrSize z)
              (initFinal f (initConfig f c z g (initial grant hook))).requests j ++
            ((if j < blockLimit c then [Event.new_nothrow (reservedArrSize z) 0] else []) ++
              ((if j = 0 then [] else [Event.delete_arr
                  ((initFinal f (initConfig f c z g (initial grant hook))).requests + j)]) ++
                [Event.set_new_handler (some Hook.process)]))) ∧
      (GetState (Init f c z g a (initial grant hook))).allocated_block_count = j - 1 ∧
      (GetState (Init f c z g a (initial grant hook))).available_block_count = j - 1 ∧
      (∀ i, i < j →
        grant ((initFinal f (initConfig f c z g (initial grant hook))).requests + i) = true) ∧
      (j < blockLimit c →
        grant ((initFinal f (initConfig f c z g (initial grant hook))).requests + j) = false) := by
  obtain ⟨hF, _, hH⟩ := Init_fresh (Inv.of_initial grant hook) rfl f c z g a
  obtain ⟨c1, c2, _⟩ := Init_fresh_counts (Inv.of_initial grant hook) rfl f c z g a
  have hInit := Init_unfold_initial grant hook f c z g a
  have hgrant : (initFinal f (initConfig f c z g (initial grant hook))).grant = grant := hF.grant
  generalize initFinal f (initConfig f c z g (initial grant hook)) = b at hF hH hInit hgrant
  obtain ⟨j, hj, htr, hav, hg1, hg2⟩ := initReserve_run c z b hF.blk_arr_list_
    hF.available_block_count_ hc hz
  rw [hgrant] at hg1 hg2
  have havail : (Init f c z g a (initial grant hook)).available_block_count_ = j - 1 := by
    rw [hH.available_block_count_, hav]
  refine ⟨j, hj, ?_, ?_, ?_, hg1, hg2⟩
  · rw [hInit, initHandler_trace, htr]
    simp only [List.append_assoc]
  · show (Init f c z g a (initial grant hook)).full_state_.state.allocated_block_count = _
    rw [c2, havail]
  · show (Init f c z g a (initial grant hook)).full_state_.state.available_block_count = _
    rw [c1, havail]

theorem blockLimit_of_lt {c : Nat} (h : c < UINT_MAX) : blockLimit c = c + 1 := by
  unfold blockLimit
  unfold UINT_MAX at h
  have h1 : (c + 1) % SIZE_MOD = c + 1 := Nat.mod_eq_of_lt (by unfold SIZE_MOD; omega)
  have h2 : (c + 1) % UINT_MOD = c + 1 := Nat.mod_eq_of_lt (by unfold UINT_MOD; omega)
  rw [h1, h2]
  by_cases hlt : c + 1 < UINT_MAX
  · rw [if_pos hlt]
  · rw [if_neg hlt]
    unfold UINT_MAX at *
    omega

theorem blockLimit_of_ge {c : Nat} (h : UINT_MAX ≤ c) (hs : c + 1 < SIZE_MOD) :
    blockLimit c = UINT_MAX := by
  unfold blockLimit
  have h1 : (c + 1) % SIZE_MOD = c + 1 := Nat.mod_eq_of_lt hs
  rw [h1, if_neg (by omega)]

/-- The first `Init` when no request it makes is refused, in terms of `block_limit`. -/
theorem Init_all_granted (grant : Nat → Bool) (hook : Option Nat) (f c z : Nat) (g : Int)
    (a : Bool) (hc : c ≠ 0) (hz : z ≠ 0) (hpos : 0 < blockLimit c)
    (hall : ∀ p ∈ allocResults (Init f c z g a (initial grant hook)).trace, p ≠ 0) :
    ∃ ps p,
      reserveResults f c z g a (initial grant hook) = ps ++ [p] ∧
      ps.length + 1 = blockLimit c ∧
      (Init f c z g a (initial grant hook)).trace.drop
          (initFinal f (initConfig f c z g (initial grant hook))).trace.length =
        (ps ++ [p]).map (Event.new_nothrow (reservedArrSize z)) ++
          [Event.delete_arr p, Event.set_new_handler (some Hook.process)] ∧
      (GetState (Init f c z g a (initial grant hook))).allocated_block_count =
        blockLimit c - 1 ∧
      (GetState (Init f c z g a (initial grant hook))).available_block_count =
        blockLimit c - 1 := by
  obtain ⟨j, hj, htr, h1, h2, _, _⟩ := Init_reserve_run grant hook f c z g a hc hz
  have hjL : j = blockLimit c := by
    by_cases hlt : j < blockLimit c
    · exfalso
      refine hall 0 ?_ rfl
      rw [htr, if_pos hlt]
      simp [allocResults_append, allocResults]
    · omega
  subst hjL
  rw [if_neg (Nat.lt_irrefl _), if_neg (by omega)] at htr
  obtain ⟨n, hn⟩ : ∃ n, blockLimit c = n + 1 := ⟨blockLimit c - 1, by omega⟩
  rw [hn] at htr h1 h2 ⊢
  unfold reserveResults
  generalize initFinal f (initConfig f c z g (initial grant hook)) = b at htr ⊢
  refine ⟨List.range' (b.requests + 1) n, b.requests + 1 + n, ?_, by simp, ?_, h1, h2⟩
  · rw [htr, List.drop_left, allocResults_append, allocResults_granted, List.range'_1_concat]
    simp [allocResults]
  · rw [htr, List.drop_left, grantedEvents_eq_map, List.range'_1_concat]
    simp only [List.nil_append, List.singleton_append]
    congr 3
    omega

/-- C11, as amended: take the first `Init` with `reserved_block_count > 0` and
`reserved_block_size > 0` in which no allocation request is refused.  If
`reserved_block_count < UINT_MAX`, `Init` makes exactly `reserved_block_count + 1` requests
for reserve arrays, its only `delete[]` is of the array obtained last, and it reports
`reserved_block_count` arrays as allocated and as available.  If
`UINT_MAX ≤ reserved_block_count < SIZE_MAX`, the number of requests is clamped to
`UINT_MAX` and `UINT_MAX - 1` arrays are reported. -/
theorem Init_all_requests_granted (grant : Nat → Bool) (hook : Option Nat)
    (final_block_size reserved_block_count reserved_block_size : Nat) (signo : Int)
    (allow_chain : Bool)
    (hcount : 0 < reserved_block_count) (hsize : 0 < reserved_block_size)
    (hall : ∀ p ∈ allocResults (Init final_block_size reserved_block_count
      reserved_block_size signo allow_chain (initial grant hook)).trace, p ≠ 0) :
    (reserved_block_count < UINT_MAX →
      ∃ ps p,
        reserveResults final_block_size reserved_block_count reserved_block_size signo
          allow_chain (initial grant hook) = ps ++ [p] ∧
        ps.length + 1 = reserved_block_count + 1 ∧
        (Init final_block_size reserved_block_count reserved_block_size signo allow_chain
            (initial grant hook)).trace.drop
            (initFinal final_block_size (initConfig final_block_size reserved_block_count
              reserved_block_size signo (initial grant hook))).trace.length =
          (ps ++ [p]).map (Event.new_nothrow (reservedArrSize reserved_block_size)) ++
            [Event.delete_arr p, Event.set_new_handler (some Hook.process)] ∧
        (GetState (Init final_block_size reserved_block_count reserved_block_size signo
          allow_chain (initial grant hook))).allocated_block_count = reserved_block_count ∧
        (GetState (Init final_block_size reserved_block_count reserved_block_size signo
          allow_chain (initial grant hook))).available_block_count = reserved_block_count) ∧
    (UINT_MAX ≤ reserved_block_count → reserved_block_count + 1 < SIZE_MOD →
      (reserveResults final_block_size reserved_block_count reserved_block_size signo
        allow_chain (initial grant hook)).length = UINT_MAX ∧
      (GetState (Init final_block_size reserved_block_count reserved_block_size signo
        allow_chain (initial grant hook))).allocated_block_count = UINT_MAX - 1 ∧
      (GetState (Init final_block_size reserved_block_count reserved_block_size signo
        allow_chain (initial grant hook))).available_block_count = UINT_MAX - 1) := by
  refine ⟨?_, ?_⟩
  · intro hlt
    have hL := blockLimit_of_lt hlt
    obtain ⟨ps, p, h1, h2, h3, h4, h5⟩ := Init_all_granted grant hook final_block_size
      reserved_block_count reserved_block_size signo allow_chain (by omega) (by omega)
      (by omega) hall
    rw [hL] at h2 h4 h5
    exact ⟨ps, p, h1, h2, h3, by simpa using h4, by simpa using h5⟩
  · intro hge hs
    have hL := blockLimit_of_ge hge hs
    obtain ⟨ps, p, h1, h2, _, h4, h5⟩ := Init_all_granted grant hook final_block_size
      reserved_block_count reserved_block_size signo allow_chain (by omega) (by omega)
      (by rw [hL]; decide) hall
    rw [hL] at h2 h4 h5
    refine ⟨?_, h4, h5⟩
    rw [h1, List.length_append, List.length_singleton]
    exact h2

/-- The example program as an instance of `Init_all_requests_granted`:
`Init(1024, 6, 10 MB)` with every request granted reports six arrays. -/
theorem Init_all_requests_granted_witness :
    (0 < 6) ∧ (0 < 10485760) ∧
    (∀ p ∈ allocResults (Init 1024 6 10485760 0 false (initial (fun _ => true) none)).trace,
      p ≠ 0) ∧
    (GetState (Init 1024 6 10485760 0 false
      (initial (fun _ => true) none))).allocated_block_count = 6 := by
  refine ⟨by decide, by decide, by decide, ?_⟩
  obtain ⟨_, _, _, _, _, h, _⟩ := (Init_all_requests_granted (fun _ => true) none 1024 6
    10485760 0 false (by decide) (by decide) (by decide)).1 (by decide)
  exact h

/-- C11 as stated fails: `Init(0, UINT_MAX, 8)` with every request granted makes
`UINT_MAX = 4294967295` requests for reserve arrays, not `UINT_MAX + 1`, and reports
`4294967294` allocated arrays, not `4294967295`. -/
theorem Init_clamps_block_limit :
    (reserveResults 0 4294967295 8 0 false (initial (fun _ => true) none)).length =
      4294967295 ∧
    (GetState (Init 0 4294967295 8 0 false
      (initial (fun _ => true) none))).allocated_block_count = 4294967294 ∧
    (GetState (Init 0 4294967295 8 0 false
      (initial (fun _ => true) none))).allocated_block_count ≠ 4294967295 := by
  have hL : blockLimit 4294967295 = 4294967295 := by decide
  obtain ⟨j, hj, htr, h1, _, _, hg⟩ := Init_reserve_run (fun _ => true) none 0 4294967295 8 0
    false (by decide) (by decide)
  have hjL : j = 4294967295 := by
    by_cases hlt : j < blockLimit 4294967295
    · exact absurd (hg hlt) (by simp)
    · omega
  subst hjL
  refine ⟨?_, h1, by rw [h1]; decide⟩
  unfold reserveResults
  rw [htr, List.drop_left, allocResults_append, allocResults_granted, hL,
    if_neg (Nat.lt_irrefl _)]
  simp [allocResults]

/-! ## The first `Init` in full -/

theorem grantedRun_spec (grant : Nat → Bool) : ∀ (n first : Nat),
    grantedRun grant first n ≤ n ∧
    (∀ i, i < grantedRun grant first n → grant (first + i) = true) ∧
    (grantedRun grant first n < n → grant (first + grantedRun grant first n) = false) := by
  intro n
  induction n with
  | zero =>
    intro first
    exact ⟨Nat.le_refl _, fun i hi => absurd hi (Nat.not_lt_zero i),
      fun h => absurd h (Nat.lt_irrefl 0)⟩
  | succ n ih =>
    intro first
    unfold grantedRun
    by_cases hg : grant first = true
    · rw [if_pos hg]
      obtain ⟨h1, h2, h3⟩ := ih (first + 1)
      refine ⟨by omega, ?_, ?_⟩
      · intro i hi
        cases i with
        | zero => exact hg
        | succ i =>
          rw [show first + (i + 1) = first + 1 + i by omega]
          exact h2 i (by omega)
      · intro hlt
        rw [show first + (grantedRun grant (first + 1) n + 1) =
          first + 1 + grantedRun grant (first + 1) n by omega]
        exact h3 (by omega)
    · rw [if_neg hg]
      exact ⟨Nat.zero_le _, fun i hi => absurd hi (Nat.not_lt_zero i),
        fun _ => by simpa using hg⟩

theorem grantedRun_unique (grant : Nat → Bool) (n first j : Nat) (hj : j ≤ n)
    (h1 : ∀ i, i < j → grant (first + i) = true)
    (h2 : j < n → grant (first + j) = false) : j = grantedRun grant first n := by
  obtain ⟨g0, g1, g2⟩ := grantedRun_spec grant n first
  rcases Nat.lt_trichotomy j (grantedRun grant first n) with h | h | h
  · have := g1 j h
    rw [h2 (by omega)] at this
    exact absurd this (by simp)
  · exact h
  · have := h1 _ h
    rw [g2 (by omega)] at this
    exact absurd this (by simp)

theorem grantedRun_congr (g1 g2 : Nat → Bool) : ∀ (n first : Nat),
    (∀ k, first ≤ k → g1 k = g2 k) → grantedRun g1 first n = grantedRun g2 first n := by
  intro n
  induction n with
  | zero => intro first _; rfl
  | succ n ih =>
    intro first h
    unfold grantedRun
    rw [h first (Nat.le_refl _), ih (first + 1) (fun k hk => h k (by omega))]

theorem stacked_shift (first : Nat) : ∀ j,
    stacked first (j + 1) = stacked (first + 1) j ++ [first + 1] := by
  intro j
  induction j with
  | zero => rfl
  | succ j ih =>
    show (first + (j + 1) + 1) :: stacked first (j + 1) = _
    rw [ih]
    show _ = ((first + 1 + j + 1) :: stacked (first + 1) j) ++ [first + 1]
    rw [List.cons_append]
    congr 1
    omega

theorem mem_stacked {first j x : Nat} (h : x ∈ stacked first j) : first < x ∧ x ≤ first + j := by
  induction j with
  | zero => exact absurd h (List.not_mem_nil _)
  | succ j ih =>
    rcases List.mem_cons.mp h with h | h
    · omega
    · have := ih h
      omega

theorem length_stacked (first : Nat) : ∀ j, (stacked first j).length = j := by
  intro j
  induction j with
  | zero => rfl
  | succ j ih => simp [stacked, ih]

theorem reserveLoop_list (sz : Nat) : ∀ (n c : Nat) (s : Machine) (xs : List Nat) (j : Nat),
    Chain s.m_next s.blk_arr_list_ xs → (∀ x ∈ xs, x ≤ s.requests) → j ≤ n →
    (∀ i, i < j → s.grant (s.requests + i) = true) →
    (j < n → s.grant (s.requests + j) = false) →
    Chain (reserveLoop sz n c s).2.m_next (reserveLoop sz n c s).2.blk_arr_list_
      (stacked s.requests j ++ xs) := by
  intro n
  induction n with
  | zero =>
    intro c s xs j hc _ hj _ _
    have : j = 0 := by omega
    subst this
    exact hc
  | succ n ih =>
    intro c s xs j hc hb hj h1 h2
    unfold reserveLoop
    by_cases hg : s.grant s.requests = true
    · have hp : (new_nothrow sz s).1 = s.requests + 1 := by simp [new_nothrow, hg]
      have hne : ¬ (new_nothrow sz s).1 = 0 := by rw [hp]; omega
      simp only [hne, if_false]
      cases j with
      | zero =>
        have := h2 (Nat.succ_pos n)
        rw [Nat.add_zero, hg] at this
        exact absurd this (by simp)
      | succ j =>
        have hreq : (link (new_nothrow sz s).1 (new_nothrow sz s).2).requests = s.requests + 1 :=
          rfl
        have hgr : (link (new_nothrow sz s).1 (new_nothrow sz s).2).grant = s.grant := rfl
        have hchain : Chain (link (new_nothrow sz s).1 (new_nothrow sz s).2).m_next
            (link (new_nothrow sz s).1 (new_nothrow sz s).2).blk_arr_list_
            ((s.requests + 1) :: xs) := by
          refine ⟨hp, by omega, ?_⟩
          have hs := Chain.store (s.requests + 1) s.blk_arr_list_ xs s.blk_arr_list_
            (fun x hx => by have := hb x hx; omega) hc
          simpa [link, store_next, new_nothrow, emit, hg] using hs
        have := ih ((c + 1) % SIZE_MOD) (link (new_nothrow sz s).1 (new_nothrow sz s).2)
          ((s.requests + 1) :: xs) j hchain
          (by
            intro x hx
            rw [hreq]
            rcases List.mem_cons.mp hx with hx | hx
            · omega
            · have := hb x hx
              omega)
          (by omega)
          (by
            intro i hi
            rw [hreq, hgr, show s.requests + 1 + i = s.requests + (i + 1) by omega]
            exact h1 (i + 1) (by omega))
          (by
            intro hlt
            rw [hreq, hgr, show s.requests + 1 + j = s.requests + (j + 1) by omega]
            exact h2 (by omega))
        rw [hreq] at this
        rw [stacked_shift, List.append_assoc]
        exact this
    · have hg' : s.grant s.requests = false := by simpa using hg
      have hp : (new_nothrow sz s).1 = 0 := by simp [new_nothrow, hg']
      simp only [hp, if_true]
      cases j with
      | zero => exact hc
      | succ j =>
        have := h1 0 (Nat.succ_pos j)
        rw [Nat.add_zero, hg'] at this
        exact absurd this (by simp)

theorem Chain.head {m : Nat → Nat} {p : Nat} {xs : List Nat} (h : Chain m p xs) :
    p = xs.headD 0 := by
  cases xs with
  | nil => exact h
  | cons x xs => exact h.1

theorem initReserve_list (c z : Nat) (s : Machine) (h0 : s.blk_arr_list_ = 0)
    (hc : c ≠ 0) (hz : z ≠ 0) :
    Chain (initReserve c z s).m_next (initReserve c z s).blk_arr_list_
      (stacked s.requests (grantedRun s.grant s.requests (blockLimit c) - 1)) := by
  obtain ⟨g0, g1, g2⟩ := grantedRun_spec s.grant (blockLimit c) s.requests
  have hl := reserveLoop_list (reservedArrSize z) (blockLimit c) 0 s []
    (grantedRun s.grant s.requests (blockLimit c)) h0
    (fun _ h => absurd h (List.not_mem_nil _)) g0 g1 g2
  rw [List.append_nil] at hl
  unfold initReserve
  rw [if_pos ⟨hc, hz⟩]
  unfold releaseExtra
  simp only
  generalize reserveLoop (reservedArrSize z) (blockLimit c) 0 s = r at hl
  generalize grantedRun s.grant s.requests (blockLimit c) = j at hl
  cases j with
  | zero =>
    have : r.2.blk_arr_list_ = 0 := hl
    simp only [this, ne_eq, not_true_eq_false, if_false]
    exact Eq.refl 0
  | succ j =>
    obtain ⟨e1, e2, e3⟩ := hl
    have hne : r.2.blk_arr_list_ ≠ 0 := by rw [e1]; exact e2
    simp only [hne, ne_eq, not_false_eq_true, if_true, delete_arr_of_ne hne, emit]
    show Chain r.2.m_next (r.2.m_next r.2.blk_arr_list_) (stacked s.requests j)
    rw [e1]
    exact e3

theorem initFinal_run (f : Nat) (s : Machine) :
    (initFinal f s).trace = s.trace ++
      (if finalSize f ≠ 0 then
        [Event.new_nothrow (finalSize f / sizeofBlk)
          (if s.grant s.requests = true then s.requests + 1 else 0)]
       else []) ∧
    (initFinal f s).requests = s.requests + (if finalSize f ≠ 0 then 1 else 0) ∧
    (initFinal f s).final_block_ =
      (if finalSize f ≠ 0 then (if s.grant s.requests = true then s.requests + 1 else 0)
       else s.final_block_) ∧
    (initFinal f s).full_state_.final_block_allocated =
      (if finalSize f ≠ 0 ∧ s.grant s.requests = true then true
       else s.full_state_.final_block_allocated) := by
  unfold initFinal
  by_cases h : finalSize f = 0
  · simp [h]
  · by_cases hg : s.grant s.requests = true
    · simp [h, hg, new_nothrow, emit, store_next]
    · have hg' : s.grant s.requests = false := by simpa using hg
      simp [h, hg', new_nothrow, emit]

theorem Init_final_facts (grant : Nat → Bool) (hook : Option Nat) (f c z : Nat) (g : Int) :
    (initFinal f (initConfig f c z g (initial grant hook))).trace =
      (if finalSize f ≠ 0 then
        [Event.new_nothrow (finalSize f / sizeofBlk) (finalPtr grant f)] else []) ∧
    (initFinal f (initConfig f c z g (initial grant hook))).requests = finalRequests f ∧
    (initFinal f (initConfig f c z g (initial grant hook))).final_block_ = finalPtr grant f ∧
    (initFinal f (initConfig f c z g (initial grant hook))).full_state_.final_block_allocated =
      decide (finalPtr grant f ≠ 0) ∧
    (initFinal f (initConfig f c z g (initial grant hook))).grant = grant ∧
    (initFinal f (initConfig f c z g (initial grant hook))).blk_arr_list_ = 0 := by
  obtain ⟨h1, h2, h3, h4⟩ := initFinal_run f (initConfig f c z g (initial grant hook))
  have hF := initFinal_frame f (initConfig f c z g (initial grant hook))
  refine ⟨?_, ?_, ?_, ?_, hF.grant, hF.blk_arr_list_⟩
  · rw [h1]
    unfold finalPtr
    by_cases hq : finalSize f = 0
    · simp [hq, initConfig, simple.initial]
    · by_cases hg : grant 0 = true
      · simp [hq, hg, initConfig, simple.initial]
      · simp [hq, hg, initConfig, simple.initial]
  · rw [h2]
    unfold finalRequests
    simp [initConfig, simple.initial]
  · rw [h3]
    unfold finalPtr
    by_cases hq : finalSize f = 0
    · simp [hq, initConfig, simple.initial]
    · by_cases hg : grant 0 = true
      · simp [hq, hg, initConfig, simple.initial]
      · simp [hq, hg, initConfig, simple.initial]
  · rw [h4]
    unfold finalPtr
    by_cases hq : finalSize f = 0
    · simp [hq, initConfig, simple.initial]
    · by_cases hg : grant 0 = true
      · simp [hq, hg, initConfig, simple.initial]
      · simp [hq, hg, initConfig, simple.initial]

theorem Init_first_final (grant : Nat → Bool) (hook : Option Nat) (f c z : Nat) (g : Int)
    (a : Bool) :
    (Init f c z g a (initial grant hook)).final_block_ = finalPtr grant f ∧
    (Init f c z g a (initial grant hook)).full_state_.final_block_allocated =
      decide (finalPtr grant f ≠ 0) := by
  obtain ⟨_, hR, hH⟩ := Init_fresh (Inv.of_initial grant hook) rfl f c z g a
  obtain ⟨_, _, h3, h4, _, _⟩ := Init_final_facts grant hook f c z g
  refine ⟨?_, ?_⟩
  · rw [hH.final_block_, hR.final_block_, h3]
  · exact (congrArg FullState.final_block_allocated hH.full_state_).trans
      ((congrArg FullState.final_block_allocated hR.full_state_).trans h4)

theorem Init_first_pool (grant : Nat → Bool) (hook : Option Nat) (f c z : Nat) (g : Int)
    (a : Bool) :
    Chain (Init f c z g a (initial grant hook)).m_next
      (Init f c z g a (initial grant hook)).blk_arr_list_
      (stacked (finalRequests f) (reserveRun grant f c z - 1)) ∧
    (GetState (Init f c z g a (initial grant hook))).allocated_block_count =
      reserveRun grant f c z - 1 ∧
    (GetState (Init f c z g a (initial grant hook))).available_block_count =
      reserveRun grant f c z - 1 ∧
    (Init f c z g a (initial grant hook)).trace =
      (if finalSize f ≠ 0 then
        [Event.new_nothrow (finalSize f / sizeofBlk) (finalPtr grant f)] else []) ++
        reserveEvents grant f c z := by
  obtain ⟨_, _, hH⟩ := Init_fresh (Inv.of_initial grant hook) rfl f c z g a
  obtain ⟨b1, b2, _, _, b5, b6⟩ := Init_final_facts grant hook f c z g
  have hInit := Init_unfold_initial grant hook f c z g a
  unfold reserveEvents reserveRun
  by_cases hcz : c ≠ 0 ∧ z ≠ 0
  · rw [if_pos hcz, if_pos hcz]
    obtain ⟨j, hj, htr, h1, h2, hg1, hg2⟩ := Init_reserve_run grant hook f c z g a hcz.1 hcz.2
    rw [b2] at htr hg1 hg2
    have hju := grantedRun_unique grant (blockLimit c) (finalRequests f) j hj hg1 hg2
    subst hju
    have hl := initReserve_list c z (initFinal f (initConfig f c z g (initial grant hook)))
      b6 hcz.1 hcz.2
    rw [b5, b2] at hl
    refine ⟨?_, h1, h2, ?_⟩
    · rw [hH.m_next, hH.blk_arr_list_]
      exact hl
    · rw [htr, b1]
      simp only [List.append_assoc]
  · rw [if_neg hcz, if_neg hcz]
    have hz : c = 0 ∨ z = 0 := by
      by_cases hc0 : c = 0
      · exact Or.inl hc0
      · by_cases hz0 : z = 0
        · exact Or.inr hz0
        · exact absurd ⟨hc0, hz0⟩ hcz
    obtain ⟨_, k2, k3, _, _⟩ := Init_without_reserve_core grant hook f c z g a hz
    refine ⟨?_, ?_, ?_, ?_⟩
    · rw [k3]; exact Eq.refl 0
    · rw [k2]
    · rw [k2]
    · rw [hInit, initReserve_of_zero hz, initHandler_trace, b1]
      simp

/-! ## Registration -/

theorem grantedEvents_no_other (sz : Nat) : ∀ (j first : Nat),
    ∀ e ∈ grantedEvents sz first j, touchesOtherHandler e = false := by
  intro j
  induction j with
  | zero => intro first e he; exact absurd he (List.not_mem_nil _)
  | succ j ih =>
    intro first e he
    rcases List.mem_cons.mp he with he | he
    · rw [he]; rfl
    · exact ih (first + 1) e he

theorem Init_first_no_other (grant : Nat → Bool) (hook : Option Nat) (f c z : Nat) (g : Int)
    (a : Bool) :
    ∀ e ∈ (Init f c z g a (initial grant hook)).trace, touchesOtherHandler e = false := by
  intro e he
  rw [(Init_first_pool grant hook f c z g a).2.2.2] at he
  unfold reserveEvents at he
  rcases List.mem_append.mp he with he | he
  · split at he
    · rw [List.mem_singleton.mp he]; rfl
    · exact absurd he (List.not_mem_nil _)
  · rcases List.mem_append.mp he with he | he
    · split at he
      · rcases List.mem_append.mp he with he | he
        · exact grantedEvents_no_other _ _ _ e he
        · rcases List.mem_append.mp he with he | he
          · split at he
            · rw [List.mem_singleton.mp he]; rfl
            · exact absurd he (List.not_mem_nil _)
          · split at he
            · exact absurd he (List.not_mem_nil _)
            · rw [List.mem_singleton.mp he]; rfl
      · exact absurd he (List.not_mem_nil _)
    · rw [List.mem_singleton.mp he]; rfl

theorem Process_no_other {s : Machine} (hp : s.prev_handler_ = none)
    (ht : ∀ e ∈ s.trace, touchesOtherHandler e = false) :
    ∀ e ∈ (Process s).2.trace, touchesOtherHandler e = false := by
  intro e he
  by_cases hnull : s.blk_arr_list_ = 0
  · rw [Process_of_null hnull, processTerminal_trace, hp] at he
    rcases List.mem_append.mp he with he | he
    · rcases List.mem_append.mp he with he | he
      · exact ht e he
      · split at he
        · exact absurd he (List.not_mem_nil _)
        · rw [List.mem_singleton.mp he]; rfl
    · rw [List.mem_singleton.mp he]; rfl
  · rw [Process_of_ne hnull] at he
    have he' : e ∈ (processRelease s).trace := he
    rw [processRelease_trace hnull] at he'
    rcases List.mem_append.mp he' with he | he
    · exact ht e he
    · rcases List.mem_cons.mp he with he | he
      · rw [he]; rfl
      · split at he
        · rw [List.mem_singleton.mp he]; rfl
        · exact absurd he (List.not_mem_nil _)

theorem runOps_no_other : ∀ (ops : List Op) (s : Machine),
    s.full_state_.init_done = true → s.prev_handler_ = none →
    (∀ e ∈ s.trace, touchesOtherHandler e = false) →
    (runOps s ops).prev_handler_ = none ∧
      ∀ e ∈ (runOps s ops).trace, touchesOtherHandler e = false := by
  intro ops
  induction ops with
  | nil => intro s _ hp ht; exact ⟨hp, ht⟩
  | cons op ops ih =>
    intro s hd hp ht
    show (runOps (step s op) ops).prev_handler_ = none ∧ _
    refine ih (step s op) (step_init_done hd op) ((step_prev_handler hd op).trans hp) ?_
    cases op with
    | init f c z g a =>
      show ∀ e ∈ (Init f c z g a s).trace, _
      rw [Init_done hd]
      exact ht
    | process => exact Process_no_other hp ht

/-- C18: after the first `Init`, whatever `allow_chain` is and whatever was registered
before, the handler registered with the runtime is `Process`.  With `allow_chain` false
the slot for the previous handler is empty after `Init` and stays empty through every
later sequence of `Init` and `Process` calls, and no effect of the library up to then
calls a handler or registers one other than `Process`: the handler registered before is
neither restored nor invoked. -/
theorem Init_registers_Process (grant : Nat → Bool) (hook : Option Nat)
    (final_block_size reserved_block_count reserved_block_size : Nat) (signo : Int)
    (allow_chain : Bool) :
    (Init final_block_size reserved_block_count reserved_block_size signo allow_chain
      (initial grant hook)).new_handler = some Hook.process ∧
    (allow_chain = false →
      (Init final_block_size reserved_block_count reserved_block_size signo allow_chain
        (initial grant hook)).prev_handler_ = none ∧
      ∀ ops,
        (runOps (Init final_block_size reserved_block_count reserved_block_size signo
          allow_chain (initial grant hook)) ops).prev_handler_ = none ∧
        ∀ e ∈ (runOps (Init final_block_size reserved_block_count reserved_block_size signo
          allow_chain (initial grant hook)) ops).trace, touchesOtherHandler e = false) := by
  obtain ⟨h1, h2, _⟩ := Init_first_handlers grant hook final_block_size reserved_block_count
    reserved_block_size signo allow_chain
  refine ⟨h2, ?_⟩
  intro ha
  have hp : (Init final_block_size reserved_block_count reserved_block_size signo allow_chain
      (initial grant hook)).prev_handler_ = none := by
    rw [h1, ha]; rfl
  refine ⟨hp, fun ops => ?_⟩
  exact runOps_no_other ops _ (Init_init_done _ _ _ _ _ _) hp
    (Init_first_no_other grant hook _ _ _ _ _)

/-- An instance of `Init_registers_Process`: `Init(0, 1, 8, 0, false)` while the handler
number 3 is registered, every request granted, then two invocations of `Process`.  The
second one ends in `std::terminate`; handler 3 is never registered again or called. -/
theorem Init_registers_Process_witness :
    (false = false) ∧
    (Init 0 1 8 0 false (initial (fun _ => true) (some 3))).new_handler =
      some Hook.process ∧
    (runOps (Init 0 1 8 0 false (initial (fun _ => true) (some 3)))
      [Op.process, Op.process]).prev_handler_ = none ∧
    (runOps (Init 0 1 8 0 false (initial (fun _ => true) (some 3)))
      [Op.process, Op.process]).trace =
      [Event.new_nothrow 1 1, Event.new_nothrow 1 2, Event.delete_arr 2,
        Event.set_new_handler (some Hook.process), Event.delete_arr 1, Event.terminate] :=
  ⟨rfl, (Init_registers_Process (fun _ => true) (some 3) 0 1 8 0 false).1,
    (((Init_registers_Process (fun _ => true) (some 3) 0 1 8 0 false).2 rfl).2
      [Op.process, Op.process]).1,
    by decide⟩

/-! ## The final block -/

theorem finalPtr_le (grant : Nat → Bool) (f : Nat) : finalPtr grant f ≤ finalRequests f := by
  unfold finalPtr finalRequests
  by_cases hq : finalSize f = 0
  · simp [hq]
  · by_cases hg : grant 0 = true
    · simp [hq, hg]
    · simp [hq, hg]

theorem grantedEvents_no_delete (sz p : Nat) : ∀ (j first : Nat),
    Event.delete_arr p ∉ grantedEvents sz first j := by
  intro j
  induction j with
  | zero => intro first h; exact absurd h (List.not_mem_nil _)
  | succ j ih =>
    intro first h
    rcases List.mem_cons.mp h with h | h
    · exact absurd h (by simp)
    · exact ih (first + 1) h

theorem Init_first_keeps_final (grant : Nat → Bool) (hook : Option Nat) (f c z : Nat)
    (g : Int) (a : Bool) :
    Event.delete_arr (finalPtr grant f) ∉ (Init f c z g a (initial grant hook)).trace := by
  intro he
  have hle := finalPtr_le grant f
  rw [(Init_first_pool grant hook f c z g a).2.2.2] at he
  unfold reserveEvents at he
  rcases List.mem_append.mp he with he | he
  · split at he
    · exact absurd (List.mem_singleton.mp he) (by simp)
    · exact absurd he (List.not_mem_nil _)
  · rcases List.mem_append.mp he with he | he
    · split at he
      · rcases List.mem_append.mp he with he | he
        · exact grantedEvents_no_delete _ _ _ _ he
        · rcases List.mem_append.mp he with he | he
          · split at he
            · exact absurd (List.mem_singleton.mp he) (by simp)
            · exact absurd he (List.not_mem_nil _)
          · split at he
            · exact absurd he (List.not_mem_nil _)
            · rename_i hj
              have := List.mem_singleton.mp he
              simp only [Event.delete_arr.injEq] at this
              omega
      · exact absurd he (List.not_mem_nil _)
    · exact absurd (List.mem_singleton.mp he) (by simp)

theorem FinalInv.of_Init (grant : Nat → Bool) (hook : Option Nat) (f c z : Nat) (g : Int)
    (a : Bool) : FinalInv (finalPtr grant f) (Init f c z g a (initial grant hook)) := by
  have hfin := (Init_first_final grant hook f c z g a).1
  refine ⟨Or.inl hfin, ⟨_, (Init_first_pool grant hook f c z g a).1, ?_⟩, ?_⟩
  · intro x hx
    have := (mem_stacked hx).1
    have := finalPtr_le grant f
    omega
  · rw [if_pos hfin]
    exact List.count_eq_zero.mpr (Init_first_keeps_final grant hook f c z g a)

theorem FinalInv.kept_by_Process {p : Nat} {s : Machine} (h : FinalInv p s) :
    FinalInv p (Process s).2 := by
  obtain ⟨xs, hch, hne⟩ := h.apart
  by_cases hnull : s.blk_arr_list_ = 0
  · rw [Process_of_null hnull]
    obtain ⟨_, _, e3, e4, _⟩ := processTerminal_statics s
    have hF := processTerminal_frame s
    refine ⟨Or.inr e4, ⟨xs, by rw [hF.m_next, e3]; exact hch, hne⟩, ?_⟩
    rw [e4, processTerminal_trace, List.count_append, List.count_append, h.freed]
    have hlast : List.count (Event.delete_arr p)
        (match s.prev_handler_ with
          | some k => [Event.set_new_handler (some k), Event.invoke k]
          | none => [Event.terminate]) = 0 := by
      cases s.prev_handler_ <;> simp
    rw [hlast]
    by_cases hs : s.final_block_ = 0
    · by_cases hp : s.final_block_ = p
      · have hp0 : (0 : Nat) = p := hs.symm.trans hp
        simp [hs, hp0]
      · have hp0 : ¬ (0 : Nat) = p := fun e => hp (hs.trans e)
        simp [hs, hp0, hp]
    · have hp : s.final_block_ = p := by
        rcases h.slot with h1 | h1
        · exact h1
        · exact absurd h1 hs
      have hp0 : ¬ (0 : Nat) = p := fun e => hs (hp.trans e.symm)
      have hp1 : ¬ p = 0 := fun e => hp0 e.symm
      simp [hp, hp0, hp1]
  · rw [Process_of_ne hnull]
    show FinalInv p (processRelease s)
    obtain ⟨_, _, e3, e4, _⟩ := processRelease_statics s
    have hF := processRelease_frame s
    cases xs with
    | nil => exact absurd ((Chain.null_iff hch).mpr rfl) hnull
    | cons y ys =>
      obtain ⟨hy, _, hrest⟩ := hch
      have hhead : s.blk_arr_list_ ≠ p := by
        rw [hy]; exact hne y (List.mem_cons_self y ys)
      refine ⟨by rw [e4]; exact h.slot, ⟨ys, ?_, fun x hx => hne x (List.mem_cons_of_mem y hx)⟩,
        ?_⟩
      · rw [hF.m_next, e3, hy]; exact hrest
      · rw [e4, processRelease_trace hnull, List.count_append, h.freed]
        have : List.count (Event.delete_arr p) (Event.delete_arr s.blk_arr_list_ ::
            (if s.full_state_.signo ≠ 0 then [Event.raise s.full_state_.signo] else [])) = 0 := by
          rw [List.count_eq_zero]
          intro hm
          rcases List.mem_cons.mp hm with hm | hm
          · simp only [Event.delete_arr.injEq] at hm
            exact hhead hm.symm
          · split at hm
            · exact absurd (List.mem_singleton.mp hm) (by simp)
            · exact absurd hm (List.not_mem_nil _)
        rw [this, Nat.add_zero]

theorem FinalInv.kept_by_processN {p : Nat} {s : Machine} (h : FinalInv p s) (k : Nat) :
    FinalInv p (processN k s) := by
  induction k generalizing s with
  | zero => exact h
  | succ k ih => exact ih h.kept_by_Process

theorem processN_final_block {s : Machine} (h : Inv s) (k : Nat) :
    (processN k s).final_block_ =
      if k ≤ s.available_block_count_ then s.final_block_ else 0 := by
  induction k with
  | zero => rw [if_pos (Nat.zero_le _)]; rfl
  | succ k ih =>
    rw [processN_succ]
    have hI := h.after_processN k
    have hc := processN_count h k
    by_cases hlt : k < s.available_block_count_
    · have hne : (processN k s).blk_arr_list_ ≠ 0 := by
        rw [Ne, hI.list_null_iff, hc]; omega
      rw [Process_of_ne hne, if_pos (by omega)]
      show (processRelease (processN k s)).final_block_ = _
      rw [(processRelease_statics _).2.2.2.1, ih, if_pos (by omega)]
    · have hnull : (processN k s).blk_arr_list_ = 0 := by
        rw [hI.list_null_iff, hc]; omega
      rw [Process_of_null hnull, (processTerminal_statics _).2.2.2.1, if_neg (by omega)]

/-- C16: after the first `Init`, which leaves `n` arrays in the list and the final block at
address `p` (`0` if none is held), consider any number `k` of successive invocations of
`Process`.  The first `n` of them take the release branch and the later ones the terminal
branch.  The slot `final_block_` still holds `p` after each of the first `n`, and is `0`
after every later one.  The number of `delete[]` of `p` so far is `0` up to invocation `n`,
is `1` from invocation `n + 1` on if a block was held, and is never more than `1`; an
invocation after the first `n + 1` deletes nothing at all. -/
theorem final_block_freed_at_most_once (grant : Nat → Bool) (hook : Option Nat)
    (final_block_size reserved_block_count reserved_block_size : Nat) (signo : Int)
    (allow_chain : Bool) (k : Nat) :
    (processN k (Init final_block_size reserved_block_count reserved_block_size signo
        allow_chain (initial grant hook))).final_block_ =
      (if k ≤ (GetState (Init final_block_size reserved_block_count reserved_block_size signo
          allow_chain (initial grant hook))).allocated_block_count
        then (Init final_block_size reserved_block_count reserved_block_size signo
          allow_chain (initial grant hook)).final_block_
        else 0) ∧
    (processN k (Init final_block_size reserved_block_count reserved_block_size signo
        allow_chain (initial grant hook))).trace.count
        (Event.delete_arr (Init final_block_size reserved_block_count reserved_block_size
          signo allow_chain (initial grant hook)).final_block_) =
      (if (Init final_block_size reserved_block_count reserved_block_size signo
            allow_chain (initial grant hook)).final_block_ ≠ 0 ∧
          (GetState (Init final_block_size reserved_block_count reserved_block_size signo
            allow_chain (initial grant hook))).allocated_block_count < k
        then 1 else 0) ∧
    (processN k (Init final_block_size reserved_block_count reserved_block_size signo
        allow_chain (initial grant hook))).trace.count
        (Event.delete_arr (Init final_block_size reserved_block_count reserved_block_size
          signo allow_chain (initial grant hook)).final_block_) ≤ 1 ∧
    (k < (GetState (Init final_block_size reserved_block_count reserved_block_size signo
        allow_chain (initial grant hook))).allocated_block_count →
      Process (processN k (Init final_block_size reserved_block_count reserved_block_size
          signo allow_chain (initial grant hook))) =
        (Outcome.returned, processRelease (processN k (Init final_block_size
          reserved_block_count reserved_block_size signo allow_chain
          (initial grant hook))))) ∧
    ((GetState (Init final_block_size reserved_block_count reserved_block_size signo
        allow_chain (initial grant hook))).allocated_block_count ≤ k →
      Process (processN k (Init final_block_size reserved_block_count reserved_block_size
          signo allow_chain (initial grant hook))) =
        processTerminal (processN k (Init final_block_size reserved_block_count
          reserved_block_size signo allow_chain (initial grant hook)))) ∧
    ((GetState (Init final_block_size reserved_block_count reserved_block_size signo
        allow_chain (initial grant hook))).allocated_block_count < k →
      ∀ q, Event.delete_arr q ∉
        (Process (processN k (Init final_block_size reserved_block_count reserved_block_size
          signo allow_chain (initial grant hook)))).2.trace.drop
          (processN k (Init final_block_size reserved_block_count reserved_block_size
            signo allow_chain (initial grant hook))).trace.length) := by
  have hI : Inv (Init final_block_size reserved_block_count reserved_block_size signo
      allow_chain (initial grant hook)) := (Inv.of_initial grant hook).after_Init _ _ _ _ _
  obtain ⟨_, h2, _⟩ := Init_fresh_counts (Inv.of_initial grant hook) rfl final_block_size
    reserved_block_count reserved_block_size signo allow_chain
  have hfin := (Init_first_final grant hook final_block_size reserved_block_count
    reserved_block_size signo allow_chain).1
  have hFI := (FinalInv.of_Init grant hook final_block_size reserved_block_count
    reserved_block_size signo allow_chain).kept_by_processN k
  rw [← hfin] at hFI
  have hfb := processN_final_block hI k
  have hcnt := processN_count hI k
  have hIk := hI.after_processN k
  generalize Init final_block_size reserved_block_count reserved_block_size signo
      allow_chain (initial grant hook) = s0 at hI h2 hFI hfb hcnt hIk
  have hn : (GetState s0).allocated_block_count = s0.available_block_count_ := h2
  rw [hn]
  have hfreed := hFI.freed
  rw [hfb] at hfreed
  have hcount : (processN k s0).trace.count (Event.delete_arr s0.final_block_) =
      if s0.final_block_ ≠ 0 ∧ s0.available_block_count_ < k then 1 else 0 := by
    rw [hfreed]
    by_cases hk : k ≤ s0.available_block_count_
    · rw [if_pos hk, if_pos rfl, if_neg (by omega)]
    · rw [if_neg hk]
      by_cases hp : s0.final_block_ = 0
      · rw [if_pos hp.symm, if_neg (fun h => h.1 hp)]
      · rw [if_neg (fun e => hp e.symm), if_pos ⟨hp, by omega⟩]
  refine ⟨hfb, hcount, ?_, ?_, ?_, ?_⟩
  · rw [hcount]; split <;> omega
  · intro hk
    refine Process_of_ne ?_
    rw [Ne, hIk.list_null_iff, hcnt]; omega
  · intro hk
    refine Process_of_null ?_
    rw [hIk.list_null_iff, hcnt]; omega
  · intro hk q hq
    have hnull : (processN k s0).blk_arr_list_ = 0 := by
      rw [hIk.list_null_iff, hcnt]; omega
    have hzero : (processN k s0).final_block_ = 0 := by
      rw [hfb, if_neg (by omega)]
    rw [Process_of_null hnull, processTerminal_trace, hzero, if_pos rfl, List.append_nil,
      List.drop_left] at hq
    cases hprev : (processN k s0).prev_handler_ with
    | none => rw [hprev] at hq; simp at hq
    | some h => rw [hprev] at hq; simp at hq

/-! ## A refused final block -/

theorem finalResults_initial (grant : Nat → Bool) (hook : Option Nat) (f c z : Nat) (g : Int) :
    finalResults f c z g (initial grant hook) =
      if finalSize f ≠ 0 then [finalPtr grant f] else [] := by
  unfold finalResults
  rw [(Init_final_facts grant hook f c z g).1]
  by_cases hq : finalSize f = 0
  · simp [hq, simple.initial, allocResults]
  · simp [hq, simple.initial, allocResults]

theorem finalSize_pos {f : Nat} (h : finalSize f ≠ 0) : 0 < f := by
  rcases Nat.eq_zero_or_pos f with h0 | h0
  · subst h0
    exact absurd (by decide : finalSize 0 = 0) h
  · exact h0

theorem step_final_null {s : Machine} (hd : s.full_state_.init_done = true)
    (h0 : s.final_block_ = 0) (op : Op) : (step s op).final_block_ = 0 := by
  cases op with
  | init f c z g a => show (Init f c z g a s).final_block_ = 0; rw [Init_done hd]; exact h0
  | process =>
    show (Process s).2.final_block_ = 0
    by_cases hnull : s.blk_arr_list_ = 0
    · rw [Process_of_null hnull]; exact (processTerminal_statics s).2.2.2.1
    · rw [Process_of_ne hnull]
      exact ((processRelease_statics s).2.2.2.1).trans h0

theorem runOps_final_null : ∀ (ops : List Op) (s : Machine),
    s.full_state_.init_done = true → s.final_block_ = 0 → (runOps s ops).final_block_ = 0 := by
  intro ops
  induction ops with
  | nil => intro s _ h0; exact h0
  | cons op ops ih =>
    intro s hd h0
    exact ih (step s op) (step_init_done hd op) (step_final_null hd h0 op)

theorem reserveRun_congr (g1 g2 : Nat → Bool) (f c z : Nat) (hq : finalSize f ≠ 0)
    (h : ∀ k, 1 ≤ k → g2 k = g1 k) : reserveRun g2 f c z = reserveRun g1 f c z := by
  unfold reserveRun
  have hr : finalRequests f = 1 := by unfold finalRequests; rw [if_pos hq]
  rw [hr]
  split
  · exact grantedRun_congr g2 g1 _ 1 h
  · rfl

theorem FullState.eq_of_fields {x y : FullState} (h1 : x.init_done = y.init_done)
    (h2 : x.chained = y.chained) (h3 : x.signo = y.signo)
    (h4 : x.final_block_size = y.final_block_size)
    (h5 : x.final_block_allocated = y.final_block_allocated)
    (h6 : x.reserved_block_size = y.reserved_block_size)
    (h7 : x.reserved_block_count = y.reserved_block_count)
    (h8 : x.state.allocated_block_count = y.state.allocated_block_count)
    (h9 : x.state.available_block_count = y.state.available_block_count) : x = y := by
  cases x with
  | mk a1 a2 a3 a4 a5 a6 a7 st =>
    cases st with
    | mk u v =>
      cases y with
      | mk b1 b2 b3 b4 b5 b6 b7 st2 =>
        cases st2 with
        | mk u2 v2 =>
          simp only at h1 h2 h3 h4 h5 h6 h7 h8 h9
          subst h1 h2 h3 h4 h5 h6 h7 h8 h9
          rfl

/-- C15: the final block is best effort.  After the first `Init`, `final_block_allocated`
is true exactly when `final_block_size > 0` and the request `Init` made for the final
block was granted.  When that request is refused, `Init` still sets `init_done` and
registers `Process`, `final_block_allocated` is false and the slot is empty; compared with
the same call in which only that one request is granted instead, `Init` performs the same
effects from the reserve step on, leaves the same list and the same previous handler, and
`GetFullState` differs in `final_block_allocated` alone; and from every state reached
later in which the list is empty, `Process` deletes nothing and ends by calling the
previous handler or `std::terminate`. -/
theorem final_block_best_effort (grant : Nat → Bool) (hook : Option Nat)
    (final_block_size reserved_block_count reserved_block_size : Nat) (signo : Int)
    (allow_chain : Bool) :
    ((GetFullState (Init final_block_size reserved_block_count reserved_block_size signo
        allow_chain (initial grant hook))).final_block_allocated = true ↔
      0 < final_block_size ∧
      ∃ p, p ≠ 0 ∧ finalResults final_block_size reserved_block_count reserved_block_size
        signo (initial grant hook) = [p]) ∧
    (finalResults final_block_size reserved_block_count reserved_block_size signo
        (initial grant hook) = [0] →
      (GetFullState (Init final_block_size reserved_block_count reserved_block_size signo
        allow_chain (initial grant hook))).init_done = true ∧
      (GetFullState (Init final_block_size reserved_block_count reserved_block_size signo
        allow_chain (initial grant hook))).final_block_allocated = false ∧
      (Init final_block_size reserved_block_count reserved_block_size signo
        allow_chain (initial grant hook)).final_block_ = 0 ∧
      (Init final_block_size reserved_block_count reserved_block_size signo
        allow_chain (initial grant hook)).new_handler = some Hook.process ∧
      (∀ granted : Nat → Bool, granted 0 = true → (∀ k, 1 ≤ k → granted k = grant k) →
        (Init final_block_size reserved_block_count reserved_block_size signo
            allow_chain (initial granted hook)).trace.drop 1 =
          (Init final_block_size reserved_block_count reserved_block_size signo
            allow_chain (initial grant hook)).trace.drop 1 ∧
        (∃ xs,
          Chain (Init final_block_size reserved_block_count reserved_block_size signo
              allow_chain (initial grant hook)).m_next
            (Init final_block_size reserved_block_count reserved_block_size signo
              allow_chain (initial grant hook)).blk_arr_list_ xs ∧
          Chain (Init final_block_size reserved_block_count reserved_block_size signo
              allow_chain (initial granted hook)).m_next
            (Init final_block_size reserved_block_count reserved_block_size signo
              allow_chain (initial granted hook)).blk_arr_list_ xs) ∧
        (Init final_block_size reserved_block_count reserved_block_size signo
            allow_chain (initial granted hook)).prev_handler_ =
          (Init final_block_size reserved_block_count reserved_block_size signo
            allow_chain (initial grant hook)).prev_handler_ ∧
        (Init final_block_size reserved_block_count reserved_block_size signo
            allow_chain (initial granted hook)).new_handler =
          (Init final_block_size reserved_block_count reserved_block_size signo
            allow_chain (initial grant hook)).new_handler ∧
        GetFullState (Init final_block_size reserved_block_count reserved_block_size signo
            allow_chain (initial granted hook)) =
          { GetFullState (Init final_block_size reserved_block_count reserved_block_size
              signo allow_chain (initial grant hook)) with final_block_allocated := true }) ∧
      (∀ ops,
        (runOps (Init final_block_size reserved_block_count reserved_block_size signo
          allow_chain (initial grant hook)) ops).blk_arr_list_ = 0 →
        (Process (runOps (Init final_block_size reserved_block_count reserved_block_size
          signo allow_chain (initial grant hook)) ops)).1 ≠ Outcome.returned ∧
        (Process (runOps (Init final_block_size reserved_block_count reserved_block_size
          signo allow_chain (initial grant hook)) ops)).2.trace =
          (runOps (Init final_block_size reserved_block_count reserved_block_size signo
            allow_chain (initial grant hook)) ops).trace ++
            (match (runOps (Init final_block_size reserved_block_count reserved_block_size
                signo allow_chain (initial grant hook)) ops).prev_handler_ with
              | some h => [Event.set_new_handler (some h), Event.invoke h]
              | none => [Event.terminate]))) := by
  obtain ⟨hfin, hflag⟩ := Init_first_final grant hook final_block_size reserved_block_count
    reserved_block_size signo allow_chain
  have hres := finalResults_initial grant hook final_block_size reserved_block_count
    reserved_block_size signo
  refine ⟨?_, ?_⟩
  · show (Init _ _ _ _ _ _).full_state_.final_block_allocated = true ↔ _
    rw [hflag, hres]
    constructor
    · intro h
      have hp : finalPtr grant final_block_size ≠ 0 := by simpa using h
      have hq : finalSize final_block_size ≠ 0 := by
        intro hq
        apply hp
        unfold finalPtr
        rw [if_neg (fun h => h.1 hq)]
      exact ⟨finalSize_pos hq, finalPtr grant final_block_size, hp, by rw [if_pos hq]⟩
    · rintro ⟨_, p, hp, hr⟩
      by_cases hq : finalSize final_block_size ≠ 0
      · rw [if_pos hq] at hr
        have : finalPtr grant final_block_size = p := by simpa using hr
        rw [this]
        simpa using hp
      · rw [if_neg hq] at hr
        exact absurd hr (by simp)
  · intro hfail
    rw [hres] at hfail
    have hq : finalSize final_block_size ≠ 0 := by
      intro hq
      rw [if_neg (not_not.mpr hq)] at hfail
      exact absurd hfail (by simp)
    rw [if_pos hq] at hfail
    have hp0 : finalPtr grant final_block_size = 0 := by simpa using hfail
    have hd := Init_init_done final_block_size reserved_block_count reserved_block_size signo
      allow_chain (initial grant hook)
    have hfb : (Init final_block_size reserved_block_count reserved_block_size signo
        allow_chain (initial grant hook)).final_block_ = 0 := by rw [hfin, hp0]
    refine ⟨hd, ?_, hfb, (Init_first_handlers grant hook _ _ _ _ _).2.1, ?_, ?_⟩
    · show (Init _ _ _ _ _ _).full_state_.final_block_allocated = false
      rw [hflag, hp0]
      rfl
    · intro granted hg0 hgk
      have hrun := reserveRun_congr grant granted final_block_size reserved_block_count
        reserved_block_size hq hgk
      have hev : reserveEvents granted final_block_size reserved_block_count
          reserved_block_size = reserveEvents grant final_block_size reserved_block_count
          reserved_block_size := by
        unfold reserveEvents
        rw [hrun]
      obtain ⟨p1, p2, p3, p4⟩ := Init_first_pool grant hook final_block_size
        reserved_block_count reserved_block_size signo allow_chain
      obtain ⟨q1, q2, q3, q4⟩ := Init_first_pool granted hook final_block_size
        reserved_block_count reserved_block_size signo allow_chain
      obtain ⟨k1, k2, k3⟩ := Init_first_handlers grant hook final_block_size
        reserved_block_count reserved_block_size signo allow_chain
      obtain ⟨l1, l2, l3⟩ := Init_first_handlers granted hook final_block_size
        reserved_block_count reserved_block_size signo allow_chain
      obtain ⟨m1, m2, m3, m4, m5⟩ := Init_config (s := initial grant hook) rfl final_block_size
        reserved_block_count reserved_block_size signo allow_chain
      obtain ⟨n1, n2, n3, n4, n5⟩ := Init_config (s := initial granted hook) rfl
        final_block_size reserved_block_count reserved_block_size signo allow_chain
      have hflag' := (Init_first_final granted hook final_block_size reserved_block_count
        reserved_block_size signo allow_chain).2
      have hp1 : finalPtr granted final_block_size = 1 := by
        unfold finalPtr
        rw [if_pos ⟨hq, hg0⟩]
      refine ⟨?_, ⟨_, p1, ?_⟩, l1.trans k1.symm, l2.trans k2.symm, ?_⟩
      · rw [p4, q4, if_pos hq, if_pos hq, hev]
        rfl
      · rw [hrun] at q1
        exact q1
      · unfold GetFullState
        refine FullState.eq_of_fields (n1.trans m1.symm) (l3.trans k3.symm) (n2.trans m2.symm)
          (n3.trans m3.symm) ?_ (n4.trans m4.symm) (n5.trans m5.symm) ?_ ?_
        · rw [hflag', hp1]
          rfl
        · exact (q2.trans (by rw [hrun])).trans p2.symm
        · exact (q3.trans (by rw [hrun])).trans p3.symm
    · intro ops hnull
      have hz := runOps_final_null ops _ hd hfb
      rw [Process_of_null hnull]
      refine ⟨processTerminal_outcome _, ?_⟩
      rw [processTerminal_trace, hz, if_pos rfl, List.append_nil]

/-- An instance of `final_block_best_effort`: `Init(1024, 2, 8, 0, false)` where the
allocator refuses the first request, the one for the final block, and grants all others.
Two arrays are retained all the same, and after two releases `Process` goes straight to
`std::terminate`. -/
theorem final_block_best_effort_witness :
    finalResults 1024 2 8 0 (initial (fun k => decide (0 < k)) none) = [0] ∧
    (GetFullState (Init 1024 2 8 0 false
      (initial (fun k => decide (0 < k)) none))).final_block_allocated = false ∧
    (GetFullState (Init 1024 2 8 0 false (initial (fun k => decide (0 < k)) none))).init_done
      = true ∧
    GetState (Init 1024 2 8 0 false (initial (fun k => decide (0 < k)) none)) =
      { allocated_block_count := 2, available_block_count := 2 } ∧
    (Process (runOps (Init 1024 2 8 0 false (initial (fun k => decide (0 < k)) none))
      [Op.process, Op.process])).2.trace =
      (runOps (Init 1024 2 8 0 false (initial (fun k => decide (0 < k)) none))
        [Op.process, Op.process]).trace ++ [Event.terminate] :=
  ⟨by decide,
    ((final_block_best_effort (fun k => decide (0 < k)) none 1024 2 8 0 false).2
      (by decide)).2.1,
    ((final_block_best_effort (fun k => decide (0 < k)) none 1024 2 8 0 false).2
      (by decide)).1,
    by decide, by decide⟩

/-! ## The list, the counter and the reported count -/

theorem initReserve_counter_lt (c z : Nat) (s : Machine)
    (h : s.available_block_count_ < UINT_MOD) :
    (initReserve c z s).available_block_count_ < UINT_MOD := by
  unfold initReserve
  split
  · unfold releaseExtra
    simp only
    split
    · exact Nat.mod_lt _ (by decide)
    · rw [(reserveLoop_frame _ _ _ _).available_block_count_]
      exact h
  · exact h

theorem Init_counter_lt (f c z : Nat) (g : Int) (a : Bool) (s : Machine)
    (h : s.available_block_count_ < UINT_MOD) :
    (Init f c z g a s).available_block_count_ < UINT_MOD := by
  unfold simple.Init
  split
  · exact h
  · rw [(initHandler_frame a _).available_block_count_]
    refine initReserve_counter_lt c z _ ?_
    rw [(initFinal_frame f _).available_block_count_]
    exact h

theorem Process_counter_le (s : Machine) :
    (Process s).2.available_block_count_ ≤ s.available_block_count_ := by
  by_cases hnull : s.blk_arr_list_ = 0
  · rw [Process_of_null hnull, (processTerminal_statics s).2.1]
  · rw [Process_of_ne hnull]
    show (processRelease s).available_block_count_ ≤ _
    rw [(processRelease_statics s).2.1]
    omega

theorem runOps_counter_lt : ∀ (ops : List Op) (s : Machine),
    s.available_block_count_ < UINT_MOD → (runOps s ops).available_block_count_ < UINT_MOD := by
  intro ops
  induction ops with
  | nil => intro s h; exact h
  | cons op ops ih =>
    intro s h
    refine ih (step s op) ?_
    cases op with
    | init f c z g a => exact Init_counter_lt f c z g a s h
    | process => exact Nat.lt_of_le_of_lt (Process_counter_le s) h

/-- C22: in every state reached from the initial state by `Init` and `Process` calls, the
list starting at `blk_arr_list_` has as many arrays as the counter
`available_block_count_` says; the counter equals the reported
`full_state_.state.available_block_count` and both are below `2 ^ 32`, so the `size_t`
and `unsigned int` copies never differ by truncation.  Hence whenever the list is not
empty the counter is positive, and `Process` takes the terminal branch exactly when the
reported number of available arrays is `0`. -/
theorem list_length_eq_counter (grant : Nat → Bool) (hook : Option Nat) (ops : List Op) :
    (∃ xs, Chain (runOps (initial grant hook) ops).m_next
        (runOps (initial grant hook) ops).blk_arr_list_ xs ∧
      xs.length = (runOps (initial grant hook) ops).available_block_count_) ∧
    (runOps (initial grant hook) ops).available_block_count_ =
      (GetFullState (runOps (initial grant hook) ops)).state.available_block_count ∧
    (GetFullState (runOps (initial grant hook) ops)).state.available_block_count % UINT_MOD =
      (GetFullState (runOps (initial grant hook) ops)).state.available_block_count ∧
    (runOps (initial grant hook) ops).available_block_count_ < UINT_MOD ∧
    ((runOps (initial grant hook) ops).blk_arr_list_ ≠ 0 →
      (runOps (initial grant hook) ops).available_block_count_ > 0) ∧
    (Process (runOps (initial grant hook) ops) =
        processTerminal (runOps (initial grant hook) ops) ↔
      (GetState (runOps (initial grant hook) ops)).available_block_count = 0) := by
  have hI : Inv (runOps (initial grant hook) ops) := (Inv.of_initial grant hook).after_runOps ops
  have hlt := runOps_counter_lt ops (initial grant hook)
    (show (0 : Nat) < UINT_MOD by decide)
  generalize runOps (initial grant hook) ops = s at hI hlt
  obtain ⟨xs, h1, h2, _⟩ := hI.chain
  have hrep : s.available_block_count_ = (GetFullState s).state.available_block_count :=
    hI.reported.symm
  refine ⟨⟨xs, h1, h2⟩, hrep, ?_, hlt, ?_, ?_⟩
  · rw [← hrep]
    exact Nat.mod_eq_of_lt hlt
  · intro hne
    exact Nat.pos_of_ne_zero (fun hc => hne (hI.list_null_iff.mpr hc))
  · show _ ↔ s.full_state_.state.available_block_count = 0
    rw [hI.reported]
    constructor
    · intro hP
      by_cases hnull : s.blk_arr_list_ = 0
      · exact hI.list_null_iff.mp hnull
      · exfalso
        have h := congrArg Prod.fst hP
        rw [Process_of_ne hnull] at h
        exact processTerminal_outcome s h.symm
    · intro hc
      exact Process_of_null (hI.list_null_iff.mpr hc)

/-! ## The life of a reserve array -/

theorem mem_stacked_of {first j x : Nat} (h1 : first < x) (h2 : x ≤ first + j) :
    x ∈ stacked first j := by
  induction j with
  | zero => omega
  | succ j ih =>
    by_cases hx : x = first + j + 1
    · rw [hx]; exact List.mem_cons_self _ _
    · exact List.mem_cons_of_mem _ (ih (by omega))

theorem nodup_stacked (first : Nat) : ∀ j, (stacked first j).Nodup := by
  intro j
  induction j with
  | zero => exact List.nodup_nil
  | succ j ih =>
    refine List.nodup_cons.mpr ⟨?_, ih⟩
    intro hm
    have := (mem_stacked hm).2
    omega

theorem count_stacked (first p : Nat) : ∀ j,
    (stacked first j).count p = if first < p ∧ p ≤ first + j then 1 else 0 := by
  intro j
  by_cases h : first < p ∧ p ≤ first + j
  · rw [if_pos h]
    exact List.count_eq_one_of_mem (nodup_stacked first j) (mem_stacked_of h.1 h.2)
  · rw [if_neg h]
    exact List.count_eq_zero.mpr (fun hm => h (mem_stacked hm))

theorem Init_first_delete_count (grant : Nat → Bool) (hook : Option Nat) (f c z : Nat)
    (g : Int) (a : Bool) (p : Nat) :
    (Init f c z g a (initial grant hook)).trace.count (Event.delete_arr p) =
      if reserveRun grant f c z ≠ 0 ∧ p = finalRequests f + reserveRun grant f c z
        then 1 else 0 := by
  rw [(Init_first_pool grant hook f c z g a).2.2.2]
  have hfin : List.count (Event.delete_arr p)
      (if finalSize f ≠ 0 then
        [Event.new_nothrow (finalSize f / sizeofBlk) (finalPtr grant f)] else []) = 0 := by
    split <;> simp
  rw [List.count_append, hfin, Nat.zero_add]
  unfold reserveEvents
  have hrun0 : ¬ (c ≠ 0 ∧ z ≠ 0) → reserveRun grant f c z = 0 := by
    intro h
    unfold reserveRun
    rw [if_neg h]
  by_cases hcz : c ≠ 0 ∧ z ≠ 0
  · rw [if_pos hcz]
    have hg : List.count (Event.delete_arr p)
        (grantedEvents (reservedArrSize z) (finalRequests f) (reserveRun grant f c z)) = 0 :=
      List.count_eq_zero.mpr (grantedEvents_no_delete _ _ _ _)
    have hfail : List.count (Event.delete_arr p)
        (if reserveRun grant f c z < blockLimit c
          then [Event.new_nothrow (reservedArrSize z) 0] else []) = 0 := by
      split <;> simp
    rw [List.count_append, List.count_append, List.count_append, hg, hfail]
    by_cases hj : reserveRun grant f c z = 0
    · simp [hj]
    · by_cases hp : p = finalRequests f + reserveRun grant f c z
      · simp [hj, hp]
      · have hp' : ¬ finalRequests f + reserveRun grant f c z = p := fun e => hp e.symm
        simp [hj, hp, hp']
  · rw [if_neg hcz, hrun0 hcz]
    simp

theorem reserveResults_initial (grant : Nat → Bool) (hook : Option Nat) (f c z : Nat)
    (g : Int) (a : Bool) :
    reserveResults f c z g a (initial grant hook) =
      if c ≠ 0 ∧ z ≠ 0 then
        List.range' (finalRequests f + 1) (reserveRun grant f c z) ++
          (if reserveRun grant f c z < blockLimit c then [0] else [])
      else [] := by
  unfold reserveResults
  rw [(Init_first_pool grant hook f c z g a).2.2.2, (Init_final_facts grant hook f c z g).1,
    List.drop_left]
  unfold reserveEvents
  by_cases hcz : c ≠ 0 ∧ z ≠ 0
  · rw [if_pos hcz, if_pos hcz]
    simp only [allocResults_append, allocResults_granted]
    by_cases hlt : reserveRun grant f c z < blockLimit c
    · rw [if_pos hlt, if_pos hlt]
      by_cases hj : reserveRun grant f c z = 0 <;> simp [hj, allocResults]
    · rw [if_neg hlt, if_neg hlt]
      by_cases hj : reserveRun grant f c z = 0 <;> simp [hj, allocResults]
  · rw [if_neg hcz, if_neg hcz]
    rfl

theorem mem_reserveResults {grant : Nat → Bool} {hook : Option Nat} {f c z : Nat} {g : Int}
    {a : Bool} {p : Nat} (hp : p ∈ reserveResults f c z g a (initial grant hook))
    (hp0 : p ≠ 0) : p ∈ stacked (finalRequests f) (reserveRun grant f c z) := by
  rw [reserveResults_initial] at hp
  split at hp
  · rcases List.mem_append.mp hp with h | h
    · have := List.mem_range'_1.mp h
      exact mem_stacked_of (by omega) (by omega)
    · split at h
      · exact absurd (List.mem_singleton.mp h) hp0
      · exact absurd h (List.not_mem_nil _)
  · exact absurd hp (List.not_mem_nil _)

theorem Lifecycle.at_Init (grant : Nat → Bool) (hook : Option Nat) (f c z : Nat) (g : Int)
    (a : Bool) :
    Lifecycle (stacked (finalRequests f) (reserveRun grant f c z))
      (Init f c z g a (initial grant hook)) := by
  refine ⟨⟨_, (Init_first_pool grant hook f c z g a).1, nodup_stacked _ _, ?_⟩, ?_, ?_⟩
  · intro p hp
    obtain ⟨h1, h2⟩ := mem_stacked hp
    rw [Init_first_delete_count, count_stacked]
    by_cases hlast : p = finalRequests f + reserveRun grant f c z
    · rw [if_pos ⟨by omega, hlast⟩, if_neg (by omega)]
    · rw [if_neg (fun h => hlast h.2), if_pos ⟨h1, by omega⟩]
  · rw [(Init_first_final grant hook f c z g a).1]
    intro hm
    have := (mem_stacked hm).1
    have := finalPtr_le grant f
    omega
  · intro hm
    have := (mem_stacked hm).1
    omega

theorem Lifecycle.through_Process {obtained : List Nat} {s : Machine}
    (h : Lifecycle obtained s) : Lifecycle obtained (Process s).2 := by
  obtain ⟨xs, hch, hnd, hcount⟩ := h.list
  by_cases hnull : s.blk_arr_list_ = 0
  · rw [Process_of_null hnull]
    obtain ⟨_, _, e3, e4, _⟩ := processTerminal_statics s
    have hF := processTerminal_frame s
    refine ⟨⟨xs, by rw [hF.m_next, e3]; exact hch, hnd, ?_⟩, by rw [e4]; exact h.nonnull,
      h.nonnull⟩
    intro p hp
    rw [processTerminal_trace, List.count_append, List.count_append]
    have hne : s.final_block_ ≠ p := fun e => h.final (e ▸ hp)
    have h1 : List.count (Event.delete_arr p)
        (if s.final_block_ = 0 then [] else [Event.delete_arr s.final_block_]) = 0 := by
      split
      · rfl
      · rw [List.count_eq_zero]
        intro hm
        have := List.mem_singleton.mp hm
        simp only [Event.delete_arr.injEq] at this
        exact hne this.symm
    have h2 : List.count (Event.delete_arr p)
        (match s.prev_handler_ with
          | some k => [Event.set_new_handler (some k), Event.invoke k]
          | none => [Event.terminate]) = 0 := by
      cases s.prev_handler_ <;> simp
    rw [h1, h2]
    exact hcount p hp
  · rw [Process_of_ne hnull]
    show Lifecycle obtained (processRelease s)
    obtain ⟨_, _, e3, e4, _⟩ := processRelease_statics s
    have hF := processRelease_frame s
    cases xs with
    | nil => exact absurd ((Chain.null_iff hch).mpr rfl) hnull
    | cons y ys =>
      obtain ⟨hy, _, hrest⟩ := hch
      refine ⟨⟨ys, by rw [hF.m_next, e3, hy]; exact hrest, (List.nodup_cons.mp hnd).2, ?_⟩,
        by rw [e4]; exact h.final, h.nonnull⟩
      intro p hp
      have hc := hcount p hp
      rw [List.count_cons] at hc
      rw [processRelease_trace hnull, List.count_append, List.count_cons, hy]
      have hr : List.count (Event.delete_arr p)
          (if s.full_state_.signo ≠ 0 then [Event.raise s.full_state_.signo] else []) = 0 := by
        split <;> simp
      rw [hr]
      by_cases hyp : y = p
      · simp [hyp] at hc ⊢
        omega
      · simp [hyp] at hc ⊢
        omega

theorem Lifecycle.through_processN {obtained : List Nat} {s : Machine}
    (h : Lifecycle obtained s) (k : Nat) : Lifecycle obtained (processN k s) := by
  induction k generalizing s with
  | zero => exact h
  | succ k ih => exact ih h.through_Process

theorem invocationEffects_of_ne {s : Machine} (h : s.blk_arr_list_ ≠ 0) :
    invocationEffects s = Event.delete_arr s.blk_arr_list_ ::
      (if s.full_state_.signo ≠ 0 then [Event.raise s.full_state_.signo] else []) := by
  unfold invocationEffects
  rw [Process_of_ne h]
  show (processRelease s).trace.drop s.trace.length = _
  rw [processRelease_trace h, List.drop_left]

theorem invocationEffects_of_null {s : Machine} (h : s.blk_arr_list_ = 0) :
    invocationEffects s =
      (if s.final_block_ = 0 then [] else [Event.delete_arr s.final_block_]) ++
        (match s.prev_handler_ with
          | some k => [Event.set_new_handler (some k), Event.invoke k]
          | none => [Event.terminate]) := by
  unfold invocationEffects
  rw [Process_of_null h, processTerminal_trace, List.append_assoc, List.drop_left]

theorem Lifecycle.freed_by_release {obtained : List Nat} {s : Machine}
    (h : Lifecycle obtained s) {p : Nat} (hp : p ∈ obtained)
    (hm : Event.delete_arr p ∈ invocationEffects s) :
    s.blk_arr_list_ = p ∧
    invocationEffects s = Event.delete_arr p ::
      (if s.full_state_.signo ≠ 0 then [Event.raise s.full_state_.signo] else []) := by
  by_cases hnull : s.blk_arr_list_ = 0
  · exfalso
    rw [invocationEffects_of_null hnull] at hm
    rcases List.mem_append.mp hm with hm | hm
    · split at hm
      · exact absurd hm (List.not_mem_nil _)
      · have := List.mem_singleton.mp hm
        simp only [Event.delete_arr.injEq] at this
        exact h.final (this ▸ hp)
    · cases hprev : s.prev_handler_ with
      | none => rw [hprev] at hm; simp at hm
      | some k => rw [hprev] at hm; simp at hm
  · have he := invocationEffects_of_ne hnull
    rw [he] at hm
    have hhead : s.blk_arr_list_ = p := by
      rcases List.mem_cons.mp hm with hm | hm
      · simp only [Event.delete_arr.injEq] at hm
        exact hm.symm
      · split at hm
        · exact absurd (List.mem_singleton.mp hm) (by simp)
        · exact absurd hm (List.not_mem_nil _)
    exact ⟨hhead, by rw [he, hhead]⟩

theorem processN_add (k m : Nat) (s : Machine) :
    processN (k + m) s = processN m (processN k s) := by
  induction k generalizing s with
  | zero => rw [Nat.zero_add]; rfl
  | succ k ih =>
    rw [show k + 1 + m = (k + m) + 1 by omega]
    exact ih (Process s).2

theorem Process_trace_extends (s : Machine) : ∃ es, (Process s).2.trace = s.trace ++ es := by
  by_cases hnull : s.blk_arr_list_ = 0
  · rw [Process_of_null hnull, processTerminal_trace, List.append_assoc]
    exact ⟨_, rfl⟩
  · rw [Process_of_ne hnull]
    exact ⟨_, processRelease_trace hnull⟩

theorem processN_trace_extends (m : Nat) (s : Machine) :
    ∃ es, (processN m s).trace = s.trace ++ es := by
  induction m generalizing s with
  | zero => exact ⟨[], (List.append_nil _).symm⟩
  | succ m ih =>
    obtain ⟨es1, h1⟩ := Process_trace_extends s
    obtain ⟨es2, h2⟩ := ih (Process s).2
    exact ⟨es1 ++ es2, by
      show (processN m (Process s).2).trace = _
      rw [h2, h1, List.append_assoc]⟩

theorem reserveResults_last (grant : Nat → Bool) (hook : Option Nat) (f c z : Nat) (g : Int)
    (a : Bool) (p : Nat) :
    ((reserveResults f c z g a (initial grant hook)).filter (fun q => decide (q ≠ 0))).getLast?
        = some p ↔
      reserveRun grant f c z ≠ 0 ∧ p = finalRequests f + reserveRun grant f c z := by
  rw [reserveResults_initial]
  have hrun0 : ¬ (c ≠ 0 ∧ z ≠ 0) → reserveRun grant f c z = 0 := by
    intro h
    unfold reserveRun
    rw [if_neg h]
  by_cases hcz : c ≠ 0 ∧ z ≠ 0
  · rw [if_pos hcz, List.filter_append]
    have h1 : (List.range' (finalRequests f + 1) (reserveRun grant f c z)).filter
        (fun q => decide (q ≠ 0)) = List.range' (finalRequests f + 1) (reserveRun grant f c z) := by
      rw [List.filter_eq_self]
      intro q hq
      have := List.mem_range'_1.mp hq
      simp only [ne_eq, decide_not, Bool.not_eq_true', decide_eq_false_iff_not]
      omega
    have h2 : (if reserveRun grant f c z < blockLimit c then [0] else []).filter
        (fun q => decide (q ≠ 0)) = [] := by
      split <;> simp
    rw [h1, h2, List.append_nil, List.getLast?_range']
    by_cases hj : reserveRun grant f c z = 0
    · simp [hj]
    · simp only [hj, if_false, Option.some.injEq, ne_eq, not_false_eq_true, true_and]
      constructor
      · intro h; omega
      · intro h; omega
  · rw [if_neg hcz, hrun0 hcz]
    simp

/-- C21: take the first `Init` and then any number `k` of invocations of `Process`, and let
`p` be an array that `Init` obtained for the reserve pool; the allocator hands out distinct
arrays.  At every moment `p` is either on the list exactly once and has never been
deleted, or is off the list and has been deleted exactly once; so it is never deleted
twice, and once deleted it is never on the list again.  `Init` itself deletes `p` exactly
when `p` is the array it obtained last.  An invocation of `Process` that deletes `p` found
`p` at the head of the list, so it took the release branch, and `p` is the only array it
deletes. -/
theorem reserve_array_lifecycle (grant : Nat → Bool) (hook : Option Nat)
    (final_block_size reserved_block_count reserved_block_size : Nat) (signo : Int)
    (allow_chain : Bool) (k p : Nat)
    (hp : p ∈ reserveResults final_block_size reserved_block_count reserved_block_size signo
      allow_chain (initial grant hook))
    (hp0 : p ≠ 0) :
    (∃ xs,
      Chain (processN k (Init final_block_size reserved_block_count reserved_block_size
          signo allow_chain (initial grant hook))).m_next
        (processN k (Init final_block_size reserved_block_count reserved_block_size
          signo allow_chain (initial grant hook))).blk_arr_list_ xs ∧
      xs.Nodup ∧
      (processN k (Init final_block_size reserved_block_count reserved_block_size signo
        allow_chain (initial grant hook))).trace.count (Event.delete_arr p) + xs.count p = 1) ∧
    (processN k (Init final_block_size reserved_block_count reserved_block_size signo
      allow_chain (initial grant hook))).trace.count (Event.delete_arr p) ≤ 1 ∧
    ((processN k (Init final_block_size reserved_block_count reserved_block_size signo
        allow_chain (initial grant hook))).trace.count (Event.delete_arr p) = 1 →
      ∀ m, ∃ xs,
        Chain (processN (k + m) (Init final_block_size reserved_block_count
            reserved_block_size signo allow_chain (initial grant hook))).m_next
          (processN (k + m) (Init final_block_size reserved_block_count
            reserved_block_size signo allow_chain (initial grant hook))).blk_arr_list_ xs ∧
        p ∉ xs) ∧
    ((Init final_block_size reserved_block_count reserved_block_size signo allow_chain
        (initial grant hook)).trace.count (Event.delete_arr p) = 1 ↔
      ((reserveResults final_block_size reserved_block_count reserved_block_size signo
        allow_chain (initial grant hook)).filter (fun q => decide (q ≠ 0))).getLast? =
          some p) ∧
    (∀ i, Event.delete_arr p ∈ invocationEffects (processN i (Init final_block_size
        reserved_block_count reserved_block_size signo allow_chain (initial grant hook))) →
      (processN i (Init final_block_size reserved_block_count reserved_block_size signo
        allow_chain (initial grant hook))).blk_arr_list_ = p ∧
      invocationEffects (processN i (Init final_block_size reserved_block_count
          reserved_block_size signo allow_chain (initial grant hook))) =
        Event.delete_arr p ::
          (if (GetFullState (processN i (Init final_block_size reserved_block_count
              reserved_block_size signo allow_chain (initial grant hook)))).signo ≠ 0
            then [Event.raise (GetFullState (processN i (Init final_block_size
              reserved_block_count reserved_block_size signo allow_chain
              (initial grant hook)))).signo]
            else [])) := by
  have hmem := mem_reserveResults hp hp0
  have hL := Lifecycle.at_Init grant hook final_block_size reserved_block_count
    reserved_block_size signo allow_chain
  have hlast := reserveResults_last grant hook final_block_size reserved_block_count
    reserved_block_size signo allow_chain p
  have hdel := Init_first_delete_count grant hook final_block_size reserved_block_count
    reserved_block_size signo allow_chain p
  generalize Init final_block_size reserved_block_count reserved_block_size signo
    allow_chain (initial grant hook) = s0 at hL hdel
  obtain ⟨xs, h1, h2, h3⟩ := (hL.through_processN k).list
  have hsum := h3 p hmem
  refine ⟨⟨xs, h1, h2, hsum⟩, by omega, ?_, ?_, ?_⟩
  · intro hone m
    obtain ⟨ys, g1, _, g3⟩ := (hL.through_processN (k + m)).list
    have hsum2 := g3 p hmem
    obtain ⟨es, hes⟩ := processN_trace_extends m (processN k s0)
    rw [processN_add, hes, List.count_append, hone] at hsum2
    refine ⟨ys, g1, ?_⟩
    exact List.count_eq_zero.mp (by omega)
  · rw [hlast, hdel]
    constructor
    · intro h
      by_cases hc : reserveRun grant final_block_size reserved_block_count
          reserved_block_size ≠ 0 ∧ p = finalRequests final_block_size +
            reserveRun grant final_block_size reserved_block_count reserved_block_size
      · exact hc
      · rw [if_neg hc] at h
        exact absurd h (by decide)
    · intro h
      rw [if_pos h]
  · intro i hi
    exact (hL.through_processN i).freed_by_release hmem hi

/-- An instance of `reserve_array_lifecycle`: `Init(0, 2, 8, 0, false)` with every request
granted obtains the arrays 1, 2 and 3 and deletes 3; the first invocation of `Process`
deletes the array 2, which is then deleted exactly once and off the list. -/
theorem reserve_array_lifecycle_witness :
    2 ∈ reserveResults 0 2 8 0 false (initial (fun _ => true) none) ∧ (2 : Nat) ≠ 0 ∧
    (processN 1 (Init 0 2 8 0 false (initial (fun _ => true) none))).trace.count
      (Event.delete_arr 2) ≤ 1 ∧
    (processN 1 (Init 0 2 8 0 false (initial (fun _ => true) none))).trace =
      [Event.new_nothrow 1 1, Event.new_nothrow 1 2, Event.new_nothrow 1 3,
        Event.delete_arr 3, Event.set_new_handler (some Hook.process), Event.delete_arr 2] :=
  ⟨by decide, by decide,
    (reserve_array_lifecycle (fun _ => true) none 0 2 8 0 false 1 2 (by decide)
      (by decide)).2.1,
    by decide⟩

/-! ## The oldest variant: `src/include/simple_new_handler.h` -/

namespace oldest

theorem reserveLoop_granted (e n ii : Nat) (w : Worker) (r : Runtime)
    (hg : r.grant r.requests = true) :
    reserveLoop e (n + 1) ii w r =
      reserveLoop e n ((ii + 1) % UINT_MOD) { w with blk_arr_list_ := r.requests + 1 }
        { m_next := fun q => if q = r.requests + 1 then w.blk_arr_list_ else r.m_next q,
          new_handler := r.new_handler, grant := r.grant, requests := r.requests + 1,
          trace := r.trace ++ [Event.new_nothrow e (r.requests + 1)] } := by
  rw [reserveLoop]
  simp [Runtime.new_nothrow, Runtime.emit, Runtime.store_next, hg]

theorem reserveLoop_refused (e n ii : Nat) (w : Worker) (r : Runtime)
    (hg : ¬ r.grant r.requests = true) :
    reserveLoop e (n + 1) ii w r =
      ({ w with allocated_block_count_ := ii },
        { m_next := r.m_next, new_handler := r.new_handler, grant := r.grant,
          requests := r.requests + 1, trace := r.trace ++ [Event.new_nothrow e 0] }) := by
  rw [reserveLoop]
  simp [Runtime.new_nothrow, Runtime.emit, hg]

theorem reserveLoop_spec (e : Nat) : ∀ (n ii : Nat) (w : Worker) (r : Runtime) (xs : List Nat),
    Chain r.m_next w.blk_arr_list_ xs → (∀ x ∈ xs, x ≤ r.requests) → ii + n < UINT_MOD →
    (reserveLoop e n ii w r).2.trace =
      r.trace ++ (grantedEvents e r.requests (grantedRun r.grant r.requests n) ++
        (if grantedRun r.grant r.requests n < n then [Event.new_nothrow e 0] else [])) ∧
    Chain (reserveLoop e n ii w r).2.m_next (reserveLoop e n ii w r).1.blk_arr_list_
      (stacked r.requests (grantedRun r.grant r.requests n) ++ xs) ∧
    (reserveLoop e n ii w r).1.allocated_block_count_ =
      (if grantedRun r.grant r.requests n < n then ii + grantedRun r.grant r.requests n
        else w.allocated_block_count_) ∧
    (reserveLoop e n ii w r).1.init_done_ = w.init_done_ ∧
    (reserveLoop e n ii w r).1.signo_ = w.signo_ ∧
    (reserveLoop e n ii w r).1.final_block_size_ = w.final_block_size_ ∧
    (reserveLoop e n ii w r).1.reserved_block_size_ = w.reserved_block_size_ ∧
    (reserveLoop e n ii w r).1.reserved_block_count_ = w.reserved_block_count_ ∧
    (reserveLoop e n ii w r).1.available_block_count_ = w.available_block_count_ ∧
    (reserveLoop e n ii w r).1.final_block_ = w.final_block_ ∧
    (reserveLoop e n ii w r).2.new_handler = r.new_handler := by
  intro n
  induction n with
  | zero =>
    intro ii w r xs hc _ _
    simpa [reserveLoop, grantedRun, grantedEvents, stacked] using hc
  | succ n ih =>
    intro ii w r xs hc hxs hii
    by_cases hg : r.grant r.requests = true
    · rw [reserveLoop_granted e n ii w r hg]
      have hii1 : (ii + 1) % UINT_MOD = ii + 1 := Nat.mod_eq_of_lt (by omega)
      have hchain : Chain (fun q => if q = r.requests + 1 then w.blk_arr_list_ else r.m_next q)
          (r.requests + 1) ((r.requests + 1) :: xs) := by
        refine ⟨rfl, by omega, ?_⟩
        have := Chain.store (r.requests + 1) w.blk_arr_list_ xs w.blk_arr_list_
          (fun x hx => by have := hxs x hx; omega) hc
        simpa using this
      have hle : ∀ x ∈ (r.requests + 1) :: xs, x ≤ r.requests + 1 := by
        intro x hx
        rcases List.mem_cons.mp hx with h | h
        · omega
        · have := hxs x h; omega
      have := ih ((ii + 1) % UINT_MOD) { w with blk_arr_list_ := r.requests + 1 }
        { m_next := fun q => if q = r.requests + 1 then w.blk_arr_list_ else r.m_next q,
          new_handler := r.new_handler, grant := r.grant, requests := r.requests + 1,
          trace := r.trace ++ [Event.new_nothrow e (r.requests + 1)] }
        ((r.requests + 1) :: xs) hchain hle (by rw [hii1]; omega)
      obtain ⟨h1, h2, h3, h4⟩ := this
      have hrun : grantedRun r.grant r.requests (n + 1) =
          grantedRun r.grant (r.requests + 1) n + 1 := by
        rw [grantedRun]; simp [hg]
      rw [hrun]
      refine ⟨?_, ?_, ?_, h4⟩
      · rw [h1]
        simp [grantedEvents]
      · rw [stacked_shift]
        simpa using h2
      · rw [h3, hii1]
        by_cases hlt : grantedRun r.grant (r.requests + 1) n < n
        · simp [hlt]; omega
        · simp [hlt]
    · rw [reserveLoop_refused e n ii w r hg]
      have hrun : grantedRun r.grant r.requests (n + 1) = 0 := by
        rw [grantedRun]; simp [hg]
      rw [hrun]
      simpa [grantedEvents, stacked] using hc

end oldest

namespace oldest

theorem blockLimit_eq_min (c : Nat) : blockLimit c = min c UINT_MAX := by
  unfold blockLimit
  by_cases h : c < UINT_MAX
  · rw [if_pos h, Nat.mod_eq_of_lt (by unfold UINT_MAX at h; unfold UINT_MOD; omega)]
    omega
  · rw [if_neg h]
    omega

theorem stacked_eq_reverse (first : Nat) : ∀ j,
    stacked first j = (List.range' (first + 1) j).reverse := by
  intro j
  induction j with
  | zero => rfl
  | succ j ih =>
    rw [List.range'_concat, List.reverse_append, ← ih]
    simp [stacked]
    omega

theorem initFinal_keeps (f : Nat) (w : Worker) (r : Runtime) :
    (initFinal f w r).1.blk_arr_list_ = w.blk_arr_list_ ∧
    (initFinal f w r).1.allocated_block_count_ = w.allocated_block_count_ ∧
    (initFinal f w r).1.available_block_count_ = w.available_block_count_ ∧
    (initFinal f w r).1.init_done_ = w.init_done_ ∧
    (initFinal f w r).2.grant = r.grant := by
  unfold initFinal
  dsimp only
  split_ifs <;> simp [Runtime.new_nothrow, Runtime.emit, Runtime.store_next]

theorem publishCounts_spec (limit : Nat) (w : Worker) :
    (publishCounts limit w).allocated_block_count_ =
      (if w.blk_arr_list_ ≠ 0 ∧ w.allocated_block_count_ = 0 then limit
        else w.allocated_block_count_) ∧
    (publishCounts limit w).available_block_count_ =
      (if w.blk_arr_list_ ≠ 0 ∧ w.allocated_block_count_ = 0 then limit
        else w.allocated_block_count_) ∧
    (publishCounts limit w).blk_arr_list_ = w.blk_arr_list_ ∧
    (publishCounts limit w).init_done_ = w.init_done_ := by
  unfold publishCounts
  dsimp only
  split_ifs <;> simp

theorem publishCounts_run (limit j first : Nat) (m : Nat → Nat) (w : Worker)
    (hl : 0 < limit) (hj : j ≤ limit) (hc : Chain m w.blk_arr_list_ (stacked first j))
    (ha : w.allocated_block_count_ = if j < limit then j else 0) :
    (publishCounts limit w).allocated_block_count_ = j ∧
    (publishCounts limit w).available_block_count_ = j := by
  obtain ⟨h1, h2, -, -⟩ := publishCounts_spec limit w
  have hnull := Chain.null_iff hc
  have hs : stacked first j = [] ↔ j = 0 := by
    constructor
    · intro h
      have := congrArg List.length h
      rwa [length_stacked] at this
    · intro h; subst h; rfl
  rw [hs] at hnull
  rw [h1, h2, ha]
  by_cases hlt : j < limit
  · by_cases hj0 : j = 0
    · simp [hlt, hj0, hnull.mpr hj0]
    · simp [hlt, hj0]
  · have hj0 : j ≠ 0 := by omega
    have hb : w.blk_arr_list_ ≠ 0 := fun h => hj0 (hnull.mp h)
    simp [hlt, hb]
    omega

theorem initReserve_spec (c z : Nat) (w : Worker) (r : Runtime) (hc : c ≠ 0) (hz : z ≠ 0)
    (hblk : w.blk_arr_list_ = 0) (halloc : w.allocated_block_count_ = 0) :
    (initReserve c z w r).2.trace =
      r.trace ++ (grantedEvents (reservedElems z) r.requests
          (grantedRun r.grant r.requests (blockLimit c)) ++
        (if grantedRun r.grant r.requests (blockLimit c) < blockLimit c then
          [Event.new_nothrow (reservedElems z) 0] else [])) ∧
    Chain (initReserve c z w r).2.m_next (initReserve c z w r).1.blk_arr_list_
      (stacked r.requests (grantedRun r.grant r.requests (blockLimit c))) ∧
    (initReserve c z w r).1.allocated_block_count_ =
      grantedRun r.grant r.requests (blockLimit c) ∧
    (initReserve c z w r).1.available_block_count_ =
      grantedRun r.grant r.requests (blockLimit c) ∧
    (initReserve c z w r).1.init_done_ = w.init_done_ := by
  have hL : 0 < blockLimit c := by rw [blockLimit_eq_min]; unfold UINT_MAX; omega
  have hU : 0 + blockLimit c < UINT_MOD := by
    rw [blockLimit_eq_min]; unfold UINT_MAX UINT_MOD; omega
  obtain ⟨hj, -, -⟩ := grantedRun_spec r.grant (blockLimit c) r.requests
  have hc0 : Chain r.m_next w.blk_arr_list_ [] := by rw [hblk]; rfl
  obtain ⟨h1, h2, h3, h4, -, -, -, -, -, -, -⟩ :=
    reserveLoop_spec (reservedElems z) (blockLimit c) 0
      { w with reserved_block_count_ := c, reserved_block_size_ := z } r [] hc0
      (fun x hx => absurd hx (List.not_mem_nil x)) hU
  rw [List.append_nil] at h2
  have h3b : (reserveLoop (reservedElems z) (blockLimit c) 0
      { w with reserved_block_count_ := c, reserved_block_size_ := z } r).1.allocated_block_count_
        = if grantedRun r.grant r.requests (blockLimit c) < blockLimit c then
          grantedRun r.grant r.requests (blockLimit c) else 0 := by
    rw [h3]; simp [halloc]
  obtain ⟨p1, p2⟩ := publishCounts_run (blockLimit c) _ _ _ _ hL hj h2 h3b
  obtain ⟨-, -, p3, p4⟩ := publishCounts_spec (blockLimit c) (reserveLoop (reservedElems z)
    (blockLimit c) 0 { w with reserved_block_count_ := c, reserved_block_size_ := z } r).1
  unfold initReserve
  simp only [ne_eq, hc, hz, not_false_eq_true, and_self, if_true]
  refine ⟨h1, ?_, p1, p2, ?_⟩
  · rw [p3]; exact h2
  · rw [p4]; exact h4

end oldest

namespace oldest

theorem Init_fresh_pool (grant : Nat → Bool) (hook : Option Nat) (f c z : Nat) (g : Int)
    (hc : c ≠ 0) (hz : z ≠ 0) :
    ∃ first j, j ≤ blockLimit c ∧
      reserveResults f c z g (Runtime.start grant hook) =
        List.range' (first + 1) j ++ (if j < blockLimit c then [0] else []) ∧
      (Worker.Init f c z g Worker.ctor (Runtime.start grant hook)).1.init_done_ = true ∧
      (Worker.Init f c z g Worker.ctor
        (Runtime.start grant hook)).1.allocated_block_count_ = j ∧
      (Worker.Init f c z g Worker.ctor
        (Runtime.start grant hook)).1.available_block_count_ = j ∧
      Chain (Worker.Init f c z g Worker.ctor (Runtime.start grant hook)).2.m_next
        (Worker.Init f c z g Worker.ctor (Runtime.start grant hook)).1.blk_arr_list_
        (stacked first j) := by
  obtain ⟨a1, a2, -, -, -⟩ := initFinal_keeps f Worker.ctor (Runtime.start grant hook)
  obtain ⟨h1, h2, h3, h4, -⟩ := initReserve_spec c z
    (initFinal f Worker.ctor (Runtime.start grant hook)).1
    (initFinal f Worker.ctor (Runtime.start grant hook)).2 hc hz a1 a2
  obtain ⟨hj, -, -⟩ := grantedRun_spec
    (initFinal f Worker.ctor (Runtime.start grant hook)).2.grant (blockLimit c)
    (initFinal f Worker.ctor (Runtime.start grant hook)).2.requests
  have hI : Worker.Init f c z g Worker.ctor (Runtime.start grant hook) =
      initHandler g
        (initReserve c z (initFinal f Worker.ctor (Runtime.start grant hook)).1
          (initFinal f Worker.ctor (Runtime.start grant hook)).2).1
        (initReserve c z (initFinal f Worker.ctor (Runtime.start grant hook)).1
          (initFinal f Worker.ctor (Runtime.start grant hook)).2).2 := by
    unfold Worker.Init
    simp [Worker.ctor]
  refine ⟨(initFinal f Worker.ctor (Runtime.start grant hook)).2.requests,
    grantedRun (initFinal f Worker.ctor (Runtime.start grant hook)).2.grant
      (initFinal f Worker.ctor (Runtime.start grant hook)).2.requests (blockLimit c),
    hj, ?_, ?_, ?_, ?_, ?_⟩
  · unfold reserveResults
    rw [hI]
    have : (initHandler g
        (initReserve c z (initFinal f Worker.ctor (Runtime.start grant hook)).1
          (initFinal f Worker.ctor (Runtime.start grant hook)).2).1
        (initReserve c z (initFinal f Worker.ctor (Runtime.start grant hook)).1
          (initFinal f Worker.ctor (Runtime.start grant hook)).2).2).2.trace =
        (initReserve c z (initFinal f Worker.ctor (Runtime.start grant hook)).1
          (initFinal f Worker.ctor (Runtime.start grant hook)).2).2.trace ++
          [Event.set_new_handler (some Hook.process)] := rfl
    rw [this, h1, List.append_assoc, List.drop_left]
    simp only [allocResults_append, allocResults_granted]
    split_ifs <;> simp [allocResults]
  · rw [hI]; rfl
  · rw [hI]; exact h3
  · rw [hI]; exact h4
  · rw [hI]; exact h2

/-- C24: in the oldest variant (`src/include`), `Init` with a positive count and a positive
size on a fresh worker makes at most `min(reservedBlockCount, UINT_MAX)` requests for
reserve arrays and stops at the first refusal: the results are the obtained arrays `ps`,
followed by one null result exactly when fewer than the limit were obtained.  Afterwards
`allocated_block_count` and `available_block_count` are both the number of arrays
obtained, the list holds exactly these arrays, and the number is at most
`reservedBlockCount`. -/
theorem Worker_Init_reserve (grant : Nat → Bool) (hook : Option Nat) (f c z : Nat) (g : Int)
    (hc : 0 < c) (hz : 0 < z) :
    ∃ ps : List Nat,
      (∀ p ∈ ps, p ≠ 0) ∧ ps.Nodup ∧
      (reserveResults f c z g (Runtime.start grant hook) = ps ∨
        reserveResults f c z g (Runtime.start grant hook) = ps ++ [0]) ∧
      (reserveResults f c z g (Runtime.start grant hook)).length ≤ min c UINT_MAX ∧
      (ps.length < min c UINT_MAX →
        reserveResults f c z g (Runtime.start grant hook) = ps ++ [0]) ∧
      Worker.GetState (Worker.Init f c z g Worker.ctor (Runtime.start grant hook)).1 =
        { allocated_block_count := ps.length, available_block_count := ps.length } ∧
      (Worker.GetFullState (Worker.Init f c z g Worker.ctor
        (Runtime.start grant hook)).1).allocated_block_count = ps.length ∧
      (Worker.GetFullState (Worker.Init f c z g Worker.ctor
        (Runtime.start grant hook)).1).available_block_count = ps.length ∧
      Chain (Worker.Init f c z g Worker.ctor (Runtime.start grant hook)).2.m_next
        (Worker.Init f c z g Worker.ctor (Runtime.start grant hook)).1.blk_arr_list_
        ps.reverse ∧
      ps.reverse.length = ps.length ∧
      ps.length ≤ c := by
  obtain ⟨first, j, hj, h1, h2, h3, h4, h5⟩ :=
    Init_fresh_pool grant hook f c z g (by omega) (by omega)
  rw [blockLimit_eq_min] at hj h1
  refine ⟨List.range' (first + 1) j, ?_, List.nodup_range' _ _, ?_, ?_, ?_, ?_, ?_, ?_, ?_,
    List.length_reverse _, ?_⟩
  · intro p hp
    have := (List.mem_range'_1.mp hp).1
    omega
  · rw [h1]
    split_ifs
    · exact Or.inr rfl
    · exact Or.inl (List.append_nil _)
  · rw [h1]
    split_ifs with hlt
    · simp only [List.length_append, List.length_range', List.length_singleton]; omega
    · simp only [List.append_nil, List.length_range']; exact hj
  · intro hlt
    rw [List.length_range'] at hlt
    rw [h1, if_pos hlt]
  · unfold Worker.GetState
    simp [h2, h3, h4]
  · unfold Worker.GetFullState
    simp [h2, h3]
  · unfold Worker.GetFullState
    simp [h2, h4]
  · rw [← stacked_eq_reverse]; exact h5
  · rw [List.length_range']; omega

/-- An instance of `Worker_Init_reserve`: `Init(0, 3, 8, 0)` on a fresh worker whose second
request is refused obtains one array, asks once more and reports one array. -/
theorem Worker_Init_reserve_witness :
    (0 < 3 ∧ 0 < 8) ∧
    reserveResults 0 3 8 0 (Runtime.start (fun k => decide (k < 1)) none) = [1, 0] ∧
    Worker.GetState (Worker.Init 0 3 8 0 Worker.ctor
      (Runtime.start (fun k => decide (k < 1)) none)).1 =
      { allocated_block_count := 1, available_block_count := 1 } ∧
    ∃ ps : List Nat, ps.length ≤ 3 ∧
      Worker.GetState (Worker.Init 0 3 8 0 Worker.ctor
        (Runtime.start (fun k => decide (k < 1)) none)).1 =
        { allocated_block_count := ps.length, available_block_count := ps.length } :=
  ⟨⟨by decide, by decide⟩, by decide, by decide,
    (Worker_Init_reserve (fun k => decide (k < 1)) none 0 3 8 0 (by decide) (by decide)).elim
      (fun ps h => ⟨ps, h.2.2.2.2.2.2.2.2.2.2, h.2.2.2.2.2.1⟩)⟩

end oldest

/-! ## The legacy variant: `src/legacy/simple_new_handler.h` -/

theorem join_new_nothrow (e : Nat) (w : legacy.Worker) (r : Runtime) :
    new_nothrow e (join w r) = ((r.new_nothrow e).1, join w (r.new_nothrow e).2) := rfl

theorem join_delete_arr (p : Nat) (w : legacy.Worker) (r : Runtime) :
    delete_arr p (join w r) = join w (r.delete_arr p) := by
  unfold delete_arr Runtime.delete_arr
  split <;> rfl

theorem join_set_new_handler (h : Option Hook) (w : legacy.Worker) (r : Runtime) :
    set_new_handler h (join w r) = ((r.set_new_handler h).1, join w (r.set_new_handler h).2) :=
  rfl

theorem join_emit (e : Event) (w : legacy.Worker) (r : Runtime) :
    emit e (join w r) = join w (r.emit e) := rfl

theorem join_initConfig (f c z : Nat) (g : Int) (w : legacy.Worker) (r : Runtime) :
    initConfig f c z g (join w r) = join (legacy.initConfig f c z g w) r := rfl

theorem join_initFinal (f : Nat) (w : legacy.Worker) (r : Runtime) :
    initFinal f (join w r) = join (legacy.initFinal f w r).1 (legacy.initFinal f w r).2 := by
  unfold initFinal legacy.initFinal
  have hs : finalSize f = legacy.finalSize f := rfl
  rw [hs]
  by_cases h0 : legacy.finalSize f ≠ 0
  · rw [if_pos h0, if_pos h0]
    dsimp only
    rw [join_new_nothrow]
    dsimp only
    split <;> rfl
  · rw [if_neg h0, if_neg h0]


theorem join_link (p : Nat) (w : legacy.Worker) (r : Runtime) :
    link p (join w r) =
      join { w with blk_arr_list_ := p } (r.store_next p w.blk_arr_list_) := rfl

theorem join_reserveLoop (sz : Nat) : ∀ (n c : Nat) (w : legacy.Worker) (r : Runtime),
    reserveLoop sz n c (join w r) =
      ((legacy.reserveLoop sz n c w r).1,
        join (legacy.reserveLoop sz n c w r).2.1 (legacy.reserveLoop sz n c w r).2.2) := by
  intro n
  induction n with
  | zero => intro c w r; rfl
  | succ n ih =>
    intro c w r
    rw [reserveLoop, legacy.reserveLoop, join_new_nothrow]
    by_cases h : (r.new_nothrow sz).1 = 0
    · simp only [h, if_true]
    · simp only [h, if_false]
      rw [join_link]
      exact ih _ _ _

theorem join_releaseExtra (c : Nat) (w : legacy.Worker) (r : Runtime) :
    releaseExtra c (join w r) =
      join (legacy.releaseExtra c w r).1 (legacy.releaseExtra c w r).2 := by
  unfold releaseExtra legacy.releaseExtra
  by_cases h0 : w.blk_arr_list_ ≠ 0
  · have h1 : (join w r).blk_arr_list_ ≠ 0 := h0
    rw [if_pos h0, if_pos h1]
    have hj : delete_arr (join w r).blk_arr_list_
        { join w r with blk_arr_list_ := (join w r).m_next (join w r).blk_arr_list_ } =
        join { w with blk_arr_list_ := r.m_next w.blk_arr_list_ }
          (r.delete_arr w.blk_arr_list_) :=
      join_delete_arr w.blk_arr_list_ { w with blk_arr_list_ := r.m_next w.blk_arr_list_ } r
    dsimp only
    rw [hj]
    rfl
  · have h1 : ¬ (join w r).blk_arr_list_ ≠ 0 := h0
    rw [if_neg h0, if_neg h1]

theorem join_initReserve (c z : Nat) (w : legacy.Worker) (r : Runtime) :
    initReserve c z (join w r) =
      join (legacy.initReserve c z w r).1 (legacy.initReserve c z w r).2 := by
  unfold initReserve legacy.initReserve
  by_cases h : c ≠ 0 ∧ z ≠ 0
  · rw [if_pos h, if_pos h]
    have hb : blockLimit c = legacy.blockLimit c := rfl
    have hz : reservedArrSize z = legacy.reservedArrSize z := rfl
    dsimp only
    rw [hb, hz, join_reserveLoop, join_releaseExtra]
  · rw [if_neg h, if_neg h]

theorem join_initHandler (a : Bool) (w : legacy.Worker) (r : Runtime) :
    initHandler a (join w r) =
      join (legacy.initHandler a w r).1 (legacy.initHandler a w r).2 := by
  unfold initHandler legacy.initHandler
  cases a with
  | false => rfl
  | true =>
    cases h : r.new_handler with
    | none => simp [set_new_handler, Runtime.set_new_handler, join, emit, Runtime.emit, h]
    | some k => simp [set_new_handler, Runtime.set_new_handler, join, emit, Runtime.emit, h]

theorem join_Init (f c z : Nat) (g : Int) (a : Bool) (w : legacy.Worker) (r : Runtime) :
    Init f c z g a (join w r) =
      join (legacy.Worker.Init f c z g a w r).1 (legacy.Worker.Init f c z g a w r).2 := by
  unfold Init legacy.Worker.Init
  have hd : (join w r).full_state_.init_done = w.full_state_.init_done := rfl
  rw [hd]
  cases w.full_state_.init_done with
  | true => rfl
  | false =>
    simp only [Bool.false_eq_true, if_false]
    rw [join_initConfig, join_initFinal, join_initReserve, join_initHandler]

theorem join_processRelease (w : legacy.Worker) (r : Runtime) :
    processRelease (join w r) =
      join (legacy.processRelease w r).1 (legacy.processRelease w r).2 := by
  unfold processRelease legacy.processRelease
  have hj : delete_arr (join w r).blk_arr_list_
      { join w r with blk_arr_list_ := (join w r).m_next (join w r).blk_arr_list_ } =
      join { w with blk_arr_list_ := r.m_next w.blk_arr_list_ }
        (r.delete_arr w.blk_arr_list_) :=
    join_delete_arr w.blk_arr_list_ { w with blk_arr_list_ := r.m_next w.blk_arr_list_ } r
  dsimp only
  rw [hj]
  by_cases hc : w.available_block_count_ > 0
  · by_cases hs : w.full_state_.signo ≠ 0
    · simp only [join, hc, hs, if_true, ne_eq, not_false_eq_true, emit, Runtime.emit]
    · simp only [join, hc, hs, if_true, if_false, ne_eq, not_false_eq_true, emit,
        Runtime.emit]
  · by_cases hs : w.full_state_.signo ≠ 0
    · simp only [join, hc, hs, if_true, if_false, ne_eq, not_false_eq_true, emit,
        Runtime.emit]
    · simp only [join, hc, hs, if_true, if_false, ne_eq, not_false_eq_true, emit,
        Runtime.emit]

theorem join_processTerminal (w : legacy.Worker) (r : Runtime) :
    processTerminal (join w r) =
      ((legacy.processTerminal w r).1,
        join (legacy.processTerminal w r).2.1 (legacy.processTerminal w r).2.2) := by
  unfold processTerminal legacy.processTerminal
  have hj : delete_arr (join w r).final_block_ (join w r) =
      join w (r.delete_arr w.final_block_) := join_delete_arr w.final_block_ w r
  dsimp only
  rw [hj]
  cases hp : w.prev_handler_ with
  | none =>
    have h1 : (join w (r.delete_arr w.final_block_)).prev_handler_ = none := hp
    simp only [h1]
    rfl
  | some h =>
    have h1 : (join w (r.delete_arr w.final_block_)).prev_handler_ = some h := hp
    simp only [h1]
    rfl

theorem join_Process (w : legacy.Worker) (r : Runtime) :
    Process (join w r) =
      ((legacy.Worker.Process w r).1,
        join (legacy.Worker.Process w r).2.1 (legacy.Worker.Process w r).2.2) := by
  unfold Process legacy.Worker.Process
  have hb : (join w r).blk_arr_list_ = w.blk_arr_list_ := rfl
  rw [hb]
  by_cases h : w.blk_arr_list_ ≠ 0
  · rw [if_pos h, if_pos h, join_processRelease]
  · rw [if_neg h, if_neg h, join_processTerminal]

theorem toMachine_start (grant : Nat → Bool) (hook : Option Nat) :
    toMachine (legacy.Program.start grant hook) = initial grant hook := rfl

theorem toMachine_Init (f c z : Nat) (g : Int) (a : Bool) (p : legacy.Program) :
    toMachine (legacy.Init f c z g a p) = Init f c z g a (toMachine p) := by
  unfold toMachine legacy.Init
  rw [join_Init]
  rfl

theorem toMachine_Process (p : legacy.Program) :
    Process (toMachine p) = ((legacy.Process p).1, toMachine (legacy.Process p).2) := by
  unfold toMachine legacy.Process
  rw [join_Process]
  rfl

theorem toMachine_step (p : legacy.Program) (op : Op) :
    toMachine (legacy.step p op) = step (toMachine p) op := by
  cases op with
  | init f c z g a => exact toMachine_Init f c z g a p
  | process =>
    show toMachine (legacy.Process p).2 = (Process (toMachine p)).2
    rw [toMachine_Process]

theorem toMachine_runOps : ∀ (ops : List Op) (p : legacy.Program),
    toMachine (legacy.runOps p ops) = runOps (toMachine p) ops := by
  intro ops
  induction ops with
  | nil => intro p; rfl
  | cons op ops ih =>
    intro p
    show toMachine (legacy.runOps (legacy.step p op) ops) = runOps (step (toMachine p) op) ops
    rw [ih, toMachine_step]

/-- C23: the legacy variant (`src/legacy`, the `Worker` singleton) and the canonical variant
(inline statics) are observationally equivalent.  For every sequence of `Init` and
`Process` calls, the same allocator behaviour and the same previously registered hook,
after every number `k` of calls the two report the same `GetState` and `GetFullState`,
have performed the same sequence of effects, have the same handler registered, and a
`Process` invocation made next ends the same way (return, delegation or halt). -/
theorem legacy_observationally_equivalent (grant : Nat → Bool) (hook : Option Nat)
    (ops : List Op) (k : Nat) :
    legacy.GetState (legacy.runOps (legacy.Program.start grant hook) (ops.take k)) =
      GetState (runOps (initial grant hook) (ops.take k)) ∧
    legacy.GetFullState (legacy.runOps (legacy.Program.start grant hook) (ops.take k)) =
      GetFullState (runOps (initial grant hook) (ops.take k)) ∧
    (legacy.runOps (legacy.Program.start grant hook) (ops.take k)).runtime.trace =
      (runOps (initial grant hook) (ops.take k)).trace ∧
    (legacy.runOps (legacy.Program.start grant hook) (ops.take k)).runtime.new_handler =
      (runOps (initial grant hook) (ops.take k)).new_handler ∧
    (legacy.Process (legacy.runOps (legacy.Program.start grant hook) (ops.take k))).1 =
      (Process (runOps (initial grant hook) (ops.take k))).1 := by
  have h := toMachine_runOps (ops.take k) (legacy.Program.start grant hook)
  rw [toMachine_start] at h
  rw [← h]
  refine ⟨rfl, rfl, rfl, rfl, ?_⟩
  rw [toMachine_Process]

end simple
